import Mathlib

/-!
# Power graph driver: the transition planner, stage packing, fault ledger and stage executor

A shallow embedding of `drivers/power_graph/power_graph.c`.  C arrays together
with their `ARRAY_SIZE` count are lists; `uint8_t`/`uint16_t`/`unsigned`
quantities are natural numbers (reduced modulo the width wherever the C code
can overflow); `int` return codes are integers.
-/

namespace PowerGraph

/-! ## Constants -/

/-- The errno value ENOENT of the C library (errno.h is outside the repository). -/
def ENOENT : Int := 2
/-- The errno value EAGAIN. -/
def EAGAIN : Int := 11
/-- The errno value EFAULT. -/
def EFAULT : Int := 14
/-- The errno value ERANGE. -/
def ERANGE : Int := 34
/-- The errno value ENODATA. -/
def ENODATA : Int := 61
/-- The errno value EINVAL. -/
def EINVAL : Int := 22
/-- The errno value ECANCELED. -/
def ECANCELED : Int := 140

/-- The constant `UINT_MAX` of a 32-bit `unsigned`. -/
def UINT_MAX : Nat := 4294967295

/-- The sentinel `NO_STATE` is `UINT8_MAX`, since `state_id_t` is `uint8_t`. -/
def NO_STATE : Nat := 255

/-! ## Topology model -/

/-- The C `struct power_transition`; `num_stages` is `stages.length`. -/
structure power_transition where
  stages : List Nat
  initial : Nat
  target : Nat
  flags : Nat
deriving DecidableEq, Repr

/-- The C `struct value_dt_spec`: a device handle and a value identifier. -/
structure value_dt_spec where
  dev : Nat
  id : Nat
deriving DecidableEq, Repr

/-- The C `struct power_state`. -/
structure power_state where
  id : Nat
deriving DecidableEq, Repr

/-- The C `struct driver_config`; the counts `num_specs`, `num_states` and
`num_transitions` are the lengths of the three arrays. -/
structure driver_config where
  specs : List value_dt_spec
  states : List power_state
  transitions : List power_transition
  safe_state : Nat
deriving DecidableEq, Repr

/-- The field `num_transitions`: `ARRAY_SIZE` of the transition table. -/
def driver_config.num_transitions (cfg : driver_config) : Nat := cfg.transitions.length

/-! ## Transition planner -/

/-- The `for` loop of `find_first_transition_to_state`, run over the remaining
transitions `ts` starting at index `i`, with the locals `best_transition_id` and
`best_hops`.  `hops` is the value of `*hops` after the increment on entry, `state`
the searched target, `cur` is `data->state`, and `recurse` performs the recursive
call, returning the transition id and the updated `last_hops` (`none` when the
allowed nesting depth is exhausted). -/
def scan_transitions (cfg : driver_config) (cur state hops : Nat)
    (recurse : Nat → Nat → Option (Int × Nat)) :
    List power_transition → Nat → Int → Nat → Option Int
  | [], _, best_transition_id, _ => some best_transition_id
  | transition :: ts, i, best_transition_id, best_hops =>
    if transition.target ≠ state then
      scan_transitions cfg cur state hops recurse ts (i + 1) best_transition_id best_hops
    else if transition.initial = cur then
      some (i : Int)
    else if hops ≥ cfg.num_transitions then
      scan_transitions cfg cur state hops recurse ts (i + 1) best_transition_id best_hops
    else
      match recurse transition.initial hops with
      | none => none
      | some (last_transition_id, last_hops) =>
        if last_transition_id = -ENOENT then
          scan_transitions cfg cur state hops recurse ts (i + 1) best_transition_id best_hops
        else if last_hops < best_hops then
          scan_transitions cfg cur state hops recurse ts (i + 1) last_transition_id last_hops
        else
          scan_transitions cfg cur state hops recurse ts (i + 1) best_transition_id best_hops

/-- The C function `find_first_transition_to_state`.  `depth` is the number of
nested recursive calls still allowed below this call; the result is `none` when
a recursive call would be needed beyond it.  The second component of the result
is the value left in `*hops`. -/
def find_first_transition_to_state (cfg : driver_config) (cur : Nat) :
    Nat → Nat → Nat → Option (Int × Nat)
  | 0, state, hops =>
    (scan_transitions cfg cur state ((hops + 1) % 2 ^ 32) (fun _ _ => none)
      cfg.transitions 0 (-ENOENT) UINT_MAX).map (fun r => (r, (hops + 1) % 2 ^ 32))
  | depth + 1, state, hops =>
    (scan_transitions cfg cur state ((hops + 1) % 2 ^ 32)
      (fun s h => find_first_transition_to_state cfg cur depth s h)
      cfg.transitions 0 (-ENOENT) UINT_MAX).map (fun r => (r, (hops + 1) % 2 ^ 32))

/-- The C function `find_first_transition`, for `data->state = cur` and
`data->new_state = new_state`, run with nesting depth `num_transitions`. -/
def find_first_transition (cfg : driver_config) (cur new_state : Nat) : Option Int :=
  (find_first_transition_to_state cfg cur cfg.num_transitions new_state 0).map Prod.fst

/-- A chain of configured transitions: `is_chain cfg c d chain` holds when the
transition indices in `chain` are valid, the first transition starts at `c`,
every next one starts where the previous one ends, and the last one ends at `d`
(the empty chain leads from `c` to `c`). -/
def is_chain (cfg : driver_config) : Nat → Nat → List Nat → Prop
  | c, d, [] => c = d
  | c, d, t :: rest =>
    match cfg.transitions[t]? with
    | some tr => tr.initial = c ∧ is_chain cfg tr.target d rest
    | none => False

instance is_chain_decidable (cfg : driver_config) :
    (c d : Nat) → (chain : List Nat) → Decidable (is_chain cfg c d chain)
  | c, d, [] => by unfold is_chain; exact inferInstance
  | c, d, t :: rest => by
    unfold is_chain
    cases cfg.transitions[t]? with
    | none => exact isFalse (fun h => h)
    | some tr =>
      have := is_chain_decidable cfg tr.target d rest
      exact inferInstance

/-- What the planner may return for a search from `cur` to `state`: no path, or
the first index of a chain of at most `bound` transitions from `cur` to `state`. -/
def sound_result (cfg : driver_config) (cur state bound : Nat) (r : Int) : Prop :=
  r = -ENOENT ∨ ∃ (t : Nat) (rest : List Nat), r = (t : Int) ∧
    is_chain cfg cur state (t :: rest) ∧ (t :: rest).length ≤ bound

/-- A topology with two routes from state 1 to state 4 and no direct edge:
transition 0 (3 to 4) closes the three-hop route 1, 2, 3, 4 and transition 1
(5 to 4) closes the two-hop route 1, 5, 4. -/
def two_route_config : driver_config :=
  { specs := [], states := [⟨1⟩, ⟨2⟩, ⟨3⟩, ⟨4⟩, ⟨5⟩],
    transitions := [⟨[0], 3, 4, 0⟩, ⟨[0], 5, 4, 0⟩, ⟨[0], 1, 2, 0⟩, ⟨[0], 2, 3, 0⟩,
      ⟨[0], 1, 5, 0⟩],
    safe_state := 1 }

/-- A topology with a cycle 1, 2, 3, 1, a self-loop on 2, and a direct edge from
1 to 3 declared after a non-direct transition into 3. -/
def cyclic_config : driver_config :=
  { specs := [], states := [⟨1⟩, ⟨2⟩, ⟨3⟩],
    transitions := [⟨[0], 2, 3, 0⟩, ⟨[0], 1, 2, 0⟩, ⟨[0], 2, 2, 0⟩, ⟨[0], 1, 3, 0⟩,
      ⟨[0], 3, 1, 0⟩],
    safe_state := 1 }

/-! ## Build-time configuration and stage packing -/

/-- The Kconfig constants `CONFIG_POWER_GRAPH_NUM_DEVICES`, `..._NUM_STATES`,
`..._NUM_STAGES` and `..._FAULT_LOG` that size the types of the driver. -/
structure kconfig where
  NUM_DEVICES : Nat
  NUM_STATES : Nat
  NUM_STAGES : Nat
  FAULT_LOG : Nat
deriving DecidableEq, Repr

/-- The chain of conditionals that `FOR_EACH_FIXED_ARG(_LOG2_V, (:), val, ...)`
expands to: `val <= (1 << e) ? e : ...`, ending in `1 << 16`. -/
def _LOG2_V (val : Nat) : List Nat → Nat
  | [] => 1 <<< 16
  | exp :: rest => if val ≤ 1 <<< exp then exp else _LOG2_V val rest

/-- The macro `_LOG2`. -/
def _LOG2 (val : Nat) : Nat :=
  _LOG2_V val [0, 1, 2, 3, 4, 5, 6, 7, 8, 9, 10, 11, 12, 13, 14, 15]

/-- The macro `_BITS_MASK`: `~(~0ull << bits)` on 64-bit unsigned integers. -/
def _BITS_MASK (bits : Nat) : Nat :=
  (2 ^ 64 - 1) - ((2 ^ 64 - 1) <<< bits) % 2 ^ 64

/-- The macro `POWER_GRAPH_PACKED_STAGE_NUM`. -/
def POWER_GRAPH_PACKED_STAGE_NUM (k : kconfig) : Nat := k.NUM_DEVICES * k.NUM_STATES

/-- The macro `PACKED_SPAGE_BITS`: `sizeof(packed_stage_t) * 8`, where
`packed_stage_t` is `uint8_t` when `POWER_GRAPH_PACKED_STAGE_NUM <= 256` and
`uint16_t` otherwise. -/
def PACKED_SPAGE_BITS (k : kconfig) : Nat :=
  if POWER_GRAPH_PACKED_STAGE_NUM k ≤ 256 then 8 else 16

/-- Conversion of an integer value to `packed_stage_t`, as happens when a packed
stage is stored in a stage table. -/
def to_packed_stage_t (k : kconfig) (v : Nat) : Nat := v % 2 ^ PACKED_SPAGE_BITS k

/-- Width of `stage_idx_t`: `uint8_t` when `NUM_STAGES <= 128`, else `uint16_t`. -/
def stage_idx_bits (k : kconfig) : Nat := if k.NUM_STAGES ≤ 128 then 8 else 16

/-- The sentinel `NO_STAGE`: `UINT8_MAX` or `UINT16_MAX` following `stage_idx_t`. -/
def NO_STAGE (k : kconfig) : Nat := if k.NUM_STAGES ≤ 128 then 255 else 65535

/-- Width of `dev_idx_t`: `uint8_t` when `NUM_DEVICES <= 128`, else `uint16_t`. -/
def dev_idx_bits (k : kconfig) : Nat := if k.NUM_DEVICES ≤ 128 then 8 else 16

/-- The sentinel `NO_DEV`: `UINT8_MAX` or `UINT16_MAX` following `dev_idx_t`. -/
def NO_DEV (k : kconfig) : Nat := if k.NUM_DEVICES ≤ 128 then 255 else 65535

/-- The macro `DEV_INDEX_BITS`. -/
def DEV_INDEX_BITS (k : kconfig) : Nat := _LOG2 k.NUM_DEVICES
/-- The macro `DEV_INDEX_MASK`. -/
def DEV_INDEX_MASK (k : kconfig) : Nat := _BITS_MASK (DEV_INDEX_BITS k)
/-- The macro `DEV_STATE_BITS`. -/
def DEV_STATE_BITS (k : kconfig) : Nat := _LOG2 k.NUM_STATES
/-- The macro `DEV_STATE_MASK`. -/
def DEV_STATE_MASK (k : kconfig) : Nat := _BITS_MASK (DEV_STATE_BITS k)

/-- The macro `STAGE_PACK`: `(dev_index) | ((dev_state) << DEV_INDEX_BITS)`. -/
def STAGE_PACK (k : kconfig) (dev_index dev_state : Nat) : Nat :=
  dev_index ||| (dev_state <<< DEV_INDEX_BITS k)

/-- The macro `DEV_INDEX`: `(packed_stage) & DEV_INDEX_MASK`. -/
def DEV_INDEX (k : kconfig) (packed_stage : Nat) : Nat := packed_stage &&& DEV_INDEX_MASK k

/-- The macro `DEV_STATE`: `(packed_stage) >> DEV_INDEX_BITS`. -/
def DEV_STATE (k : kconfig) (packed_stage : Nat) : Nat := packed_stage >>> DEV_INDEX_BITS k

/-! ## Instance state and fault ledger -/

/-- The C `struct power_fault`. -/
structure power_fault where
  transition : Nat
  stage : Nat
  spec : Nat
deriving DecidableEq, Repr

/-- The mutable fields of the C `struct driver_data`: `state` is the current
state, `new_state` the requested one, `transition` and `stage` the active
transition and stage (or `NO_STATE` and `NO_STAGE`), followed by the fault ledger
with its `CONFIG_POWER_GRAPH_FAULT_LOG` slots. -/
structure driver_data where
  state : Nat
  new_state : Nat
  transition : Nat
  stage : Nat
  faults : List power_fault
  num_faults : Nat
  last_fault : Nat
deriving DecidableEq, Repr

/-- The C function `put_fault` (a no-op macro when `CONFIG_POWER_GRAPH_FAULT_LOG`
is 0); `num_faults` and `last_fault` are `uint8_t`. -/
def put_fault (k : kconfig) (data : driver_data) (spec : Nat) : driver_data :=
  if k.FAULT_LOG = 0 then data
  else if (data.transition = NO_STATE ∨ data.stage = NO_STAGE k) ∧ spec = NO_DEV k then data
  else
    let last_fault :=
      if data.num_faults > 0 then ((data.last_fault + 1) % k.FAULT_LOG) % 256
      else data.last_fault
    let faults := data.faults.set last_fault
      { transition := data.transition, stage := data.stage, spec := spec }
    let num_faults :=
      if data.num_faults < k.FAULT_LOG then (data.num_faults + 1) % 256
      else data.num_faults
    { data with faults := faults, num_faults := num_faults, last_fault := last_fault }

/-- The C function `num_faults` (the constant 0 when the ledger is compiled out). -/
def num_faults (k : kconfig) (data : driver_data) : Nat :=
  if k.FAULT_LOG = 0 then 0 else data.num_faults

/-- The slot of the `faults` array that `get_fault` points into, or `none` when it
returns `NULL`.  `depth` is the `uint8_t` argument; the index expression is
evaluated in `int` and converted to `uint8_t`. -/
def get_fault_index (k : kconfig) (data : driver_data) (depth : Nat) : Option Nat :=
  if k.FAULT_LOG = 0 then none
  else if depth > data.num_faults then none
  else
    let index : Int :=
      (if depth > data.last_fault then (data.num_faults : Int) else 0)
        + (data.last_fault : Int) - (depth : Int)
    some (index % 256).toNat

/-- The C function `get_fault`: the record pointed to, `none` for `NULL` (reading
a slot outside the array has no defined value and is `none` as well). -/
def get_fault (k : kconfig) (data : driver_data) (depth : Nat) : Option power_fault :=
  match get_fault_index k data depth with
  | none => none
  | some index => data.faults[index]?

/-- The value identifier `PWRGRAPH_STATE`. -/
def PWRGRAPH_STATE : Nat := 0
/-- The value identifier `PWRGRAPH_NUM_FAULTS`. -/
def PWRGRAPH_NUM_FAULTS : Nat := 1
/-- The constant `PWRGRAPH_FAULT_DATA_TRANSITION`. -/
def PWRGRAPH_FAULT_DATA_TRANSITION : Nat := 0x1000
/-- The constant `PWRGRAPH_FAULT_DATA_STAGE`. -/
def PWRGRAPH_FAULT_DATA_STAGE : Nat := 0x2000
/-- The constant `PWRGRAPH_FAULT_DATA_SPEC`. -/
def PWRGRAPH_FAULT_DATA_SPEC : Nat := 0x4000
/-- The constant `PWRGRAPH_FAULT_DATA_MASK`. -/
def PWRGRAPH_FAULT_DATA_MASK : Nat := 0x7000
/-- The macro `PWRGRAPH_FAULT_DATA`. -/
def PWRGRAPH_FAULT_DATA (id : Nat) : Nat := id &&& PWRGRAPH_FAULT_DATA_MASK
/-- The macro `PWRGRAPH_FAULT_DEPTH`: `id & ~PWRGRAPH_FAULT_DATA_MASK` on the
32-bit `value_id_t`. -/
def PWRGRAPH_FAULT_DEPTH (id : Nat) : Nat := id &&& (2 ^ 32 - 1 - PWRGRAPH_FAULT_DATA_MASK)
/-- The macro `PWRGRAPH_FAULT_TRANSITION`. -/
def PWRGRAPH_FAULT_TRANSITION (n : Nat) : Nat := PWRGRAPH_FAULT_DATA_TRANSITION + n
/-- The macro `PWRGRAPH_FAULT_STAGE`. -/
def PWRGRAPH_FAULT_STAGE (n : Nat) : Nat := PWRGRAPH_FAULT_DATA_STAGE + n
/-- The macro `PWRGRAPH_FAULT_SPEC`. -/
def PWRGRAPH_FAULT_SPEC (n : Nat) : Nat := PWRGRAPH_FAULT_DATA_SPEC + n

/-- The C function `power_graph_get`: the return code and the value written to
`*pvalue`, if any.  The result is `none` when the active transition index lies
outside the transition table (an undefined read).  The depth extracted from the
identifier is converted to the `uint8_t` parameter of `get_fault`. -/
def power_graph_get (k : kconfig) (cfg : driver_config) (data : driver_data) (id : Nat) :
    Option (Int × Option Int) :=
  if id = PWRGRAPH_STATE then
    if data.transition = NO_STATE then some (0, some (data.state : Int))
    else
      match cfg.transitions[data.transition]? with
      | none => none
      | some transition => some (-EAGAIN, some (transition.target : Int))
  else if id = PWRGRAPH_NUM_FAULTS then some (0, some (num_faults k data : Int))
  else if id &&& PWRGRAPH_FAULT_DATA_MASK ≠ 0 then
    match get_fault k data (PWRGRAPH_FAULT_DEPTH id % 256) with
    | none => some (-ERANGE, none)
    | some fault =>
      if PWRGRAPH_FAULT_DATA id = PWRGRAPH_FAULT_DATA_TRANSITION then
        if fault.transition = NO_STATE then some (-ENODATA, some (-1))
        else some (0, some (fault.transition : Int))
      else if PWRGRAPH_FAULT_DATA id = PWRGRAPH_FAULT_DATA_STAGE then
        if fault.stage = NO_STAGE k then some (-ENODATA, some (-1))
        else some (0, some (fault.stage : Int))
      else if PWRGRAPH_FAULT_DATA id = PWRGRAPH_FAULT_DATA_SPEC then
        if fault.spec = NO_DEV k then some (-ENODATA, some (-1))
        else some (0, some (fault.spec : Int))
      else some (-EINVAL, none)
  else some (-EINVAL, none)

/-- The zero-initialised ledger of a freshly defined instance: all
`CONFIG_POWER_GRAPH_FAULT_LOG` slots zero, no fault logged.  The other fields are
those of `POWER_GRAPH_DEVICE`: both states are the safe state and no transition
or stage is active. -/
def initial_data (k : kconfig) (cfg : driver_config) : driver_data :=
  { state := cfg.safe_state, new_state := cfg.safe_state,
    transition := NO_STATE, stage := NO_STAGE k,
    faults := List.replicate k.FAULT_LOG ⟨0, 0, 0⟩, num_faults := 0, last_fault := 0 }

/-- Recording the fault `f`: `put_fault` is called with `f.spec` while
`data->transition` and `data->stage` hold `f.transition` and `f.stage`. -/
def record_fault (k : kconfig) (data : driver_data) (f : power_fault) : driver_data :=
  put_fault k { data with transition := f.transition, stage := f.stage } f.spec

/-- Recording the faults of a list one after the other, first one first. -/
def record_faults (k : kconfig) (data : driver_data) (fs : List power_fault) : driver_data :=
  fs.foldl (record_fault k) data

/-- A fault that `put_fault` does not skip: it has a port index, or both a
transition and a stage. -/
def recordable (k : kconfig) (f : power_fault) : Prop :=
  ¬ ((f.transition = NO_STATE ∨ f.stage = NO_STAGE k) ∧ f.spec = NO_DEV k)

instance recordable_decidable (k : kconfig) (f : power_fault) : Decidable (recordable k f) := by
  unfold recordable; exact inferInstance

/-! ## Stage executor -/

/-- What the executor does to the outside world, in the order it happens: a
`value_get_dt` on a port, a `value_set_dt` command, a `value_sub_notify`. -/
inductive event where
  | get (spec : value_dt_spec)
  | set (spec : value_dt_spec) (val : Int)
  | notify
deriving DecidableEq, Repr

/-- The value ports as seen by the driver, over a state `W` of the outside world.
`value_get_dt` yields the return code, the value written to `*pval` (`none` when
the port driver leaves it untouched) and the next world; `value_set_dt` yields
the return code and the next world. -/
structure value_ports (W : Type) where
  value_get_dt : W → value_dt_spec → Int × Option Int × W
  value_set_dt : W → value_dt_spec → Int → Int × W

/-- State of a run of `power_graph_task`: the instance data, the outside world,
the local variable `val` and the events issued so far (oldest first). -/
structure machine (W : Type) where
  data : driver_data
  world : W
  val : Int
  trace : List event
deriving DecidableEq, Repr

/-- How one pass through the body of the inner `for (;;)` loop ends: `again` is
`continue`, `leave` is `break` (back to the outer loop), `suspended` is the
`return` on `-EAGAIN`, and `stuck` marks a pass with no defined behaviour (a read
outside a configuration table, or a planner nesting deeper than allowed). -/
inductive flow where
  | again
  | leave
  | suspended
  | stuck
deriving DecidableEq, Repr

/-- The flag `power_transition_ignore_faults`. -/
def power_transition_ignore_faults : Nat := 1

/-- The field `num_stages`: `ARRAY_SIZE` of the stage table of the transition. -/
def power_transition.num_stages (t : power_transition) : Nat := t.stages.length

/-- The code at the label `fault:` of `power_graph_task`, for the active
`transition` and the loaded `stage`; the argument of `put_fault` is converted to
`dev_idx_t`. -/
def stage_fault {W : Type} (k : kconfig) (cfg : driver_config) (transition : power_transition)
    (stage : Nat) (m : machine W) : flow × machine W :=
  let data := put_fault k m.data (DEV_INDEX k stage % 2 ^ dev_idx_bits k)
  (flow.leave, { m with data := { data with
    state := transition.target, transition := NO_STATE, stage := NO_STAGE k,
    new_state := cfg.safe_state } })

/-- The body of the inner loop of `power_graph_task` from the comment
`get current stage` on: load the active stage (into a local of type
`stage_idx_t`), read its port and act on the outcome. -/
def stage_step {W : Type} (k : kconfig) (cfg : driver_config) (P : value_ports W)
    (m : machine W) : flow × machine W :=
  match cfg.transitions[m.data.transition]? with
  | none => (flow.stuck, m)
  | some transition =>
    match transition.stages[m.data.stage]? with
    | none => (flow.stuck, m)
    | some packed =>
      let stage := packed % 2 ^ stage_idx_bits k
      match cfg.specs[DEV_INDEX k stage]? with
      | none => (flow.stuck, m)
      | some spec =>
        let desired_state : Int := (DEV_STATE k stage : Nat)
        let got := P.value_get_dt m.world spec
        let rc := got.1
        let m1 : machine W :=
          { m with world := got.2.2, val := got.2.1.getD m.val,
                   trace := m.trace ++ [event.get spec] }
        if rc = -EAGAIN then (flow.suspended, m1)
        else if (rc = -EFAULT ∨ rc = -ECANCELED) ∧
            transition.flags &&& power_transition_ignore_faults = 0 then
          stage_fault k cfg transition stage m1
        else if ¬ (rc = -EFAULT ∨ rc = -ECANCELED) ∧ rc ≠ 0 then
          stage_fault k cfg transition stage m1
        else if m1.val = desired_state then
          let next := (m1.data.stage + 1) % 2 ^ stage_idx_bits k
          if next < transition.num_stages then
            (flow.again, { m1 with data := { m1.data with stage := next } })
          else
            (flow.leave, { m1 with data := { m1.data with
              state := transition.target, transition := NO_STATE, stage := NO_STAGE k } })
        else
          let sent := P.value_set_dt m1.world spec desired_state
          let m2 : machine W :=
            { m1 with world := sent.2, trace := m1.trace ++ [event.set spec desired_state] }
          if sent.1 ≠ 0 then stage_fault k cfg transition stage m2
          else (flow.again, m2)

/-- One pass through the body of the inner loop of `power_graph_task`: when no
transition is active the planner is asked for one (falling back to the safe state
when it finds none), then the active stage is stepped. -/
def inner_iteration {W : Type} (k : kconfig) (cfg : driver_config) (P : value_ports W)
    (m : machine W) : flow × machine W :=
  if m.data.transition = NO_STATE then
    match find_first_transition cfg m.data.state m.data.new_state with
    | none => (flow.stuck, m)
    | some rc =>
      if rc < 0 then
        (flow.leave, { m with data := { m.data with new_state := cfg.safe_state } })
      else
        stage_step k cfg P
          { m with data := { m.data with transition := rc.toNat % 256, stage := 0 } }
  else stage_step k cfg P m

/-- The loop head at which a run of `power_graph_task` stands. -/
inductive task_point where
  | outer
  | inner
deriving DecidableEq, Repr

/-- How a run of `power_graph_task` ends: `notified` is the `return` after
`value_sub_notify`, `suspended` the `return` on `-EAGAIN`. -/
inductive task_exit where
  | notified
  | suspended
  | stuck
deriving DecidableEq, Repr

/-- The two nested loops of `power_graph_task`, started at a loop head; `fuel`
bounds the number of loop-head passes and the result is `none` when the run has
not returned within it. -/
def power_graph_task_from {W : Type} (k : kconfig) (cfg : driver_config) (P : value_ports W) :
    Nat → task_point → machine W → Option (task_exit × machine W)
  | 0, _, _ => none
  | fuel + 1, task_point.outer, m =>
    if m.data.new_state = m.data.state then
      some (task_exit.notified, { m with trace := m.trace ++ [event.notify] })
    else power_graph_task_from k cfg P fuel task_point.inner m
  | fuel + 1, task_point.inner, m =>
    match inner_iteration k cfg P m with
    | (flow.again, m') => power_graph_task_from k cfg P fuel task_point.inner m'
    | (flow.leave, m') => power_graph_task_from k cfg P fuel task_point.outer m'
    | (flow.suspended, m') => some (task_exit.suspended, m')
    | (flow.stuck, m') => some (task_exit.stuck, m')

/-- The C function `power_graph_task`. -/
def power_graph_task {W : Type} (k : kconfig) (cfg : driver_config) (P : value_ports W)
    (fuel : Nat) (m : machine W) : Option (task_exit × machine W) :=
  power_graph_task_from k cfg P fuel task_point.outer m

/-! ## Requests and port callbacks -/

/-- The errno value EBUSY. -/
def EBUSY : Int := 16

/-- The loop of `find_state_by_id` over the remaining states, starting at index `i`. -/
def find_state_by_id_from : List power_state → Nat → Nat → Int
  | [], _, _ => -ENOENT
  | s :: rest, i, id => if s.id = id then (i : Int) else find_state_by_id_from rest (i + 1) id

/-- The C function `find_state_by_id`; `id` is a `state_id_t`. -/
def find_state_by_id (cfg : driver_config) (id : Nat) : Int :=
  find_state_by_id_from cfg.states 0 id

/-- The C function `power_graph_set`: the return code, the instance data
afterwards, and whether `k_work_submit` was called.  `value` is the 32-bit signed
`value_t`; passing it to `find_state_by_id` and storing it in `new_state`
converts it to the 8-bit `state_id_t`, while the comparison with `data->state`
is made on the unconverted value. -/
def power_graph_set (cfg : driver_config) (data : driver_data) (id : Nat) (value : Int) :
    Int × driver_data × Bool :=
  if id = PWRGRAPH_STATE then
    if (data.state : Int) = value then (0, data, false)
    else if data.transition ≠ NO_STATE then (-EBUSY, data, false)
    else if find_state_by_id cfg (value % 256).toNat < 0 then (-EINVAL, data, false)
    else (0, { data with new_state := (value % 256).toNat }, true)
  else (-EINVAL, data, false)

/-- The loop of `find_spec` over the remaining specs, starting at index `i`. -/
def find_spec_from (k : kconfig) : List value_dt_spec → Nat → Nat → Nat → Nat
  | [], _, _, _ => NO_DEV k
  | s :: rest, i, pwr_dev, val_id =>
    if s.dev = pwr_dev ∧ s.id = val_id then i else find_spec_from k rest (i + 1) pwr_dev val_id

/-- The C function `find_spec`: the index of the first configured port with the
device handle `pwr_dev` and the value identifier `val_id`, or `NO_DEV`. -/
def find_spec (k : kconfig) (cfg : driver_config) (pwr_dev val_id : Nat) : Nat :=
  find_spec_from k cfg.specs 0 pwr_dev val_id

/-- The C function `power_graph_cb`, called by the port `(pwr_dev, val_id)` on the
instance that owns the callback: the instance data afterwards and whether
`k_work_submit` was called. -/
def power_graph_cb (k : kconfig) (cfg : driver_config) (data : driver_data)
    (pwr_dev val_id : Nat) : driver_data × Bool :=
  if data.new_state = data.state then
    ({ put_fault k data (find_spec k cfg pwr_dev val_id) with new_state := cfg.safe_state },
      true)
  else (data, true)

/-- Instance states reachable from the initial state of `POWER_GRAPH_DEVICE` by
any interleaving of `power_graph_set` calls, `power_graph_cb` calls and runs of
`power_graph_task` that return (after notifying, or suspended on a port), whatever
the ports do. -/
inductive reachable (k : kconfig) (cfg : driver_config) : driver_data → Prop where
  | init : reachable k cfg (initial_data k cfg)
  | set (d : driver_data) (id : Nat) (value : Int) :
      reachable k cfg d → reachable k cfg (power_graph_set cfg d id value).2.1
  | cb (d : driver_data) (pwr_dev val_id : Nat) :
      reachable k cfg d → reachable k cfg (power_graph_cb k cfg d pwr_dev val_id).1
  | task (d : driver_data) (W : Type) (P : value_ports W) (w : W) (val : Int)
      (trace : List event) (fuel : Nat) (exit : task_exit) (m' : machine W) :
      reachable k cfg d →
      power_graph_task k cfg P fuel ⟨d, w, val, trace⟩ = some (exit, m') →
      exit ≠ task_exit.stuck →
      reachable k cfg m'.data

/-- Well-formedness of the ledger of a build whose capacity is between 1 and
255: all slots are present, and the latest-slot index and the fault count lie
within the capacity.  (Nothing is required of a build without a ledger.) -/
def ledger_ok (k : kconfig) (d : driver_data) : Prop :=
  1 ≤ k.FAULT_LOG ∧ k.FAULT_LOG ≤ 255 →
    d.faults.length = k.FAULT_LOG ∧ d.last_fault < k.FAULT_LOG ∧ d.num_faults ≤ k.FAULT_LOG

/-- The invariant of reachable instance states: a device whose current state is
the requested one has no active transition, without an active transition there
is no active stage, and the ledger is well formed. -/
def instance_ok (k : kconfig) (d : driver_data) : Prop :=
  (d.new_state = d.state → d.transition = NO_STATE) ∧
  (d.transition = NO_STATE → d.stage = NO_STAGE k) ∧
  ledger_ok k d

/-- The part of the invariant that holds throughout the inner loop of
`power_graph_task`, where the requested state differs from the current one. -/
def inner_ok (k : kconfig) (d : driver_data) : Prop :=
  d.new_state ≠ d.state ∧
  (d.transition = NO_STATE → d.stage = NO_STAGE k) ∧
  ledger_ok k d

/-- Validity of the active transition and stage: an active transition is an
index into the transition table and the active stage is an index into the stage
table of that transition. -/
def active_ok (cfg : driver_config) (d : driver_data) : Prop :=
  d.transition ≠ NO_STATE →
    ∃ T, cfg.transitions[d.transition]? = some T ∧ d.stage < T.num_stages

/-- A scripted outside world for concrete runs: the answers that the next reads
and the next set-commands will receive, in order (a read beyond the script
answers 0 without writing a value, a set-command beyond it answers 0). -/
structure script where
  gets : List (Int × Option Int)
  sets : List Int
deriving DecidableEq, Repr

/-- The value ports that answer from a `script`. -/
def scripted_ports : value_ports script :=
  { value_get_dt := fun w _ =>
      match w.gets with
      | [] => (0, none, w)
      | g :: gs => (g.1, g.2, { w with gets := gs })
    value_set_dt := fun w _ _ =>
      match w.sets with
      | [] => (0, w)
      | r :: rs => (r, { w with sets := rs }) }

/-- The topology of the scenarios of the specification: states OFF = 1,
STANDBY = 2 and ON = 3, safe state OFF, rails A and B as ports 0 and 1,
transition 0 from OFF to STANDBY (stage: rail A to 1) and transition 1 from
STANDBY to ON (stage: rail B to 1). -/
def rails_config : driver_config :=
  { specs := [⟨10, 0⟩, ⟨11, 0⟩], states := [⟨1⟩, ⟨2⟩, ⟨3⟩],
    transitions := [⟨[STAGE_PACK ⟨2, 2, 4, 3⟩ 0 1], 1, 2, 0⟩,
      ⟨[STAGE_PACK ⟨2, 2, 4, 3⟩ 1 1], 2, 3, 0⟩],
    safe_state := 1 }

/-- An instance of `rails_config` in the middle of transition 1 (STANDBY to ON),
at stage 0, with ON requested and an empty ledger. -/
def rails_mid_transition (w : script) : machine script :=
  { data := { state := 2, new_state := 3, transition := 1, stage := 0,
              faults := List.replicate 3 ⟨0, 0, 0⟩, num_faults := 0, last_fault := 0 },
    world := w, val := 0, trace := [] }

/-- The rails instance after ON was requested from the initial state and the
task run suspended on rail A (read 0, commanded to 1, then `-EAGAIN`), in
transition 0 at stage 0. -/
def rails_suspended : machine script :=
  { data := { state := 1, new_state := 3, transition := 0, stage := 0,
              faults := List.replicate 3 ⟨0, 0, 0⟩, num_faults := 0, last_fault := 0 },
    world := ⟨[], []⟩, val := 0,
    trace := [event.get ⟨10, 0⟩, event.set ⟨10, 0⟩ 1, event.get ⟨10, 0⟩] }

/-- A rail of the end-to-end scenario: the value it reads when settled, and the
value of a set-command that has been accepted but has not completed yet. -/
structure rail where
  value : Int
  pending : Option Int
deriving DecidableEq, Repr

/-- The ports of the end-to-end scenario over a list of rails (the rail of a spec
is its device handle minus 10): a read answers `-EAGAIN` while a set-command is
pending and 0 with the settled value otherwise; every set-command is accepted
and stays pending until its completion signal. -/
def rail_ports : value_ports (List rail) :=
  { value_get_dt := fun w spec =>
      match w[spec.dev - 10]? with
      | none => (-EINVAL, none, w)
      | some r =>
        match r.pending with
        | some _ => (-EAGAIN, none, w)
        | none => (0, some r.value, w)
    value_set_dt := fun w spec v =>
      match w[spec.dev - 10]? with
      | none => (-EINVAL, w)
      | some r => (0, w.set (spec.dev - 10) { r with pending := some v }) }

/-- The completion signal of rail `i`: the pending value becomes the settled
one. -/
def rail_complete (w : List rail) (i : Nat) : List rail :=
  match w[i]? with
  | none => w
  | some r =>
    match r.pending with
    | none => w
    | some v => w.set i { value := v, pending := none }

/-- The end-to-end scenario on the rails topology: from the initial state with
both rails reading 0, ON is requested and the task runs; rail A completes, its
callback is delivered and the task runs; rail B completes, its callback is
delivered and the task runs.  `v1`, `v2`, `v3` are the values found in the
uninitialised local `val` at the start of the three runs.  The result lists the
return of the request and the exit and machine state of each run. -/
def end_to_end_scenario (v1 v2 v3 : Int) :
    Option ((Int × Bool) × (task_exit × machine (List rail)) ×
      (task_exit × machine (List rail)) × (task_exit × machine (List rail))) :=
  let k : kconfig := { NUM_DEVICES := 2, NUM_STATES := 2, NUM_STAGES := 4, FAULT_LOG := 3 }
  let req := power_graph_set rails_config (initial_data k rails_config) PWRGRAPH_STATE 3
  match power_graph_task k rails_config rail_ports 10
      ⟨req.2.1, [⟨0, none⟩, ⟨0, none⟩], v1, []⟩ with
  | none => none
  | some r1 =>
    match power_graph_task k rails_config rail_ports 10
        ⟨(power_graph_cb k rails_config r1.2.data 10 0).1, rail_complete r1.2.world 0, v2,
          r1.2.trace⟩ with
    | none => none
    | some r2 =>
      match power_graph_task k rails_config rail_ports 10
          ⟨(power_graph_cb k rails_config r2.2.data 11 0).1, rail_complete r2.2.world 1, v3,
            r2.2.trace⟩ with
      | none => none
      | some r3 => some ((req.1, req.2.2), r1, r2, r3)

/-! ## Subscriber registry (`value.h`)

Registrations are identified by the address of their `node` member, a natural
number.  The list primitives are those of the Zephyr kernel library
(`sys/slist.h`), which the header includes; they are written out here as the
library defines them, on a head pointer, a tail pointer and the `next` member
of every node in memory. -/

/-- The `struct value_sub` list together with the `node.next` member of every
registration in memory (`none` is `NULL`). -/
structure value_sub where
  head : Option Nat
  tail : Option Nat
  next : Nat → Option Nat

/-- One invocation `cb->func(cb, dev, id)`. -/
structure sub_call where
  cb : Nat
  dev : Nat
  id : Nat
  deriving DecidableEq, Repr

/-- The assignment `node->next = v`. -/
def z_snode_next_set (next : Nat → Option Nat) (node : Nat) (v : Option Nat) :
    Nat → Option Nat :=
  fun n => if n = node then v else next n

/-- The function `value_sub_cb_init` (and `VALUE_SUB_CB_INIT`): `cb->node.next = NULL`. -/
def value_sub_cb_init (s : value_sub) (cb : Nat) : value_sub :=
  { s with next := z_snode_next_set s.next cb none }

/-- The function `value_sub_active`: `cb->node.next != NULL`. -/
def value_sub_active (s : value_sub) (cb : Nat) : Bool :=
  (s.next cb).isSome

/-- The function `value_sub_init`: `sys_slist_init` clears head and tail. -/
def value_sub_init (s : value_sub) : value_sub :=
  { s with head := none, tail := none }

/-- Library `sys_slist_append`: the node's `next` is cleared, then the node
becomes the tail (and the head of an empty list). -/
def sys_slist_append (s : value_sub) (node : Nat) : value_sub :=
  let next1 := z_snode_next_set s.next node none
  match s.tail with
  | none => { head := some node, tail := some node, next := next1 }
  | some t => { head := s.head, tail := some node, next := z_snode_next_set next1 t (some node) }

/-- Library `sys_slist_remove`: unlink `node`, whose predecessor is `prev_node`
(`none` when it is the head), fix the tail and clear the node's `next`. -/
def sys_slist_remove (s : value_sub) (prev_node : Option Nat) (node : Nat) : value_sub :=
  let s1 : value_sub :=
    match prev_node with
    | none =>
      let s0 : value_sub := { s with head := s.next node }
      if s0.tail = some node then { s0 with tail := s0.head } else s0
    | some p =>
      let s0 : value_sub := { s with next := z_snode_next_set s.next p (s.next node) }
      if s0.tail = some node then { s0 with tail := some p } else s0
  { s1 with next := z_snode_next_set s1.next node none }

/-- Loop of library `sys_slist_find_and_remove` with `test` the node under
inspection and `prev` its predecessor; the fuel bounds the number of nodes
visited. -/
def sys_slist_find_and_remove_from (s : value_sub) (node : Nat) :
    Nat → Option Nat → Option Nat → Option (Bool × value_sub)
  | _, _, none => some (false, s)
  | 0, _, some _ => none
  | fuel + 1, prev, some test =>
    if test = node then some (true, sys_slist_remove s prev node)
    else sys_slist_find_and_remove_from s node fuel (some test) (s.next test)

/-- Library `sys_slist_find_and_remove`, from the head of the list. -/
def sys_slist_find_and_remove (fuel : Nat) (s : value_sub) (node : Nat) :
    Option (Bool × value_sub) :=
  sys_slist_find_and_remove_from s node fuel none s.head

/-- The function `value_sub_manage`.  The first component is the value of the
asserted condition `value_sub_active(cb) != on`; the second is the list after the
body has run (`none` when the search runs out of fuel). -/
def value_sub_manage (fuel : Nat) (s : value_sub) (cb : Nat) (on_ : Bool) :
    Bool × Option value_sub :=
  (value_sub_active s cb != on_,
    if on_ then some (sys_slist_append s cb)
    else (sys_slist_find_and_remove fuel s cb).map Prod.snd)

/-- A sequence of `value_sub_manage` calls, each `(cb, on_)`; the assertion values
are collected in call order. -/
def value_sub_script (fuel : Nat) : value_sub → List (Nat × Bool) → Option (List Bool × value_sub)
  | s, [] => some ([], s)
  | s, (cb, on_) :: rest =>
    match value_sub_manage fuel s cb on_ with
    | (_, none) => none
    | (a, some s1) =>
      match value_sub_script fuel s1 rest with
      | none => none
      | some (as, s2) => some (a :: as, s2)

/-- Loop of `value_sub_notify` (`SYS_SLIST_FOR_EACH_NODE_SAFE`): `sn` is the node
under visit, its successor `sns` is read before the callback runs.  The
callback acts on the memory through `func`; the calls made are recorded in
order. -/
def value_sub_notify_from (func : Nat → Nat → Nat → value_sub → value_sub) (dev id : Nat) :
    Nat → value_sub → Option Nat → List sub_call → Option (List sub_call × value_sub)
  | _, s, none, calls => some (calls, s)
  | 0, _, some _, _ => none
  | fuel + 1, s, some sn, calls =>
    let sns := s.next sn
    value_sub_notify_from func dev id fuel (func sn dev id s) sns (calls ++ [⟨sn, dev, id⟩])

/-- The function `value_sub_notify`. -/
def value_sub_notify (func : Nat → Nat → Nat → value_sub → value_sub) (fuel : Nat)
    (s : value_sub) (dev id : Nat) : Option (List sub_call × value_sub) :=
  value_sub_notify_from func dev id fuel s s.head []

/-- Memory in which every registration has been initialised and the list is empty. -/
def value_sub_fresh : value_sub := ⟨none, none, fun _ => none⟩

/-- The nodes visited from pointer `p` by following `next` up to `NULL` are
exactly `l`, in order. -/
def linked (next : Nat → Option Nat) : Option Nat → List Nat → Prop
  | p, [] => p = none
  | p, a :: l => p = some a ∧ linked next (next a) l

/-- The list `s` holds exactly the registrations `l`, in order, each once, and
its tail pointer is the last of them. -/
def sub_repr (s : value_sub) (l : List Nat) : Prop :=
  l.Nodup ∧ linked s.next s.head l ∧ s.tail = l.getLast?

/-- A build with 2 devices, 2 port states, up to 4 stages and a 3-slot ledger. -/
def small_kconfig : kconfig := { NUM_DEVICES := 2, NUM_STATES := 2, NUM_STAGES := 4, FAULT_LOG := 3 }

/-! ## Planner: auxiliary lemmas -/

theorem hops_succ_mod {hops n : Nat} (hn : n ≤ 255) (hh : hops ≤ n) :
    (hops + 1) % 2 ^ 32 = hops + 1 := by
  apply Nat.mod_eq_of_lt
  have : (2 : Nat) ^ 32 = 4294967296 := by norm_num
  omega

theorem scan_transitions_some (cfg : driver_config) (cur state hops : Nat)
    (recurse : Nat → Nat → Option (Int × Nat))
    (hrec : hops < cfg.num_transitions → ∀ s, ∃ r, recurse s hops = some r) :
    ∀ (ts : List power_transition) (i : Nat) (b : Int) (bh : Nat),
      ∃ r, scan_transitions cfg cur state hops recurse ts i b bh = some r := by
  intro ts
  induction ts with
  | nil => intro i b bh; exact ⟨b, rfl⟩
  | cons t ts ih =>
    intro i b bh
    unfold scan_transitions
    by_cases h1 : t.target ≠ state
    · rw [if_pos h1]; exact ih _ _ _
    · rw [if_neg h1]
      by_cases h2 : t.initial = cur
      · rw [if_pos h2]; exact ⟨_, rfl⟩
      · rw [if_neg h2]
        by_cases h3 : hops ≥ cfg.num_transitions
        · rw [if_pos h3]; exact ih _ _ _
        · rw [if_neg h3]
          obtain ⟨⟨r, h⟩, hr⟩ := hrec (by omega) t.initial
          rw [hr]
          simp only
          split_ifs
          · exact ih _ _ _
          · exact ih _ _ _
          · exact ih _ _ _

theorem find_first_transition_to_state_some (cfg : driver_config) (cur : Nat)
    (hn : cfg.num_transitions ≤ 255) :
    ∀ (depth state hops : Nat), hops ≤ cfg.num_transitions →
      cfg.num_transitions ≤ depth + hops + 1 →
      ∃ r, find_first_transition_to_state cfg cur depth state hops = some (r, hops + 1) := by
  intro depth
  induction depth with
  | zero =>
    intro state hops hh hd
    unfold find_first_transition_to_state
    rw [hops_succ_mod hn hh]
    obtain ⟨r, hr⟩ := scan_transitions_some cfg cur state (hops + 1) (fun _ _ => none)
      (fun h => by omega) cfg.transitions 0 (-ENOENT) UINT_MAX
    exact ⟨r, by rw [hr]; rfl⟩
  | succ depth ih =>
    intro state hops hh hd
    unfold find_first_transition_to_state
    rw [hops_succ_mod hn hh]
    obtain ⟨r, hr⟩ := scan_transitions_some cfg cur state (hops + 1)
      (fun s h => find_first_transition_to_state cfg cur depth s h)
      (fun h s => by
        obtain ⟨r, hr⟩ := ih s (hops + 1) (by omega) (by omega)
        exact ⟨_, hr⟩) cfg.transitions 0 (-ENOENT) UINT_MAX
    exact ⟨r, by rw [hr]; rfl⟩

theorem scan_transitions_direct (cfg : driver_config) (cur state hops : Nat)
    (recurse : Nat → Nat → Option (Int × Nat))
    (hrec : hops < cfg.num_transitions → ∀ s, ∃ r, recurse s hops = some r) :
    ∀ (ts : List power_transition) (i : Nat) (b : Int) (bh : Nat) (j : Nat)
      (t : power_transition), ts[j]? = some t → t.target = state → t.initial = cur →
      (∀ k t', k < j → ts[k]? = some t' → ¬ (t'.initial = cur ∧ t'.target = state)) →
      scan_transitions cfg cur state hops recurse ts i b bh = some ((i + j : Nat) : Int) := by
  intro ts
  induction ts with
  | nil => intro i b bh j t hj; simp at hj
  | cons a ts ih =>
    intro i b bh j t hj htgt hini hfirst
    unfold scan_transitions
    cases j with
    | zero =>
      simp only [List.getElem?_cons_zero, Option.some.injEq] at hj
      subst hj
      rw [if_neg (by simpa using htgt), if_pos hini]
      rfl
    | succ j =>
      simp only [List.getElem?_cons_succ] at hj
      have hnd : ¬ (a.initial = cur ∧ a.target = state) :=
        hfirst 0 a (Nat.succ_pos j) (by simp)
      have hfirst' : ∀ k t', k < j → ts[k]? = some t' →
          ¬ (t'.initial = cur ∧ t'.target = state) := by
        intro k t' hk hk'
        exact hfirst (k + 1) t' (by omega) (by simpa using hk')
      have key : ∀ b' bh', scan_transitions cfg cur state hops recurse ts (i + 1) b' bh'
          = some ((i + (j + 1) : Nat) : Int) := by
        intro b' bh'
        have := ih (i + 1) b' bh' j t hj htgt hini hfirst'
        rw [this]
        congr 2
        omega
      by_cases h1 : a.target ≠ state
      · rw [if_pos h1]; exact key _ _
      · rw [if_neg h1]
        have h1' : a.target = state := by simpa using h1
        have h2 : ¬ a.initial = cur := fun h => hnd ⟨h, h1'⟩
        rw [if_neg h2]
        by_cases h3 : hops ≥ cfg.num_transitions
        · rw [if_pos h3]; exact key _ _
        · rw [if_neg h3]
          obtain ⟨⟨r, h⟩, hr⟩ := hrec (by omega) a.initial
          rw [hr]
          simp only
          split_ifs
          · exact key _ _
          · exact key _ _
          · exact key _ _

theorem is_chain_append (cfg : driver_config) (i : Nat) (T : power_transition)
    (hT : cfg.transitions[i]? = some T) :
    ∀ (chain : List Nat) (c : Nat), is_chain cfg c T.initial chain →
      is_chain cfg c T.target (chain ++ [i]) := by
  intro chain
  induction chain with
  | nil =>
    intro c h
    simp only [is_chain] at h
    simp only [List.nil_append, is_chain, hT]
    exact ⟨h.symm, trivial⟩
  | cons t rest ih =>
    intro c h
    simp only [is_chain] at h
    simp only [List.cons_append, is_chain]
    cases hq : cfg.transitions[t]? with
    | none => rw [hq] at h; exact h.elim
    | some tr =>
      rw [hq] at h
      exact ⟨h.1, ih _ h.2⟩

theorem scan_transitions_sound (cfg : driver_config) (cur state hops bound : Nat)
    (recurse : Nat → Nat → Option (Int × Nat)) (hbound : 1 ≤ bound)
    (hrec : hops < cfg.num_transitions → ∀ s r h, recurse s hops = some (r, h) →
      sound_result cfg cur s (bound - 1) r) :
    ∀ (ts : List power_transition) (i : Nat) (b : Int) (bh : Nat),
      (∀ j t, ts[j]? = some t → cfg.transitions[i + j]? = some t) →
      sound_result cfg cur state bound b →
      ∀ r, scan_transitions cfg cur state hops recurse ts i b bh = some r →
        sound_result cfg cur state bound r := by
  intro ts
  induction ts with
  | nil =>
    intro i b bh _ hb r hr
    simp only [scan_transitions, Option.some.injEq] at hr
    exact hr ▸ hb
  | cons a ts ih =>
    intro i b bh hts hb r hr
    have hts' : ∀ j t, ts[j]? = some t → cfg.transitions[i + 1 + j]? = some t := by
      intro j t hj
      have := hts (j + 1) t (by simpa using hj)
      rw [show i + 1 + j = i + (j + 1) by omega]
      exact this
    have ha : cfg.transitions[i]? = some a := by simpa using hts 0 a (by simp)
    unfold scan_transitions at hr
    by_cases h1 : a.target ≠ state
    · rw [if_pos h1] at hr; exact ih _ _ _ hts' hb r hr
    · rw [if_neg h1] at hr
      have h1' : a.target = state := by simpa using h1
      by_cases h2 : a.initial = cur
      · rw [if_pos h2] at hr
        simp only [Option.some.injEq] at hr
        right
        refine ⟨i, [], hr.symm, ?_, by simpa using hbound⟩
        simp only [is_chain, ha]
        exact ⟨h2, h1'⟩
      · rw [if_neg h2] at hr
        by_cases h3 : hops ≥ cfg.num_transitions
        · rw [if_pos h3] at hr; exact ih _ _ _ hts' hb r hr
        · rw [if_neg h3] at hr
          cases hq : recurse a.initial hops with
          | none => rw [hq] at hr; simp at hr
          | some p =>
            obtain ⟨lr, lh⟩ := p
            rw [hq] at hr
            simp only at hr
            have hs := hrec (by omega) a.initial lr lh hq
            by_cases h4 : lr = -ENOENT
            · rw [if_pos h4] at hr; exact ih _ _ _ hts' hb r hr
            · rw [if_neg h4] at hr
              have hlr : sound_result cfg cur state bound lr := by
                rcases hs with hs | ⟨t, rest, ht, hc, hl⟩
                · exact absurd hs h4
                · right
                  refine ⟨t, rest ++ [i], ht, ?_, ?_⟩
                  · have := is_chain_append cfg i a ha (t :: rest) cur hc
                    rw [h1'] at this
                    simpa using this
                  · simp only [List.length_cons, List.length_append, List.length_nil] at hl ⊢
                    omega
              by_cases h5 : lh < bh
              · rw [if_pos h5] at hr; exact ih _ _ _ hts' hlr r hr
              · rw [if_neg h5] at hr; exact ih _ _ _ hts' hb r hr

theorem find_first_transition_to_state_sound (cfg : driver_config) (cur : Nat)
    (hn : cfg.num_transitions ≤ 255) :
    ∀ (depth state hops : Nat) (r : Int) (h : Nat), hops < cfg.num_transitions →
      find_first_transition_to_state cfg cur depth state hops = some (r, h) →
      sound_result cfg cur state (cfg.num_transitions - hops) r := by
  intro depth
  induction depth with
  | zero =>
    intro state hops r h hh hr
    unfold find_first_transition_to_state at hr
    rw [hops_succ_mod hn (Nat.le_of_lt hh)] at hr
    simp only [Option.map_eq_some', Prod.mk.injEq] at hr
    obtain ⟨r', hr', rfl, -⟩ := hr
    exact scan_transitions_sound cfg cur state (hops + 1) (cfg.num_transitions - hops)
      (fun _ _ => none) (by omega) (fun _ s r h hx => by simp at hx)
      cfg.transitions 0 (-ENOENT) UINT_MAX (fun j t hj => by simpa using hj)
      (Or.inl rfl) r' hr'
  | succ depth ih =>
    intro state hops r h hh hr
    unfold find_first_transition_to_state at hr
    rw [hops_succ_mod hn (Nat.le_of_lt hh)] at hr
    simp only [Option.map_eq_some', Prod.mk.injEq] at hr
    obtain ⟨r', hr', rfl, -⟩ := hr
    exact scan_transitions_sound cfg cur state (hops + 1) (cfg.num_transitions - hops)
      (fun s h => find_first_transition_to_state cfg cur depth s h) (by omega)
      (fun hlt s r h hx => by
        have := ih s (hops + 1) r h hlt hx
        rw [show cfg.num_transitions - hops - 1 = cfg.num_transitions - (hops + 1) by omega]
        exact this)
      cfg.transitions 0 (-ENOENT) UINT_MAX (fun j t hj => by simpa using hj)
      (Or.inl rfl) r' hr'

theorem planner_result_sound (cfg : driver_config) (C D : Nat)
    (hn : cfg.num_transitions ≤ 255) (r : Int)
    (hr : find_first_transition cfg C D = some r) :
    sound_result cfg C D cfg.num_transitions r := by
  unfold find_first_transition at hr
  simp only [Option.map_eq_some', Prod.exists, exists_and_right, exists_eq_right] at hr
  obtain ⟨h, hr⟩ := hr
  by_cases h0 : 0 < cfg.num_transitions
  · exact find_first_transition_to_state_sound cfg C hn _ D 0 r h h0 hr
  · have hz : cfg.transitions = [] := by
      have : cfg.transitions.length = 0 := by
        unfold driver_config.num_transitions at h0; omega
      exact List.length_eq_zero.mp this
    have hz' : cfg.num_transitions = 0 := by
      unfold driver_config.num_transitions; rw [hz]; rfl
    rw [hz'] at hr
    unfold find_first_transition_to_state at hr
    rw [hz] at hr
    simp only [scan_transitions, Option.map_some', Option.some.injEq, Prod.mk.injEq] at hr
    exact Or.inl hr.1.symm

theorem is_chain_head (cfg : driver_config) (c d t : Nat) (rest : List Nat)
    (h : is_chain cfg c d (t :: rest)) :
    t < cfg.num_transitions ∧ ∃ tr, cfg.transitions[t]? = some tr ∧ tr.initial = c := by
  simp only [is_chain] at h
  cases hq : cfg.transitions[t]? with
  | none => rw [hq] at h; exact h.elim
  | some tr =>
    rw [hq] at h
    refine ⟨?_, tr, rfl, h.1⟩
    have := List.getElem?_eq_some.mp hq
    exact this.1

theorem scan_transitions_congr (cfg : driver_config) (cur state hops : Nat)
    (r1 r2 : Nat → Nat → Option (Int × Nat))
    (h : hops < cfg.num_transitions → ∀ s, r1 s hops = r2 s hops) :
    ∀ (ts : List power_transition) (i : Nat) (b : Int) (bh : Nat),
      scan_transitions cfg cur state hops r1 ts i b bh
        = scan_transitions cfg cur state hops r2 ts i b bh := by
  intro ts
  induction ts with
  | nil => intro i b bh; rfl
  | cons a ts ih =>
    intro i b bh
    simp only [scan_transitions]
    by_cases h1 : a.target ≠ state
    · rw [if_pos h1, if_pos h1]; exact ih _ _ _
    · rw [if_neg h1, if_neg h1]
      by_cases h2 : a.initial = cur
      · rw [if_pos h2, if_pos h2]
      · rw [if_neg h2, if_neg h2]
        by_cases h3 : hops ≥ cfg.num_transitions
        · rw [if_pos h3, if_pos h3]; exact ih _ _ _
        · rw [if_neg h3, if_neg h3, h (by omega) a.initial]
          cases r2 a.initial hops with
          | none => rfl
          | some p =>
            simp only
            split_ifs
            · exact ih _ _ _
            · exact ih _ _ _
            · exact ih _ _ _

theorem find_first_transition_to_state_depth (cfg : driver_config) (cur : Nat)
    (hn : cfg.num_transitions ≤ 255) :
    ∀ (d1 d2 state hops : Nat), hops ≤ cfg.num_transitions →
      cfg.num_transitions ≤ d1 + hops + 1 →
      cfg.num_transitions ≤ d2 + hops + 1 →
      find_first_transition_to_state cfg cur d1 state hops
        = find_first_transition_to_state cfg cur d2 state hops := by
  intro d1
  induction d1 with
  | zero =>
    intro d2 state hops hh h1 h2
    cases d2 with
    | zero => rfl
    | succ d2 =>
      unfold find_first_transition_to_state
      rw [hops_succ_mod hn hh]
      rw [scan_transitions_congr cfg cur state _ (fun _ _ => none)
        (fun s h => find_first_transition_to_state cfg cur d2 s h) (fun hlt => by omega)]
  | succ d1 ih =>
    intro d2 state hops hh h1 h2
    cases d2 with
    | zero =>
      unfold find_first_transition_to_state
      rw [hops_succ_mod hn hh]
      rw [scan_transitions_congr cfg cur state _
        (fun s h => find_first_transition_to_state cfg cur d1 s h) (fun _ _ => none)
        (fun hlt => by omega)]
    | succ d2 =>
      unfold find_first_transition_to_state
      rw [hops_succ_mod hn hh]
      rw [scan_transitions_congr cfg cur state _
        (fun s h => find_first_transition_to_state cfg cur d1 s h)
        (fun s h => find_first_transition_to_state cfg cur d2 s h)
        (fun hlt s => ih d2 s _ (by omega) (by omega) (by omega))]

/-! ## Planner: the claims -/

/-- C1. Direct-edge rule: whenever some configured transition leads directly
from the current state `C` to the requested state `D`, `find_first_transition`
returns the lowest-index such transition, whatever else is declared. -/
theorem find_first_transition_direct_edge (cfg : driver_config) (C D : Nat)
    (hn : cfg.num_transitions ≤ 255)
    (hex : ∃ (j : Nat) (t : power_transition),
      cfg.transitions[j]? = some t ∧ t.initial = C ∧ t.target = D) :
    ∃ (j : Nat) (t : power_transition),
      cfg.transitions[j]? = some t ∧ t.initial = C ∧ t.target = D ∧
      (∀ (k : Nat) (t' : power_transition), k < j → cfg.transitions[k]? = some t' →
        ¬ (t'.initial = C ∧ t'.target = D)) ∧
      find_first_transition cfg C D = some (j : Int) := by
  classical
  have hex' : ∃ j : Nat, ∃ t : power_transition,
      cfg.transitions[j]? = some t ∧ t.initial = C ∧ t.target = D := hex
  obtain ⟨t, hj, hini, htgt⟩ := Nat.find_spec hex'
  have hmin : ∀ k t', k < Nat.find hex' → cfg.transitions[k]? = some t' →
      ¬ (t'.initial = C ∧ t'.target = D) := by
    intro k t' hk hk' hd
    exact Nat.find_min hex' hk ⟨t', hk', hd.1, hd.2⟩
  refine ⟨Nat.find hex', t, hj, hini, htgt, hmin, ?_⟩
  have hpos : 0 < cfg.num_transitions := by
    have := (List.getElem?_eq_some.mp hj).1
    unfold driver_config.num_transitions; omega
  unfold find_first_transition
  obtain ⟨m, hm⟩ : ∃ m, cfg.num_transitions = m + 1 := ⟨cfg.num_transitions - 1, by omega⟩
  rw [hm]
  unfold find_first_transition_to_state
  rw [hops_succ_mod hn (Nat.zero_le _)]
  have := scan_transitions_direct cfg C D (0 + 1)
    (fun s h => find_first_transition_to_state cfg C m s h)
    (fun hlt s => by
      obtain ⟨r, hr⟩ := find_first_transition_to_state_some cfg C hn m s (0 + 1)
        (by omega) (by omega)
      exact ⟨_, hr⟩)
    cfg.transitions 0 (-ENOENT) UINT_MAX (Nat.find hex') t hj htgt hini hmin
  rw [this]
  simp

/-- Witness for C1 on the cyclic topology: the direct edge 1 to 3 (index 3) is
returned although transition 0 also targets state 3 and is declared first. -/
theorem find_first_transition_direct_edge_witness :
    cyclic_config.num_transitions ≤ 255 ∧
    ∃ (j : Nat) (t : power_transition),
      cyclic_config.transitions[j]? = some t ∧ t.initial = 1 ∧ t.target = 3 ∧
      (∀ (k : Nat) (t' : power_transition), k < j → cyclic_config.transitions[k]? = some t' →
        ¬ (t'.initial = 1 ∧ t'.target = 3)) ∧
      find_first_transition cyclic_config 1 3 = some (j : Int) :=
  ⟨by decide, find_first_transition_direct_edge cyclic_config 1 3 (by decide)
    ⟨3, ⟨[0], 1, 3, 0⟩, rfl, rfl, rfl⟩⟩

/-- C2. Planner soundness: whenever `find_first_transition` returns a transition
index `t`, then `t` is a valid index, transition `t` starts at the current state
`C`, and `t` is the first edge of a chain of at most `num_transitions` configured
transitions, each starting where the previous one ends, that ends at `D`. -/
theorem find_first_transition_soundness (cfg : driver_config) (C D : Nat)
    (hn : cfg.num_transitions ≤ 255) (t : Nat)
    (hr : find_first_transition cfg C D = some (t : Int)) :
    t < cfg.num_transitions ∧
    (∃ tr, cfg.transitions[t]? = some tr ∧ tr.initial = C) ∧
    ∃ rest : List Nat, is_chain cfg C D (t :: rest) ∧
      (t :: rest).length ≤ cfg.num_transitions := by
  rcases planner_result_sound cfg C D hn _ hr with h | ⟨t', rest, ht, hc, hl⟩
  · exfalso
    unfold ENOENT at h
    omega
  · have htt : t = t' := by exact_mod_cast ht
    subst htt
    obtain ⟨h1, h2⟩ := is_chain_head cfg C D t rest hc
    exact ⟨h1, h2, rest, hc, hl⟩

/-- Witness for C2 on the two-route topology, where the planner returns
transition 2. -/
theorem find_first_transition_soundness_witness :
    two_route_config.num_transitions ≤ 255 ∧
    find_first_transition two_route_config 1 4 = some ((2 : Nat) : Int) ∧
    (2 < two_route_config.num_transitions ∧
    (∃ tr, two_route_config.transitions[2]? = some tr ∧ tr.initial = 1) ∧
    ∃ rest : List Nat, is_chain two_route_config 1 4 (2 :: rest) ∧
      (2 :: rest).length ≤ two_route_config.num_transitions) :=
  ⟨by decide, by decide,
    find_first_transition_soundness two_route_config 1 4 (by decide) 2 (by decide)⟩

/-- C3. Planner termination: on every topology (cycles and self-loops included)
the search completes within nesting depth `num_transitions`, allowing a deeper
nesting changes nothing, and the result is either `-ENOENT` or a transition index
smaller than `num_transitions`. -/
theorem find_first_transition_terminates (cfg : driver_config) (C D : Nat)
    (hn : cfg.num_transitions ≤ 255) :
    ∃ r : Int, find_first_transition cfg C D = some r ∧
      (r = -ENOENT ∨ ∃ t : Nat, r = (t : Int) ∧ t < cfg.num_transitions) ∧
      ∀ depth, cfg.num_transitions ≤ depth →
        find_first_transition_to_state cfg C depth D 0 = some (r, 1) := by
  obtain ⟨r, hr⟩ := find_first_transition_to_state_some cfg C hn cfg.num_transitions D 0
    (Nat.zero_le _) (by omega)
  have hf : find_first_transition cfg C D = some r := by
    unfold find_first_transition
    rw [hr]
    rfl
  refine ⟨r, hf, ?_, ?_⟩
  · rcases planner_result_sound cfg C D hn r hf with h | ⟨t, rest, ht, hc, -⟩
    · exact Or.inl h
    · exact Or.inr ⟨t, ht, (is_chain_head cfg C D t rest hc).1⟩
  · intro depth hd
    rw [find_first_transition_to_state_depth cfg C hn depth cfg.num_transitions D 0
      (Nat.zero_le _) (by omega) (by omega)]
    exact hr

/-- Witness for C3 on the cyclic topology, searching a state (7) that no
transition reaches. -/
theorem find_first_transition_terminates_witness :
    cyclic_config.num_transitions ≤ 255 ∧
    ∃ r : Int, find_first_transition cyclic_config 3 7 = some r ∧
      (r = -ENOENT ∨ ∃ t : Nat, r = (t : Int) ∧ t < cyclic_config.num_transitions) ∧
      ∀ depth, cyclic_config.num_transitions ≤ depth →
        find_first_transition_to_state cyclic_config 3 depth 7 0 = some (r, 1) :=
  ⟨by decide, find_first_transition_terminates cyclic_config 3 7 (by decide)⟩

/-- C4, evaluated on the two-route topology: from state 1 to state 4 there is no
direct edge, candidate transition 1 closes the two-hop chain starting with
transition 4 and candidate transition 0 closes the three-hop chain starting with
transition 2, yet the planner returns transition 2, the first edge of the longer
chain, because candidate 0 is declared first. -/
theorem find_first_transition_prefers_declaration_order :
    (∀ t ∈ two_route_config.transitions, ¬ (t.initial = 1 ∧ t.target = 4)) ∧
    is_chain two_route_config 1 4 [4, 1] ∧
    is_chain two_route_config 1 4 [2, 3, 0] ∧
    find_first_transition two_route_config 1 4 = some 2 ∧
    find_first_transition_to_state two_route_config 1 5 3 1 = some (2, 2) ∧
    find_first_transition_to_state two_route_config 1 5 5 1 = some (4, 2) := by
  decide

/-! ## Stage packing -/

/-- C5, evaluated at two configurations.  With 5 devices and 33 port states the
packed stage type is 8 bits wide (5 * 33 <= 256) although index and state need
3 + 6 bits: the stage (port 4, state 32) packs to 260, is stored as 4 and unpacks
to (port 4, state 0).  With 257 devices and 129 states the type is 16 bits wide
although 9 + 8 bits are needed: (port 256, state 128) packs to 65792, is stored
as 256 and unpacks to (port 256, state 0). -/
theorem stage_pack_stored_loses_state :
    (4 < 5 ∧ 32 < 33 ∧
      PACKED_SPAGE_BITS ⟨5, 33, 1, 1⟩ = 8 ∧
      STAGE_PACK ⟨5, 33, 1, 1⟩ 4 32 = 260 ∧
      to_packed_stage_t ⟨5, 33, 1, 1⟩ (STAGE_PACK ⟨5, 33, 1, 1⟩ 4 32) = 4 ∧
      DEV_INDEX ⟨5, 33, 1, 1⟩ (to_packed_stage_t ⟨5, 33, 1, 1⟩ (STAGE_PACK ⟨5, 33, 1, 1⟩ 4 32)) = 4 ∧
      DEV_STATE ⟨5, 33, 1, 1⟩ (to_packed_stage_t ⟨5, 33, 1, 1⟩ (STAGE_PACK ⟨5, 33, 1, 1⟩ 4 32)) = 0) ∧
    (256 < 257 ∧ 128 < 129 ∧
      PACKED_SPAGE_BITS ⟨257, 129, 1, 1⟩ = 16 ∧
      STAGE_PACK ⟨257, 129, 1, 1⟩ 256 128 = 65792 ∧
      to_packed_stage_t ⟨257, 129, 1, 1⟩ (STAGE_PACK ⟨257, 129, 1, 1⟩ 256 128) = 256 ∧
      DEV_INDEX ⟨257, 129, 1, 1⟩
        (to_packed_stage_t ⟨257, 129, 1, 1⟩ (STAGE_PACK ⟨257, 129, 1, 1⟩ 256 128)) = 256 ∧
      DEV_STATE ⟨257, 129, 1, 1⟩
        (to_packed_stage_t ⟨257, 129, 1, 1⟩ (STAGE_PACK ⟨257, 129, 1, 1⟩ 256 128)) = 0) := by
  decide

/-! ## Fault ledger: auxiliary lemmas -/

theorem record_fault_faults (k : kconfig) (d : driver_data) (f : power_fault)
    (hN : k.FAULT_LOG ≠ 0) (hf : recordable k f) :
    (record_fault k d f).faults = d.faults.set
      (if d.num_faults > 0 then ((d.last_fault + 1) % k.FAULT_LOG) % 256 else d.last_fault) f := by
  unfold recordable at hf
  unfold record_fault put_fault
  simp only [hN, if_false, hf]

theorem record_fault_last_fault (k : kconfig) (d : driver_data) (f : power_fault)
    (hN : k.FAULT_LOG ≠ 0) (hf : recordable k f) :
    (record_fault k d f).last_fault =
      (if d.num_faults > 0 then ((d.last_fault + 1) % k.FAULT_LOG) % 256 else d.last_fault) := by
  unfold recordable at hf
  unfold record_fault put_fault
  simp only [hN, if_false, hf]

theorem record_fault_num_faults (k : kconfig) (d : driver_data) (f : power_fault)
    (hN : k.FAULT_LOG ≠ 0) (hf : recordable k f) :
    (record_fault k d f).num_faults =
      (if d.num_faults < k.FAULT_LOG then (d.num_faults + 1) % 256 else d.num_faults) := by
  unfold recordable at hf
  unfold record_fault put_fault
  simp only [hN, if_false, hf]

theorem mod_ne_of_between (m n N : Nat) (h1 : m < n) (h2 : n < m + N) : n % N ≠ m % N := by
  intro h
  have h3 : N ∣ n - m := Nat.dvd_of_mod_eq_zero (Nat.sub_mod_eq_zero_of_mod_eq h)
  have := Nat.le_of_dvd (by omega) h3
  omega

theorem record_faults_invariant (k : kconfig) (d0 : driver_data)
    (hN1 : 1 ≤ k.FAULT_LOG) (hN : k.FAULT_LOG ≤ 255)
    (h0 : d0.num_faults = 0) (h1 : d0.last_fault = 0) (h2 : d0.faults.length = k.FAULT_LOG) :
    ∀ fs : List power_fault, (∀ f ∈ fs, recordable k f) →
      (record_faults k d0 fs).faults.length = k.FAULT_LOG ∧
      (record_faults k d0 fs).num_faults = min fs.length k.FAULT_LOG ∧
      (record_faults k d0 fs).last_fault = (fs.length - 1) % k.FAULT_LOG ∧
      ∀ m, m < fs.length → fs.length ≤ m + k.FAULT_LOG →
        (record_faults k d0 fs).faults[m % k.FAULT_LOG]? = fs[m]? := by
  intro fs
  induction fs using List.reverseRecOn with
  | nil =>
    intro _
    refine ⟨h2, ?_, ?_, ?_⟩
    · simp [record_faults, h0]
    · simp [record_faults, h1]
    · intro m hm; simp at hm
  | append_singleton fs f ih =>
    intro hrec
    have hNz : k.FAULT_LOG ≠ 0 := by omega
    have hf : recordable k f := hrec f (by simp)
    obtain ⟨il, inum, ilast, islot⟩ := ih (fun g hg => hrec g (by simp [hg]))
    have hstep : record_faults k d0 (fs ++ [f]) = record_fault k (record_faults k d0 fs) f := by
      unfold record_faults
      rw [List.foldl_append]
      rfl
    have hlast : (if (record_faults k d0 fs).num_faults > 0
        then (((record_faults k d0 fs).last_fault + 1) % k.FAULT_LOG) % 256
        else (record_faults k d0 fs).last_fault) = fs.length % k.FAULT_LOG := by
      rw [inum, ilast]
      by_cases hk : fs.length = 0
      · simp [hk]
      · have hpos : min fs.length k.FAULT_LOG > 0 := by
          have : 0 < fs.length := Nat.pos_of_ne_zero hk
          exact lt_min this (by omega)
        rw [if_pos hpos, Nat.mod_add_mod, show fs.length - 1 + 1 = fs.length by omega]
        apply Nat.mod_eq_of_lt
        have := Nat.mod_lt fs.length (show 0 < k.FAULT_LOG by omega)
        omega
    rw [hstep]
    refine ⟨?_, ?_, ?_, ?_⟩
    · rw [record_fault_faults k _ f hNz hf, List.length_set]; exact il
    · rw [record_fault_num_faults k _ f hNz hf, inum]
      simp only [List.length_append, List.length_singleton]
      by_cases hlt : fs.length < k.FAULT_LOG
      · rw [if_pos (by rw [min_eq_left (Nat.le_of_lt hlt)]; exact hlt),
          min_eq_left (Nat.le_of_lt hlt), min_eq_left (by omega)]
        apply Nat.mod_eq_of_lt; omega
      · rw [if_neg (by rw [min_eq_right (by omega)]; omega), min_eq_right (by omega),
          min_eq_right (by omega)]
    · rw [record_fault_last_fault k _ f hNz hf, hlast]
      simp only [List.length_append, List.length_singleton, Nat.add_sub_cancel]
    · intro m hm hmN
      simp only [List.length_append, List.length_singleton] at hm hmN
      rw [record_fault_faults k _ f hNz hf, hlast]
      by_cases hmk : m = fs.length
      · subst hmk
        rw [List.getElem?_set_self (by rw [il]; exact Nat.mod_lt _ (by omega))]
        simp
      · have hmlt : m < fs.length := by omega
        rw [List.getElem?_set_ne (mod_ne_of_between m fs.length k.FAULT_LOG hmlt (by omega)),
          islot m hmlt (by omega), List.getElem?_append_left hmlt]

theorem ledger_index_arith (n N d : Nat) (hN : 1 ≤ N) (hd : d < min n N) :
    d ≤ (if d > (n - 1) % N then min n N else 0) + (n - 1) % N ∧
    (if d > (n - 1) % N then min n N else 0) + (n - 1) % N - d = (n - 1 - d) % N := by
  have hdn : d < n := lt_of_lt_of_le hd (min_le_left _ _)
  have hdN : d < N := lt_of_lt_of_le hd (min_le_right _ _)
  have hr : (n - 1) % N < N := Nat.mod_lt _ (by omega)
  have hk : N * ((n - 1) / N) + (n - 1) % N = n - 1 := Nat.div_add_mod _ _
  generalize (n - 1) % N = r at hr hk ⊢
  by_cases hc : d > r
  · rw [if_pos hc]
    have hq : (n - 1) / N ≠ 0 := by
      intro hq
      rw [hq] at hk
      omega
    obtain ⟨q, hq'⟩ := Nat.exists_eq_succ_of_ne_zero hq
    rw [hq', Nat.mul_succ] at hk
    have hNn : N ≤ n := by
      have := Nat.zero_le (N * q)
      omega
    rw [min_eq_right hNn]
    refine ⟨by omega, ?_⟩
    have : n - 1 - d = N * q + (N + r - d) := by omega
    rw [this, Nat.mul_add_mod, Nat.mod_eq_of_lt (by omega)]
  · rw [if_neg hc]
    refine ⟨by omega, ?_⟩
    have : n - 1 - d = N * ((n - 1) / N) + (r - d) := by omega
    rw [this, Nat.mul_add_mod, Nat.mod_eq_of_lt (by omega)]
    omega

/-! ## Fault ledger: the claims -/

/-- C6. Fault ledger recency: for a capacity `N` between 1 and 255 and any list
`fs` of faults recorded one after the other into an empty ledger (none of them
skipped by `put_fault`), the fault count is `min (length fs) N`, and for every
depth `d` below that count `get_fault` returns the fault recorded `d` places
before the last one; depth 0 is the most recent fault and faults older than the
last `N` are no longer reachable. -/
theorem fault_ledger_recency (k : kconfig) (d0 : driver_data)
    (hN1 : 1 ≤ k.FAULT_LOG) (hN : k.FAULT_LOG ≤ 255)
    (h0 : d0.num_faults = 0) (h1 : d0.last_fault = 0) (h2 : d0.faults.length = k.FAULT_LOG)
    (fs : List power_fault) (hrec : ∀ f ∈ fs, recordable k f) :
    (record_faults k d0 fs).num_faults = min fs.length k.FAULT_LOG ∧
    ∀ d, d < min fs.length k.FAULT_LOG →
      ∃ f, fs[fs.length - 1 - d]? = some f ∧
        get_fault k (record_faults k d0 fs) d = some f := by
  obtain ⟨il, inum, ilast, islot⟩ := record_faults_invariant k d0 hN1 hN h0 h1 h2 fs hrec
  refine ⟨inum, ?_⟩
  intro d hd
  have hdn : d < fs.length := lt_of_lt_of_le hd (min_le_left _ _)
  have hdN : d < k.FAULT_LOG := lt_of_lt_of_le hd (min_le_right _ _)
  have hNz : k.FAULT_LOG ≠ 0 := by omega
  have hidx : get_fault_index k (record_faults k d0 fs) d
      = some ((fs.length - 1 - d) % k.FAULT_LOG) := by
    unfold get_fault_index
    rw [if_neg hNz, if_neg (by rw [inum]; omega)]
    simp only
    rw [inum, ilast]
    obtain ⟨ha, hb⟩ := ledger_index_arith fs.length k.FAULT_LOG d hN1 hd
    have hlt : (fs.length - 1 - d) % k.FAULT_LOG < k.FAULT_LOG := Nat.mod_lt _ (by omega)
    congr 1
    split_ifs at ha hb ⊢ <;> omega
  obtain ⟨f, hlook⟩ : ∃ f, fs[fs.length - 1 - d]? = some f :=
    ⟨_, List.getElem?_eq_getElem (by omega)⟩
  refine ⟨f, hlook, ?_⟩
  unfold get_fault
  rw [hidx]
  simp only
  rw [islot (fs.length - 1 - d) (by omega) (by omega), hlook]

/-- Witness for C6: five faults recorded into the 3-slot ledger of a fresh
instance. -/
theorem fault_ledger_recency_witness :
    (record_faults small_kconfig (initial_data small_kconfig cyclic_config)
      [⟨0, 0, 1⟩, ⟨255, 255, 0⟩, ⟨1, 0, 255⟩, ⟨2, 1, 0⟩, ⟨3, 0, 1⟩]).num_faults
        = min 5 small_kconfig.FAULT_LOG ∧
    ∀ d, d < min 5 small_kconfig.FAULT_LOG →
      ∃ f, ([⟨0, 0, 1⟩, ⟨255, 255, 0⟩, ⟨1, 0, 255⟩, ⟨2, 1, 0⟩, ⟨3, 0, 1⟩] :
          List power_fault)[5 - 1 - d]? = some f ∧
        get_fault small_kconfig
          (record_faults small_kconfig (initial_data small_kconfig cyclic_config)
            [⟨0, 0, 1⟩, ⟨255, 255, 0⟩, ⟨1, 0, 255⟩, ⟨2, 1, 0⟩, ⟨3, 0, 1⟩]) d = some f :=
  fault_ledger_recency small_kconfig (initial_data small_kconfig cyclic_config)
    (by decide) (by decide) rfl rfl (by decide)
    [⟨0, 0, 1⟩, ⟨255, 255, 0⟩, ⟨1, 0, 255⟩, ⟨2, 1, 0⟩, ⟨3, 0, 1⟩] (by decide)

/-- C7, evaluated at depth equal to the fault count.  On the empty 3-slot ledger
of a fresh instance `get_fault` at depth 0 returns the zero-filled slot 0 and the
three fault queries succeed with value 0 instead of failing with `-ERANGE`; after
one recorded fault, depth 1 returns that same fault again; only depths above the
count are rejected. -/
theorem fault_query_at_count_is_served :
    (initial_data small_kconfig cyclic_config).num_faults = 0 ∧
    get_fault small_kconfig (initial_data small_kconfig cyclic_config) 0 = some ⟨0, 0, 0⟩ ∧
    power_graph_get small_kconfig cyclic_config (initial_data small_kconfig cyclic_config)
      (PWRGRAPH_FAULT_TRANSITION 0) = some (0, some 0) ∧
    power_graph_get small_kconfig cyclic_config (initial_data small_kconfig cyclic_config)
      (PWRGRAPH_FAULT_STAGE 0) = some (0, some 0) ∧
    power_graph_get small_kconfig cyclic_config (initial_data small_kconfig cyclic_config)
      (PWRGRAPH_FAULT_SPEC 0) = some (0, some 0) ∧
    (record_faults small_kconfig (initial_data small_kconfig cyclic_config)
      [⟨1, 0, 1⟩]).num_faults = 1 ∧
    get_fault small_kconfig
      (record_faults small_kconfig (initial_data small_kconfig cyclic_config) [⟨1, 0, 1⟩]) 1
        = some ⟨1, 0, 1⟩ ∧
    power_graph_get small_kconfig cyclic_config
      (record_faults small_kconfig (initial_data small_kconfig cyclic_config) [⟨1, 0, 1⟩])
      (PWRGRAPH_FAULT_SPEC 1) = some (0, some 1) ∧
    power_graph_get small_kconfig cyclic_config
      (record_faults small_kconfig (initial_data small_kconfig cyclic_config) [⟨1, 0, 1⟩])
      (PWRGRAPH_FAULT_SPEC 2) = some (-ERANGE, none) := by
  decide

/-! ## Stage executor: auxiliary lemmas -/

theorem get_fault_zero (k : kconfig) (d : driver_data) (hN : k.FAULT_LOG ≠ 0)
    (hl : d.last_fault < 256) : get_fault k d 0 = d.faults[d.last_fault]? := by
  have hidx : get_fault_index k d 0 = some d.last_fault := by
    unfold get_fault_index
    rw [if_neg hN, if_neg (Nat.not_lt_zero _)]
    simp only
    rw [if_neg (Nat.not_lt_zero _)]
    congr 1
    omega
  unfold get_fault
  rw [hidx]

theorem put_fault_recorded (k : kconfig) (d : driver_data) (spec : Nat)
    (hN1 : 1 ≤ k.FAULT_LOG) (hN : k.FAULT_LOG ≤ 255)
    (hskip : ¬ ((d.transition = NO_STATE ∨ d.stage = NO_STAGE k) ∧ spec = NO_DEV k))
    (hlen : d.faults.length = k.FAULT_LOG) (hlast : d.last_fault < k.FAULT_LOG)
    (hnum : d.num_faults ≤ k.FAULT_LOG) :
    (put_fault k d spec).num_faults = min (d.num_faults + 1) k.FAULT_LOG ∧
    (put_fault k d spec).last_fault < k.FAULT_LOG ∧
    (put_fault k d spec).faults.length = k.FAULT_LOG ∧
    (put_fault k d spec).faults[(put_fault k d spec).last_fault]?
      = some ⟨d.transition, d.stage, spec⟩ ∧
    (∀ j, j ≠ (put_fault k d spec).last_fault →
      (put_fault k d spec).faults[j]? = d.faults[j]?) ∧
    (put_fault k d spec).state = d.state ∧ (put_fault k d spec).new_state = d.new_state ∧
    (put_fault k d spec).transition = d.transition ∧ (put_fault k d spec).stage = d.stage := by
  have hNz : k.FAULT_LOG ≠ 0 := by omega
  have hL : (if d.num_faults > 0 then ((d.last_fault + 1) % k.FAULT_LOG) % 256
      else d.last_fault) < k.FAULT_LOG := by
    split_ifs
    · have := Nat.mod_lt (d.last_fault + 1) (show 0 < k.FAULT_LOG by omega)
      rw [Nat.mod_eq_of_lt (by omega)]
      exact this
    · exact hlast
  unfold put_fault
  rw [if_neg hNz, if_neg hskip]
  simp only
  refine ⟨?_, hL, ?_, ?_, ?_, trivial, trivial, trivial, trivial⟩
  · split_ifs with h
    · rw [Nat.mod_eq_of_lt (by omega), min_eq_left (by omega)]
    · rw [min_eq_right (by omega)]; omega
  · rw [List.length_set]; exact hlen
  · rw [List.getElem?_set_self (by rw [hlen]; exact hL)]
  · intro j hj
    rw [List.getElem?_set_ne (Ne.symm hj)]

theorem NO_DEV_succ (k : kconfig) : NO_DEV k + 1 = 2 ^ dev_idx_bits k := by
  unfold NO_DEV dev_idx_bits
  split_ifs <;> norm_num

theorem NO_STAGE_succ (k : kconfig) : NO_STAGE k + 1 = 2 ^ stage_idx_bits k := by
  unfold NO_STAGE stage_idx_bits
  split_ifs <;> norm_num

theorem stage_fault_outcome {W : Type} (k : kconfig) (cfg : driver_config) (m1 : machine W)
    (T : power_transition) (stage : Nat)
    (hN1 : 1 ≤ k.FAULT_LOG) (hN : k.FAULT_LOG ≤ 255)
    (hlen : m1.data.faults.length = k.FAULT_LOG) (hlast : m1.data.last_fault < k.FAULT_LOG)
    (hnum : m1.data.num_faults ≤ k.FAULT_LOG)
    (hact : m1.data.transition ≠ NO_STATE) (hst : m1.data.stage ≠ NO_STAGE k)
    (hfit : DEV_INDEX k stage < 2 ^ dev_idx_bits k) :
    ∃ m', stage_fault k cfg T stage m1 = (flow.leave, m') ∧
      m'.data.state = T.target ∧ m'.data.new_state = cfg.safe_state ∧
      m'.data.transition = NO_STATE ∧ m'.data.stage = NO_STAGE k ∧
      m'.data.num_faults = min (m1.data.num_faults + 1) k.FAULT_LOG ∧
      get_fault k m'.data 0
        = some ⟨m1.data.transition, m1.data.stage, DEV_INDEX k stage⟩ ∧
      (∀ j, j ≠ m'.data.last_fault → m'.data.faults[j]? = m1.data.faults[j]?) := by
  have hskip : ¬ ((m1.data.transition = NO_STATE ∨ m1.data.stage = NO_STAGE k) ∧
      DEV_INDEX k stage = NO_DEV k) := by
    rintro ⟨h | h, -⟩
    · exact hact h
    · exact hst h
  obtain ⟨p1, p2, p3, p4, p5, -⟩ :=
    put_fault_recorded k m1.data (DEV_INDEX k stage) hN1 hN hskip hlen hlast hnum
  unfold stage_fault
  rw [Nat.mod_eq_of_lt hfit]
  refine ⟨_, rfl, rfl, rfl, rfl, rfl, p1, ?_, p5⟩
  rw [get_fault_zero k _ (by omega) (by simp only; omega)]
  exact p4

/-! ## Stage executor: the claims -/

/-- C8. Fault outcome of a stage step: with an active transition `T` (index
`m.data.transition`) at a valid stage whose packed entry references port index
`DEV_INDEX` and desired value `DEV_STATE`, if the port read reports `-EFAULT` or
`-ECANCELED` while the ignore-faults flag of `T` is clear, or the read succeeds
with a value different from the desired one and the set-command fails, then the
step leaves the inner loop having recorded exactly one fault (transition, stage,
port) that is now the most recent ledger entry (every other slot untouched, the
count grown by one up to the capacity), with the current state forced to
`T.target`, no active transition or stage, and the safe state requested. -/
theorem stage_step_fault_outcome {W : Type} (k : kconfig) (cfg : driver_config)
    (P : value_ports W) (m : machine W) (T : power_transition) (packed : Nat)
    (spec : value_dt_spec)
    (hN1 : 1 ≤ k.FAULT_LOG) (hN : k.FAULT_LOG ≤ 255)
    (hlen : m.data.faults.length = k.FAULT_LOG) (hlast : m.data.last_fault < k.FAULT_LOG)
    (hnum : m.data.num_faults ≤ k.FAULT_LOG)
    (hact : m.data.transition ≠ NO_STATE)
    (hT : cfg.transitions[m.data.transition]? = some T)
    (hS : T.stages[m.data.stage]? = some packed)
    (hstages : T.num_stages ≤ NO_STAGE k)
    (hP : cfg.specs[DEV_INDEX k (packed % 2 ^ stage_idx_bits k)]? = some spec)
    (hspecs : cfg.specs.length ≤ NO_DEV k)
    (hfail :
      (((P.value_get_dt m.world spec).1 = -EFAULT ∨
          (P.value_get_dt m.world spec).1 = -ECANCELED) ∧
        T.flags &&& power_transition_ignore_faults = 0) ∨
      ((P.value_get_dt m.world spec).1 = 0 ∧
        (P.value_get_dt m.world spec).2.1.getD m.val
          ≠ ((DEV_STATE k (packed % 2 ^ stage_idx_bits k) : Nat) : Int) ∧
        (P.value_set_dt (P.value_get_dt m.world spec).2.2 spec
          ((DEV_STATE k (packed % 2 ^ stage_idx_bits k) : Nat) : Int)).1 ≠ 0)) :
    ∃ m', stage_step k cfg P m = (flow.leave, m') ∧
      m'.data.state = T.target ∧ m'.data.new_state = cfg.safe_state ∧
      m'.data.transition = NO_STATE ∧ m'.data.stage = NO_STAGE k ∧
      m'.data.num_faults = min (m.data.num_faults + 1) k.FAULT_LOG ∧
      get_fault k m'.data 0
        = some ⟨m.data.transition, m.data.stage,
            DEV_INDEX k (packed % 2 ^ stage_idx_bits k)⟩ ∧
      (∀ j, j ≠ m'.data.last_fault → m'.data.faults[j]? = m.data.faults[j]?) := by
  have hst : m.data.stage ≠ NO_STAGE k := by
    have := (List.getElem?_eq_some.mp hS).1
    unfold power_transition.num_stages at hstages
    omega
  have hfit : DEV_INDEX k (packed % 2 ^ stage_idx_bits k) < 2 ^ dev_idx_bits k := by
    have := (List.getElem?_eq_some.mp hP).1
    have := NO_DEV_succ k
    omega
  unfold stage_step
  simp only [hT, hS, hP]
  rcases hfail with ⟨h1, h2⟩ | ⟨h1, h2, h3⟩
  · have hne : ¬ (P.value_get_dt m.world spec).1 = -EAGAIN := by
      rcases h1 with h | h <;> rw [h] <;> decide
    rw [if_neg hne, if_pos ⟨h1, h2⟩]
    exact stage_fault_outcome k cfg _ T _ hN1 hN hlen hlast hnum hact hst hfit
  · have hne : ¬ (P.value_get_dt m.world spec).1 = -EAGAIN := by rw [h1]; decide
    have hnf : ¬ ((P.value_get_dt m.world spec).1 = -EFAULT ∨
        (P.value_get_dt m.world spec).1 = -ECANCELED) := by rw [h1]; decide
    rw [if_neg hne, if_neg (fun h => hnf h.1), if_neg (fun h => h.2 h1), if_neg h2, if_pos h3]
    exact stage_fault_outcome k cfg _ T _ hN1 hN hlen hlast hnum hact hst hfit

/-- Witness for C8, the fault scenario of the specification: in the middle of
STANDBY to ON rail B reads 0 and rejects the set-command. -/
theorem stage_step_fault_outcome_witness :
    (scripted_ports.value_set_dt
      (scripted_ports.value_get_dt (rails_mid_transition ⟨[(0, some 0)], [-5]⟩).world ⟨11, 0⟩).2.2
      ⟨11, 0⟩ 1).1 ≠ 0 ∧
    ∃ m', stage_step small_kconfig rails_config scripted_ports
        (rails_mid_transition ⟨[(0, some 0)], [-5]⟩) = (flow.leave, m') ∧
      m'.data.state = 3 ∧ m'.data.new_state = 1 ∧
      m'.data.transition = NO_STATE ∧ m'.data.stage = NO_STAGE small_kconfig ∧
      m'.data.num_faults = min (0 + 1) 3 ∧
      get_fault small_kconfig m'.data 0 = some ⟨1, 0, 1⟩ ∧
      (∀ j, j ≠ m'.data.last_fault → m'.data.faults[j]? =
        (rails_mid_transition ⟨[(0, some 0)], [-5]⟩).data.faults[j]?) :=
  ⟨by decide,
    stage_step_fault_outcome small_kconfig rails_config scripted_ports
      (rails_mid_transition ⟨[(0, some 0)], [-5]⟩) ⟨[3], 2, 3, 0⟩ 3 ⟨11, 0⟩
      (by decide) (by decide) (by decide) (by decide) (by decide) (by decide)
      (by decide) (by decide) (by decide) (by decide) (by decide)
      (Or.inr ⟨by decide, by decide, by decide⟩)⟩

/-- C9. Settled stage step: with an active transition `T` at a valid stage, when
the port read returns 0 and the value read equals the desired value of the
stage, the step issues no set-command (its only event is the read); if a further
stage exists it only advances the active stage by one, otherwise it commits
`T.target` as the current state and clears the active transition and stage,
leaving the requested state and the ledger as they were. -/
theorem stage_step_settled {W : Type} (k : kconfig) (cfg : driver_config)
    (P : value_ports W) (m : machine W) (T : power_transition) (packed : Nat)
    (spec : value_dt_spec)
    (hT : cfg.transitions[m.data.transition]? = some T)
    (hS : T.stages[m.data.stage]? = some packed)
    (hstages : T.num_stages ≤ NO_STAGE k)
    (hP : cfg.specs[DEV_INDEX k (packed % 2 ^ stage_idx_bits k)]? = some spec)
    (hrc : (P.value_get_dt m.world spec).1 = 0)
    (hval : (P.value_get_dt m.world spec).2.1.getD m.val
      = ((DEV_STATE k (packed % 2 ^ stage_idx_bits k) : Nat) : Int)) :
    (stage_step k cfg P m).2.trace = m.trace ++ [event.get spec] ∧
    (m.data.stage + 1 < T.num_stages →
      (stage_step k cfg P m).1 = flow.again ∧
      (stage_step k cfg P m).2.data = { m.data with stage := m.data.stage + 1 }) ∧
    (¬ m.data.stage + 1 < T.num_stages →
      (stage_step k cfg P m).1 = flow.leave ∧
      (stage_step k cfg P m).2.data = { m.data with
        state := T.target, transition := NO_STATE, stage := NO_STAGE k }) := by
  have hnext : (m.data.stage + 1) % 2 ^ stage_idx_bits k = m.data.stage + 1 := by
    apply Nat.mod_eq_of_lt
    have := (List.getElem?_eq_some.mp hS).1
    have := NO_STAGE_succ k
    unfold power_transition.num_stages at hstages
    omega
  have hne : ¬ (P.value_get_dt m.world spec).1 = -EAGAIN := by rw [hrc]; decide
  have hnf : ¬ ((P.value_get_dt m.world spec).1 = -EFAULT ∨
      (P.value_get_dt m.world spec).1 = -ECANCELED) := by rw [hrc]; decide
  unfold stage_step
  simp only [hT, hS, hP]
  rw [if_neg hne, if_neg (fun h => hnf h.1), if_neg (fun h => h.2 hrc), if_pos hval, hnext]
  by_cases hlt : m.data.stage + 1 < T.num_stages
  · rw [if_pos hlt]
    exact ⟨rfl, fun _ => ⟨rfl, rfl⟩, fun h => absurd hlt h⟩
  · rw [if_neg hlt]
    exact ⟨rfl, fun h => absurd h hlt, fun _ => ⟨rfl, rfl⟩⟩

/-- Witness for C9: in the middle of STANDBY to ON rail B already reads 1, so the
single-stage transition commits. -/
theorem stage_step_settled_witness :
    (stage_step small_kconfig rails_config scripted_ports
      (rails_mid_transition ⟨[(0, some 1)], []⟩)).2.trace = [] ++ [event.get ⟨11, 0⟩] ∧
    (0 + 1 < 1 →
      (stage_step small_kconfig rails_config scripted_ports
        (rails_mid_transition ⟨[(0, some 1)], []⟩)).1 = flow.again ∧
      (stage_step small_kconfig rails_config scripted_ports
        (rails_mid_transition ⟨[(0, some 1)], []⟩)).2.data =
          { (rails_mid_transition ⟨[(0, some 1)], []⟩).data with stage := 0 + 1 }) ∧
    (¬ 0 + 1 < 1 →
      (stage_step small_kconfig rails_config scripted_ports
        (rails_mid_transition ⟨[(0, some 1)], []⟩)).1 = flow.leave ∧
      (stage_step small_kconfig rails_config scripted_ports
        (rails_mid_transition ⟨[(0, some 1)], []⟩)).2.data =
          { (rails_mid_transition ⟨[(0, some 1)], []⟩).data with
            state := 3, transition := NO_STATE, stage := NO_STAGE small_kconfig }) :=
  stage_step_settled small_kconfig rails_config scripted_ports
    (rails_mid_transition ⟨[(0, some 1)], []⟩) ⟨[3], 2, 3, 0⟩ 3 ⟨11, 0⟩
    (by decide) (by decide) (by decide) (by decide) (by decide) (by decide)

/-- C10. Suspension on NotSettled: with an active transition at a valid stage,
when the read of the stage's port returns `-EAGAIN` the step suspends with the
instance data (current and requested state, active transition and stage, fault
ledger) unchanged and the read as its only event; and a run of
`power_graph_task` that reaches this read (the requested state differs from the
current one) returns at once, suspended, with the instance data unchanged, no
set-command issued and no subscriber notified. -/
theorem suspension_on_not_settled {W : Type} (k : kconfig) (cfg : driver_config)
    (P : value_ports W) (m : machine W) (T : power_transition) (packed : Nat)
    (spec : value_dt_spec)
    (hact : m.data.transition ≠ NO_STATE)
    (hT : cfg.transitions[m.data.transition]? = some T)
    (hS : T.stages[m.data.stage]? = some packed)
    (hP : cfg.specs[DEV_INDEX k (packed % 2 ^ stage_idx_bits k)]? = some spec)
    (hget : (P.value_get_dt m.world spec).1 = -EAGAIN) :
    (∃ m', stage_step k cfg P m = (flow.suspended, m') ∧ m'.data = m.data ∧
      m'.trace = m.trace ++ [event.get spec]) ∧
    (m.data.new_state ≠ m.data.state → ∀ fuel, 2 ≤ fuel →
      ∃ m', power_graph_task k cfg P fuel m = some (task_exit.suspended, m') ∧
        m'.data = m.data ∧ m'.trace = m.trace ++ [event.get spec]) := by
  have hstep : ∃ m', stage_step k cfg P m = (flow.suspended, m') ∧ m'.data = m.data ∧
      m'.trace = m.trace ++ [event.get spec] := by
    unfold stage_step
    simp only [hT, hS, hP]
    rw [if_pos hget]
    exact ⟨_, rfl, rfl, rfl⟩
  refine ⟨hstep, ?_⟩
  intro hneq fuel hfuel
  obtain ⟨m', hm', hd, ht⟩ := hstep
  refine ⟨m', ?_, hd, ht⟩
  obtain ⟨f, rfl⟩ : ∃ f, fuel = f + 1 + 1 := ⟨fuel - 2, by omega⟩
  unfold power_graph_task
  unfold power_graph_task_from
  rw [if_neg hneq]
  unfold power_graph_task_from
  unfold inner_iteration
  rw [if_neg hact, hm']

/-- Witness for C10: in the middle of STANDBY to ON rail B answers `-EAGAIN`. -/
theorem suspension_on_not_settled_witness :
    (∃ m', stage_step small_kconfig rails_config scripted_ports
        (rails_mid_transition ⟨[(-11, none)], []⟩) = (flow.suspended, m') ∧
      m'.data = (rails_mid_transition ⟨[(-11, none)], []⟩).data ∧
      m'.trace = [] ++ [event.get ⟨11, 0⟩]) ∧
    ((3 : Nat) ≠ 2 → ∀ fuel, 2 ≤ fuel →
      ∃ m', power_graph_task small_kconfig rails_config scripted_ports fuel
          (rails_mid_transition ⟨[(-11, none)], []⟩) = some (task_exit.suspended, m') ∧
        m'.data = (rails_mid_transition ⟨[(-11, none)], []⟩).data ∧
        m'.trace = [] ++ [event.get ⟨11, 0⟩]) :=
  suspension_on_not_settled small_kconfig rails_config scripted_ports
    (rails_mid_transition ⟨[(-11, none)], []⟩) ⟨[3], 2, 3, 0⟩ 3 ⟨11, 0⟩
    (by decide) (by decide) (by decide) (by decide) (by decide)

/-! ## Executor runs: auxiliary lemmas -/

theorem put_fault_ledger (k : kconfig) (d : driver_data) (spec : Nat)
    (hN1 : 1 ≤ k.FAULT_LOG) (hN : k.FAULT_LOG ≤ 255)
    (hlen : d.faults.length = k.FAULT_LOG) (hlast : d.last_fault < k.FAULT_LOG)
    (hnum : d.num_faults ≤ k.FAULT_LOG) :
    (put_fault k d spec).faults.length = k.FAULT_LOG ∧
    (put_fault k d spec).last_fault < k.FAULT_LOG ∧
    (put_fault k d spec).num_faults ≤ k.FAULT_LOG ∧
    (put_fault k d spec).state = d.state ∧ (put_fault k d spec).new_state = d.new_state ∧
    (put_fault k d spec).transition = d.transition ∧ (put_fault k d spec).stage = d.stage := by
  by_cases hskip : (d.transition = NO_STATE ∨ d.stage = NO_STAGE k) ∧ spec = NO_DEV k
  · have : put_fault k d spec = d := by
      unfold put_fault
      rw [if_neg (by omega), if_pos hskip]
    rw [this]
    exact ⟨hlen, hlast, hnum, rfl, rfl, rfl, rfl⟩
  · obtain ⟨p1, p2, p3, -, -, p6, p7, p8, p9⟩ :=
      put_fault_recorded k d spec hN1 hN hskip hlen hlast hnum
    refine ⟨p3, p2, ?_, p6, p7, p8, p9⟩
    rw [p1]
    exact min_le_right _ _

theorem stage_step_effect {W : Type} (k : kconfig) (cfg : driver_config) (P : value_ports W)
    (m : machine W) (fl : flow) (m' : machine W)
    (h : stage_step k cfg P m = (fl, m')) :
    (∃ evs, m'.trace = m.trace ++ evs ∧ ∀ e ∈ evs, e ≠ event.notify) ∧
    (fl = flow.suspended → m'.data = m.data) ∧
    (fl = flow.stuck → m'.data = m.data) ∧
    (fl = flow.again → m'.data.state = m.data.state ∧ m'.data.new_state = m.data.new_state ∧
      m'.data.transition = m.data.transition ∧ m'.data.faults = m.data.faults ∧
      m'.data.num_faults = m.data.num_faults ∧ m'.data.last_fault = m.data.last_fault) ∧
    (fl = flow.leave → m'.data.transition = NO_STATE ∧ m'.data.stage = NO_STAGE k ∧
      (ledger_ok k m.data → ledger_ok k m'.data)) := by
  unfold stage_step at h
  split at h
  · simp only [Prod.mk.injEq] at h
    obtain ⟨rfl, rfl⟩ := h
    exact ⟨⟨[], by simp, by simp⟩, by simp, by simp, by simp, by simp⟩
  · split at h
    · simp only [Prod.mk.injEq] at h
      obtain ⟨rfl, rfl⟩ := h
      exact ⟨⟨[], by simp, by simp⟩, by simp, by simp, by simp, by simp⟩
    · dsimp only at h
      split at h
      · simp only [Prod.mk.injEq] at h
        obtain ⟨rfl, rfl⟩ := h
        exact ⟨⟨[], by simp, by simp⟩, by simp, by simp, by simp, by simp⟩
      · rename_i transition _ packed _ spec _
        split_ifs at h
        · simp only [Prod.mk.injEq] at h
          obtain ⟨rfl, rfl⟩ := h
          exact ⟨⟨[event.get spec], rfl, by simp⟩, by simp, by simp, by simp, by simp⟩
        · simp only [stage_fault, Prod.mk.injEq] at h
          obtain ⟨rfl, rfl⟩ := h
          refine ⟨⟨[event.get spec], rfl, by simp⟩, by simp, by simp, by simp, ?_⟩
          intro _
          refine ⟨rfl, rfl, ?_⟩
          intro hl hrange
          obtain ⟨hlen, hlast, hnum⟩ := hl hrange
          obtain ⟨q1, q2, q3, -⟩ :=
            put_fault_ledger k m.data _ hrange.1 hrange.2 hlen hlast hnum
          exact ⟨q1, q2, q3⟩
        · simp only [stage_fault, Prod.mk.injEq] at h
          obtain ⟨rfl, rfl⟩ := h
          refine ⟨⟨[event.get spec], rfl, by simp⟩, by simp, by simp, by simp, ?_⟩
          intro _
          refine ⟨rfl, rfl, ?_⟩
          intro hl hrange
          obtain ⟨hlen, hlast, hnum⟩ := hl hrange
          obtain ⟨q1, q2, q3, -⟩ :=
            put_fault_ledger k m.data _ hrange.1 hrange.2 hlen hlast hnum
          exact ⟨q1, q2, q3⟩
        · simp only [Prod.mk.injEq] at h
          obtain ⟨rfl, rfl⟩ := h
          exact ⟨⟨[event.get spec], rfl, by simp⟩, by simp, by simp, by simp, by simp⟩
        · simp only [Prod.mk.injEq] at h
          obtain ⟨rfl, rfl⟩ := h
          refine ⟨⟨[event.get spec], rfl, by simp⟩, by simp, by simp, by simp, ?_⟩
          intro _
          exact ⟨rfl, rfl, fun hl => hl⟩
        · simp only [stage_fault, Prod.mk.injEq] at h
          obtain ⟨rfl, rfl⟩ := h
          refine ⟨⟨_, List.append_assoc _ _ _, by simp⟩, by simp, by simp, by simp, ?_⟩
          intro _
          refine ⟨rfl, rfl, ?_⟩
          intro hl hrange
          obtain ⟨hlen, hlast, hnum⟩ := hl hrange
          obtain ⟨q1, q2, q3, -⟩ :=
            put_fault_ledger k m.data _ hrange.1 hrange.2 hlen hlast hnum
          exact ⟨q1, q2, q3⟩
        · simp only [Prod.mk.injEq] at h
          obtain ⟨rfl, rfl⟩ := h
          exact ⟨⟨_, List.append_assoc _ _ _, by simp⟩, by simp, by simp, by simp, by simp⟩

theorem inner_iteration_trace {W : Type} (k : kconfig) (cfg : driver_config)
    (P : value_ports W) (m : machine W) (fl : flow) (m' : machine W)
    (h : inner_iteration k cfg P m = (fl, m')) (hneq : m.data.new_state ≠ m.data.state) :
    (∃ evs, m'.trace = m.trace ++ evs ∧ ∀ e ∈ evs, e ≠ event.notify) ∧
    (fl ≠ flow.leave → m'.data.new_state ≠ m'.data.state) := by
  have key : ∀ m0 : machine W, stage_step k cfg P m0 = (fl, m') → m0.trace = m.trace →
      m0.data.new_state = m.data.new_state → m0.data.state = m.data.state →
      (∃ evs, m'.trace = m.trace ++ evs ∧ ∀ e ∈ evs, e ≠ event.notify) ∧
      (fl ≠ flow.leave → m'.data.new_state ≠ m'.data.state) := by
    intro m0 hstep ht hn hs
    obtain ⟨e1, e2, e3, e4, -⟩ := stage_step_effect k cfg P m0 fl m' hstep
    rw [ht] at e1
    refine ⟨e1, ?_⟩
    intro hfl
    cases fl with
    | again =>
      obtain ⟨a1, a2, -⟩ := e4 rfl
      rw [a1, a2, hn, hs]; exact hneq
    | leave => exact absurd rfl hfl
    | suspended => rw [e2 rfl, hn, hs]; exact hneq
    | stuck => rw [e3 rfl, hn, hs]; exact hneq
  unfold inner_iteration at h
  split_ifs at h with hidle
  · split at h
    · simp only [Prod.mk.injEq] at h
      obtain ⟨rfl, rfl⟩ := h
      exact ⟨⟨[], by simp, by simp⟩, fun _ => hneq⟩
    · split_ifs at h
      · simp only [Prod.mk.injEq] at h
        obtain ⟨rfl, rfl⟩ := h
        exact ⟨⟨[], by simp, by simp⟩, fun hfl => absurd rfl hfl⟩
      · exact key _ h rfl rfl rfl
  · exact key m h rfl rfl rfl

theorem stage_step_ok {W : Type} (k : kconfig) (cfg : driver_config) (P : value_ports W)
    (m : machine W) (fl : flow) (m' : machine W)
    (h : stage_step k cfg P m = (fl, m'))
    (hact : m.data.transition ≠ NO_STATE) (hneq : m.data.new_state ≠ m.data.state)
    (hl : ledger_ok k m.data) :
    (fl = flow.again → inner_ok k m'.data) ∧ (fl = flow.leave → instance_ok k m'.data) ∧
    (fl = flow.suspended → instance_ok k m'.data) := by
  obtain ⟨-, e2, -, e4, e5⟩ := stage_step_effect k cfg P m fl m' h
  refine ⟨?_, ?_, ?_⟩
  · intro hfl
    obtain ⟨a1, a2, a3, a4, a5, a6⟩ := e4 hfl
    refine ⟨by rw [a1, a2]; exact hneq, fun hx => absurd (a3 ▸ hx) hact, ?_⟩
    intro hrange
    rw [a4, a5, a6]
    exact hl hrange
  · intro hfl
    obtain ⟨b1, b2, b3⟩ := e5 hfl
    exact ⟨fun _ => b1, fun _ => b2, b3 hl⟩
  · intro hfl
    rw [e2 hfl]
    exact ⟨fun hx => absurd hx hneq, fun hx => absurd hx hact, hl⟩

theorem inner_iteration_ok {W : Type} (k : kconfig) (cfg : driver_config)
    (P : value_ports W) (m : machine W) (fl : flow) (m' : machine W)
    (hn : cfg.num_transitions ≤ 255)
    (hok : inner_ok k m.data) (h : inner_iteration k cfg P m = (fl, m')) :
    (fl = flow.again → inner_ok k m'.data) ∧ (fl = flow.leave → instance_ok k m'.data) ∧
    (fl = flow.suspended → instance_ok k m'.data) := by
  obtain ⟨hneq, hi2, hl⟩ := hok
  unfold inner_iteration at h
  split_ifs at h with hidle
  · split at h
    · simp only [Prod.mk.injEq] at h
      obtain ⟨rfl, rfl⟩ := h
      exact ⟨by simp, by simp, by simp⟩
    · rename_i rc hrc
      split_ifs at h with hneg
      · simp only [Prod.mk.injEq] at h
        obtain ⟨rfl, rfl⟩ := h
        refine ⟨by simp, ?_, by simp⟩
        intro _
        exact ⟨fun _ => hidle, hi2, hl⟩
      · refine stage_step_ok k cfg P _ fl m' h ?_ hneq hl
        rcases planner_result_sound cfg _ _ hn rc hrc with hr | ⟨t, rest, ht, hc, -⟩
        · exfalso
          rw [hr] at hneg
          exact hneg (by decide)
        · have hlt := (is_chain_head cfg _ _ t rest hc).1
          subst ht
          show (t : Int).toNat % 256 ≠ NO_STATE
          unfold NO_STATE
          rw [Int.toNat_ofNat]
          omega
  · exact stage_step_ok k cfg P m fl m' h hidle hneq hl

theorem power_graph_task_from_trace {W : Type} (k : kconfig) (cfg : driver_config)
    (P : value_ports W) :
    ∀ (fuel : Nat) (pt : task_point) (m : machine W) (exit : task_exit) (m' : machine W),
      (pt = task_point.inner → m.data.new_state ≠ m.data.state) →
      power_graph_task_from k cfg P fuel pt m = some (exit, m') →
      ∃ evs, (∀ e ∈ evs, e ≠ event.notify) ∧
        ((exit = task_exit.notified ∧ m'.data.new_state = m'.data.state ∧
            m'.trace = m.trace ++ evs ++ [event.notify]) ∨
          (exit ≠ task_exit.notified ∧ m'.data.new_state ≠ m'.data.state ∧
            m'.trace = m.trace ++ evs)) := by
  intro fuel
  induction fuel with
  | zero =>
    intro pt m exit m' _ h
    simp [power_graph_task_from] at h
  | succ fuel ih =>
    intro pt m exit m' hpt h
    cases pt with
    | outer =>
      simp only [power_graph_task_from] at h
      split_ifs at h with heq
      · simp only [Option.some.injEq, Prod.mk.injEq] at h
        obtain ⟨rfl, rfl⟩ := h
        exact ⟨[], by simp, Or.inl ⟨rfl, heq, by simp⟩⟩
      · exact ih task_point.inner m exit m' (fun _ => heq) h
    | inner =>
      have hneq := hpt rfl
      simp only [power_graph_task_from] at h
      cases hit : inner_iteration k cfg P m with
      | mk fl m1 =>
        obtain ⟨⟨evs1, ht1, hn1⟩, hs1⟩ := inner_iteration_trace k cfg P m fl m1 hit hneq
        rw [hit] at h
        have combine : ∀ pt', (pt' = task_point.inner → m1.data.new_state ≠ m1.data.state) →
            power_graph_task_from k cfg P fuel pt' m1 = some (exit, m') →
            ∃ evs, (∀ e ∈ evs, e ≠ event.notify) ∧
              ((exit = task_exit.notified ∧ m'.data.new_state = m'.data.state ∧
                  m'.trace = m.trace ++ evs ++ [event.notify]) ∨
                (exit ≠ task_exit.notified ∧ m'.data.new_state ≠ m'.data.state ∧
                  m'.trace = m.trace ++ evs)) := by
          intro pt' hpt' hrun
          obtain ⟨evs2, hn2, hcase⟩ := ih pt' m1 exit m' hpt' hrun
          refine ⟨evs1 ++ evs2, ?_, ?_⟩
          · intro e he
            rcases List.mem_append.mp he with he | he
            · exact hn1 e he
            · exact hn2 e he
          · rcases hcase with ⟨c1, c2, c3⟩ | ⟨c1, c2, c3⟩
            · exact Or.inl ⟨c1, c2, by rw [c3, ht1, List.append_assoc m.trace]⟩
            · exact Or.inr ⟨c1, c2, by rw [c3, ht1, List.append_assoc]⟩
        cases fl with
        | again => exact combine task_point.inner (fun _ => hs1 (by decide)) h
        | leave => exact combine task_point.outer (fun hx => by cases hx) h
        | suspended =>
          simp only [Option.some.injEq, Prod.mk.injEq] at h
          obtain ⟨rfl, rfl⟩ := h
          exact ⟨evs1, hn1, Or.inr ⟨by decide, hs1 (by decide), ht1⟩⟩
        | stuck =>
          simp only [Option.some.injEq, Prod.mk.injEq] at h
          obtain ⟨rfl, rfl⟩ := h
          exact ⟨evs1, hn1, Or.inr ⟨by decide, hs1 (by decide), ht1⟩⟩

theorem power_graph_task_from_ok {W : Type} (k : kconfig) (cfg : driver_config)
    (P : value_ports W) (hn : cfg.num_transitions ≤ 255) :
    ∀ (fuel : Nat) (pt : task_point) (m : machine W) (exit : task_exit) (m' : machine W),
      (pt = task_point.outer → instance_ok k m.data) →
      (pt = task_point.inner → inner_ok k m.data) →
      power_graph_task_from k cfg P fuel pt m = some (exit, m') →
      exit ≠ task_exit.stuck → instance_ok k m'.data := by
  intro fuel
  induction fuel with
  | zero =>
    intro pt m exit m' _ _ h
    simp [power_graph_task_from] at h
  | succ fuel ih =>
    intro pt m exit m' ho hi h hex
    cases pt with
    | outer =>
      have hok := ho rfl
      simp only [power_graph_task_from] at h
      split_ifs at h with heq
      · simp only [Option.some.injEq, Prod.mk.injEq] at h
        obtain ⟨rfl, rfl⟩ := h
        exact hok
      · exact ih task_point.inner m exit m' (fun hx => by cases hx)
          (fun _ => ⟨heq, hok.2⟩) h hex
    | inner =>
      have hok := hi rfl
      simp only [power_graph_task_from] at h
      cases hit : inner_iteration k cfg P m with
      | mk fl m1 =>
        obtain ⟨o1, o2, o3⟩ := inner_iteration_ok k cfg P m fl m1 hn hok hit
        rw [hit] at h
        cases fl with
        | again =>
          exact ih task_point.inner m1 exit m' (fun hx => by cases hx) (fun _ => o1 rfl) h hex
        | leave =>
          exact ih task_point.outer m1 exit m' (fun _ => o2 rfl) (fun hx => by cases hx) h hex
        | suspended =>
          simp only [Option.some.injEq, Prod.mk.injEq] at h
          obtain ⟨rfl, rfl⟩ := h
          exact o3 rfl
        | stuck =>
          simp only [Option.some.injEq, Prod.mk.injEq] at h
          exact absurd h.1.symm hex

theorem reachable_ok (k : kconfig) (cfg : driver_config) (hn : cfg.num_transitions ≤ 255)
    (d : driver_data) (hr : reachable k cfg d) : instance_ok k d := by
  induction hr with
  | init =>
    refine ⟨fun _ => rfl, fun _ => rfl, ?_⟩
    intro hrange
    refine ⟨?_, ?_, ?_⟩
    · simp [initial_data]
    · simp only [initial_data]; omega
    · simp [initial_data]
  | set d id value _ ih =>
    obtain ⟨i1, i2, i3⟩ := ih
    unfold power_graph_set
    split_ifs with h1 h2 h3 h4
    · exact ⟨i1, i2, i3⟩
    · exact ⟨i1, i2, i3⟩
    · exact ⟨i1, i2, i3⟩
    · exact ⟨fun _ => by simpa using h3, i2, i3⟩
    · exact ⟨i1, i2, i3⟩
  | cb d pwr_dev val_id _ ih =>
    obtain ⟨i1, i2, i3⟩ := ih
    unfold power_graph_cb
    split_ifs with h1
    · have hfix : (put_fault k d (find_spec k cfg pwr_dev val_id)).transition = d.transition ∧
          (put_fault k d (find_spec k cfg pwr_dev val_id)).stage = d.stage := by
        unfold put_fault
        split_ifs <;> exact ⟨rfl, rfl⟩
      refine ⟨fun _ => ?_, fun hx => ?_, ?_⟩
      · show (put_fault k d (find_spec k cfg pwr_dev val_id)).transition = NO_STATE
        rw [hfix.1]; exact i1 h1
      · show (put_fault k d (find_spec k cfg pwr_dev val_id)).stage = NO_STAGE k
        rw [hfix.2]; exact i2 (hfix.1 ▸ hx)
      · intro hrange
        obtain ⟨hlen, hlast, hnum⟩ := i3 hrange
        obtain ⟨q1, q2, q3, -⟩ := put_fault_ledger k d (find_spec k cfg pwr_dev val_id)
          hrange.1 hrange.2 hlen hlast hnum
        exact ⟨q1, q2, q3⟩
    · exact ⟨i1, i2, i3⟩
  | task d W P w val trace fuel exit m' _ hrun hex ih =>
    exact power_graph_task_from_ok k cfg P hn fuel task_point.outer _ exit m'
      (fun _ => ih) (fun hx => by cases hx) hrun hex

/-! ## Executor runs: the claims -/

/-- C11. Tolerated functional failure: with an active transition `T` whose
ignore-faults flag is set, a port read reporting `-EFAULT` or `-ECANCELED`
records no fault by itself; the step compares the value left in `val` (the value
the port wrote, or else whatever `val` held before) with the desired value.
When they are equal the step does exactly what a settled read does: no
set-command, the next stage if there is one, otherwise the commit of `T.target`.
When they differ the set-command for the desired value is issued; if it is
accepted the instance data are unchanged and the stage is polled again, and only
a rejected set-command takes the fault path. -/
theorem stage_step_tolerated_fault {W : Type} (k : kconfig) (cfg : driver_config)
    (P : value_ports W) (m : machine W) (T : power_transition) (packed : Nat)
    (spec : value_dt_spec)
    (hT : cfg.transitions[m.data.transition]? = some T)
    (hS : T.stages[m.data.stage]? = some packed)
    (hstages : T.num_stages ≤ NO_STAGE k)
    (hP : cfg.specs[DEV_INDEX k (packed % 2 ^ stage_idx_bits k)]? = some spec)
    (hflag : T.flags &&& power_transition_ignore_faults ≠ 0)
    (hrc : (P.value_get_dt m.world spec).1 = -EFAULT ∨
      (P.value_get_dt m.world spec).1 = -ECANCELED) :
    ((P.value_get_dt m.world spec).2.1.getD m.val
        = ((DEV_STATE k (packed % 2 ^ stage_idx_bits k) : Nat) : Int) →
      (stage_step k cfg P m).2.trace = m.trace ++ [event.get spec] ∧
      (m.data.stage + 1 < T.num_stages →
        (stage_step k cfg P m).1 = flow.again ∧
        (stage_step k cfg P m).2.data = { m.data with stage := m.data.stage + 1 }) ∧
      (¬ m.data.stage + 1 < T.num_stages →
        (stage_step k cfg P m).1 = flow.leave ∧
        (stage_step k cfg P m).2.data = { m.data with
          state := T.target, transition := NO_STATE, stage := NO_STAGE k })) ∧
    ((P.value_get_dt m.world spec).2.1.getD m.val
        ≠ ((DEV_STATE k (packed % 2 ^ stage_idx_bits k) : Nat) : Int) →
      (stage_step k cfg P m).2.trace = m.trace ++ [event.get spec,
        event.set spec ((DEV_STATE k (packed % 2 ^ stage_idx_bits k) : Nat) : Int)] ∧
      ((P.value_set_dt (P.value_get_dt m.world spec).2.2 spec
          ((DEV_STATE k (packed % 2 ^ stage_idx_bits k) : Nat) : Int)).1 = 0 →
        (stage_step k cfg P m).1 = flow.again ∧ (stage_step k cfg P m).2.data = m.data) ∧
      ((P.value_set_dt (P.value_get_dt m.world spec).2.2 spec
          ((DEV_STATE k (packed % 2 ^ stage_idx_bits k) : Nat) : Int)).1 ≠ 0 →
        (stage_step k cfg P m).1 = flow.leave ∧
        (stage_step k cfg P m).2.data = { put_fault k m.data
            (DEV_INDEX k (packed % 2 ^ stage_idx_bits k) % 2 ^ dev_idx_bits k) with
          state := T.target, transition := NO_STATE, stage := NO_STAGE k,
          new_state := cfg.safe_state })) := by
  have hnext : (m.data.stage + 1) % 2 ^ stage_idx_bits k = m.data.stage + 1 := by
    apply Nat.mod_eq_of_lt
    have := (List.getElem?_eq_some.mp hS).1
    have := NO_STAGE_succ k
    unfold power_transition.num_stages at hstages
    omega
  have hne : ¬ (P.value_get_dt m.world spec).1 = -EAGAIN := by
    rcases hrc with h | h <;> rw [h] <;> decide
  unfold stage_step
  simp only [hT, hS, hP]
  rw [if_neg hne, if_neg (fun h => hflag h.2), if_neg (fun h => h.1 hrc)]
  refine ⟨?_, ?_⟩
  · intro hval
    rw [if_pos hval, hnext]
    by_cases hlt : m.data.stage + 1 < T.num_stages
    · rw [if_pos hlt]
      exact ⟨rfl, fun _ => ⟨rfl, rfl⟩, fun h => absurd hlt h⟩
    · rw [if_neg hlt]
      exact ⟨rfl, fun h => absurd h hlt, fun _ => ⟨rfl, rfl⟩⟩
  · intro hval
    rw [if_neg hval]
    by_cases hset : (P.value_set_dt (P.value_get_dt m.world spec).2.2 spec
        ((DEV_STATE k (packed % 2 ^ stage_idx_bits k) : Nat) : Int)).1 = 0
    · rw [if_neg (fun h => h hset)]
      exact ⟨by simp, fun _ => ⟨rfl, rfl⟩, fun h => absurd hset h⟩
    · rw [if_pos hset]
      exact ⟨by simp [stage_fault], fun h => absurd h hset, fun _ => ⟨rfl, rfl⟩⟩

/-- Witness for C11: the rails topology with the ignore-faults flag set on both
transitions; in the middle of STANDBY to ON rail B answers `-EFAULT` without
writing a value, the stale 0 differs from the desired 1 and the set-command is
issued and accepted. -/
theorem stage_step_tolerated_fault_witness :
    (-EFAULT = -EFAULT ∨ -EFAULT = -ECANCELED) ∧
    (stage_step small_kconfig
      { rails_config with transitions := [⟨[1], 1, 2, 1⟩, ⟨[3], 2, 3, 1⟩] } scripted_ports
      (rails_mid_transition ⟨[(-14, none)], []⟩)).2.trace
        = [event.get ⟨11, 0⟩, event.set ⟨11, 0⟩ 1] ∧
    (stage_step small_kconfig
      { rails_config with transitions := [⟨[1], 1, 2, 1⟩, ⟨[3], 2, 3, 1⟩] } scripted_ports
      (rails_mid_transition ⟨[(-14, none)], []⟩)).1 = flow.again ∧
    (stage_step small_kconfig
      { rails_config with transitions := [⟨[1], 1, 2, 1⟩, ⟨[3], 2, 3, 1⟩] } scripted_ports
      (rails_mid_transition ⟨[(-14, none)], []⟩)).2.data
        = (rails_mid_transition ⟨[(-14, none)], []⟩).data :=
  have h := (stage_step_tolerated_fault small_kconfig
    { rails_config with transitions := [⟨[1], 1, 2, 1⟩, ⟨[3], 2, 3, 1⟩] } scripted_ports
    (rails_mid_transition ⟨[(-14, none)], []⟩) ⟨[3], 2, 3, 1⟩ 3 ⟨11, 0⟩
    (by decide) (by decide) (by decide) (by decide) (by decide) (Or.inl (by decide))).2
      (by decide)
  ⟨Or.inl rfl, h.1, (h.2.1 (by decide)).1, (h.2.1 (by decide)).2⟩

/-- C12. NoPath fallback: with no active transition, a requested state different
from the current one and a planner that reports `-ENOENT`, the pass through the
inner loop only sets the requested state to the safe state (current state, active
transition and stage, ledger, outside world and event trace all unchanged: no
fault, no port access, no notification) and goes back to the outer loop, so the
task run continues from there instead of failing. -/
theorem no_path_fallback {W : Type} (k : kconfig) (cfg : driver_config) (P : value_ports W)
    (m : machine W)
    (hidle : m.data.transition = NO_STATE) (hneq : m.data.new_state ≠ m.data.state)
    (hnp : find_first_transition cfg m.data.state m.data.new_state = some (-ENOENT)) :
    inner_iteration k cfg P m
      = (flow.leave, { m with data := { m.data with new_state := cfg.safe_state } }) ∧
    ∀ fuel, power_graph_task k cfg P (fuel + 2) m
      = power_graph_task_from k cfg P fuel task_point.outer
          { m with data := { m.data with new_state := cfg.safe_state } } := by
  have hstep : inner_iteration k cfg P m
      = (flow.leave, { m with data := { m.data with new_state := cfg.safe_state } }) := by
    unfold inner_iteration
    rw [if_pos hidle, hnp]
    simp only
    rw [if_pos (by decide)]
  refine ⟨hstep, ?_⟩
  intro fuel
  unfold power_graph_task
  rw [power_graph_task_from, if_neg hneq, power_graph_task_from, hstep]

/-- Witness for C12: an idle instance of the rails topology at ON (state 3) asked
for state 2, to which no transition leads from ON. -/
theorem no_path_fallback_witness :
    inner_iteration small_kconfig rails_config scripted_ports
        ⟨{ initial_data small_kconfig rails_config with state := 3, new_state := 2 },
          ⟨[], []⟩, 0, []⟩
      = (flow.leave,
          ⟨{ initial_data small_kconfig rails_config with state := 3, new_state := 1 },
            ⟨[], []⟩, 0, []⟩) ∧
    ∀ fuel, power_graph_task small_kconfig rails_config scripted_ports (fuel + 2)
        ⟨{ initial_data small_kconfig rails_config with state := 3, new_state := 2 },
          ⟨[], []⟩, 0, []⟩
      = power_graph_task_from small_kconfig rails_config scripted_ports fuel task_point.outer
          ⟨{ initial_data small_kconfig rails_config with state := 3, new_state := 1 },
            ⟨[], []⟩, 0, []⟩ :=
  no_path_fallback small_kconfig rails_config scripted_ports
    ⟨{ initial_data small_kconfig rails_config with state := 3, new_state := 2 },
      ⟨[], []⟩, 0, []⟩ (by decide) (by decide) (by decide)

/-- C13. Stabilisation notification: every run of `power_graph_task` that
returns extends the event trace by some events `evs`; if it returns with the
current state equal to the requested one, it returned through the notification,
`value_sub_notify` occurs exactly once in `evs` and is its last event; if it
returns suspended on a port, the two states differ and `evs` holds no
notification. -/
theorem stabilisation_notification {W : Type} (k : kconfig) (cfg : driver_config)
    (P : value_ports W) (fuel : Nat) (m : machine W) (exit : task_exit) (m' : machine W)
    (h : power_graph_task k cfg P fuel m = some (exit, m')) :
    ∃ evs, m'.trace = m.trace ++ evs ∧
      (m'.data.new_state = m'.data.state →
        exit = task_exit.notified ∧ evs.count event.notify = 1 ∧
        evs.getLast? = some event.notify) ∧
      (exit = task_exit.suspended →
        m'.data.new_state ≠ m'.data.state ∧ ∀ e ∈ evs, e ≠ event.notify) := by
  obtain ⟨evs, hn, hcase⟩ := power_graph_task_from_trace k cfg P fuel task_point.outer m exit m'
    (fun hx => by cases hx) h
  have hcount : evs.count event.notify = 0 :=
    List.count_eq_zero.mpr (fun hmem => hn _ hmem rfl)
  rcases hcase with ⟨c1, c2, c3⟩ | ⟨c1, c2, c3⟩
  · refine ⟨evs ++ [event.notify], by rw [c3, List.append_assoc], ?_, ?_⟩
    · intro _
      refine ⟨c1, ?_, by simp⟩
      rw [List.count_append, hcount]
      simp
    · intro hs
      rw [c1] at hs
      cases hs
  · refine ⟨evs, c3, fun hx => absurd hx c2, fun _ => ⟨c2, hn⟩⟩

/-- Witness for C13: from the initial state with ON requested, rail A reads 0, is
commanded to 1 and then reports `-EAGAIN`: the run returns suspended. -/
theorem stabilisation_notification_witness :
    ∃ evs, [event.get ⟨10, 0⟩, event.set ⟨10, 0⟩ 1, event.get ⟨10, 0⟩] = [] ++ evs ∧
      ((3 : Nat) = 1 →
        task_exit.suspended = task_exit.notified ∧ evs.count event.notify = 1 ∧
        evs.getLast? = some event.notify) ∧
      (task_exit.suspended = task_exit.suspended →
        (3 : Nat) ≠ 1 ∧ ∀ e ∈ evs, e ≠ event.notify) :=
  stabilisation_notification small_kconfig rails_config scripted_ports 5
    ⟨{ initial_data small_kconfig rails_config with new_state := 3 },
      ⟨[(0, some 0), (-11, none)], []⟩, 0, []⟩
    task_exit.suspended
    ⟨{ initial_data small_kconfig rails_config with new_state := 3, transition := 0, stage := 0 },
      ⟨[], []⟩, 0, [event.get ⟨10, 0⟩, event.set ⟨10, 0⟩ 1, event.get ⟨10, 0⟩]⟩
    (by decide)

/-! ## Requests and callbacks: the claims -/

/-- C14. No-op request: `power_graph_set(PWRGRAPH_STATE, D)` with `D` equal to
the current state returns 0, leaves every field of the instance (states, active
transition and stage, ledger) as it was and does not submit the work item, idle
or mid-transition alike; nothing in it notifies a subscriber. -/
theorem power_graph_set_current_state (cfg : driver_config) (d : driver_data) (D : Int)
    (hD : (d.state : Int) = D) :
    power_graph_set cfg d PWRGRAPH_STATE D = (0, d, false) := by
  unfold power_graph_set
  rw [if_pos rfl, if_pos hD]

/-- Witness for C14: requesting STANDBY in the middle of STANDBY to ON. -/
theorem power_graph_set_current_state_witness :
    power_graph_set rails_config (rails_mid_transition ⟨[], []⟩).data PWRGRAPH_STATE 2
      = (0, (rails_mid_transition ⟨[], []⟩).data, false) :=
  power_graph_set_current_state rails_config (rails_mid_transition ⟨[], []⟩).data 2
    (by decide)

/-- C15. Busy rejection: while a transition is active, `power_graph_set` of
`PWRGRAPH_STATE` to any value other than the current state returns `-EBUSY`,
leaves every field of the instance as it was and does not submit the work
item. -/
theorem power_graph_set_busy (cfg : driver_config) (d : driver_data) (D : Int)
    (hact : d.transition ≠ NO_STATE) (hD : (d.state : Int) ≠ D) :
    power_graph_set cfg d PWRGRAPH_STATE D = (-EBUSY, d, false) := by
  unfold power_graph_set
  rw [if_pos rfl, if_neg hD, if_pos hact]

/-- Witness for C15: requesting OFF in the middle of STANDBY to ON. -/
theorem power_graph_set_busy_witness :
    power_graph_set rails_config (rails_mid_transition ⟨[], []⟩).data PWRGRAPH_STATE 1
      = (-EBUSY, (rails_mid_transition ⟨[], []⟩).data, false) :=
  power_graph_set_busy rails_config (rails_mid_transition ⟨[], []⟩).data 1
    (by decide) (by decide)

/-- C16, evaluated on the rails topology (state ids 1, 2, 3) at the idle initial
instance: the value 258 is not a configured state id and differs from the
current state 1, yet `power_graph_set` returns 0, sets the requested state to 2
(258 converted to `state_id_t`) and submits the work item; the negative value
-253 is accepted as state 3 in the same way.  A value whose low 8 bits match no
configured id, such as 7, is rejected with `-EINVAL`. -/
theorem power_graph_set_accepts_unknown_value :
    (∀ s ∈ rails_config.states, (s.id : Int) ≠ 258 ∧ (s.id : Int) ≠ -253) ∧
    (initial_data small_kconfig rails_config).transition = NO_STATE ∧
    ((initial_data small_kconfig rails_config).state : Int) ≠ 258 ∧
    power_graph_set rails_config (initial_data small_kconfig rails_config) PWRGRAPH_STATE 258
      = (0, { initial_data small_kconfig rails_config with new_state := 2 }, true) ∧
    power_graph_set rails_config (initial_data small_kconfig rails_config) PWRGRAPH_STATE (-253)
      = (0, { initial_data small_kconfig rails_config with new_state := 3 }, true) ∧
    power_graph_set rails_config (initial_data small_kconfig rails_config) PWRGRAPH_STATE 7
      = (-EINVAL, initial_data small_kconfig rails_config, false) := by
  decide

/-- C17. State query: `power_graph_get(PWRGRAPH_STATE)` yields the current state
with return code 0 when no transition is active, and the target of the active
transition with return code `-EAGAIN` when one is active, whatever the current
and requested states are; the query only reads the instance. -/
theorem power_graph_get_state (k : kconfig) (cfg : driver_config) (d : driver_data) :
    (d.transition = NO_STATE →
      power_graph_get k cfg d PWRGRAPH_STATE = some (0, some (d.state : Int))) ∧
    (∀ T : power_transition, d.transition ≠ NO_STATE →
      cfg.transitions[d.transition]? = some T →
      power_graph_get k cfg d PWRGRAPH_STATE = some (-EAGAIN, some (T.target : Int))) := by
  refine ⟨?_, ?_⟩
  · intro h
    unfold power_graph_get
    rw [if_pos rfl, if_pos h]
  · intro T h hT
    unfold power_graph_get
    rw [if_pos rfl, if_neg h, hT]

/-- Witness for C17: in the middle of STANDBY (2) to ON (3) the query answers 3
with `-EAGAIN`. -/
theorem power_graph_get_state_witness :
    power_graph_get small_kconfig rails_config (rails_mid_transition ⟨[], []⟩).data
      PWRGRAPH_STATE = some (-EAGAIN, some 3) :=
  (power_graph_get_state small_kconfig rails_config (rails_mid_transition ⟨[], []⟩).data).2
    ⟨[3], 2, 3, 0⟩ (by decide) (by decide)

/-- C18. Unsolicited change while idle: in every reachable instance state whose
current state equals the requested one (ledger capacity between 1 and 255), when
the notifying port resolves through `find_spec` to the configured port index `p`,
`power_graph_cb` records the fault (no transition, no stage, port `p`) as the
most recent ledger entry (count grown by one up to the capacity, every other slot
untouched), sets the requested state to the safe state, leaves the current state
and the absent transition and stage unchanged, and submits the work item. -/
theorem power_graph_cb_idle (k : kconfig) (cfg : driver_config) (d : driver_data)
    (pwr_dev val_id p : Nat)
    (hn : cfg.num_transitions ≤ 255) (hN1 : 1 ≤ k.FAULT_LOG) (hN : k.FAULT_LOG ≤ 255)
    (hspecs : cfg.specs.length ≤ NO_DEV k)
    (hr : reachable k cfg d) (heq : d.new_state = d.state)
    (hp : find_spec k cfg pwr_dev val_id = p) (hpc : p < cfg.specs.length) :
    ∃ d', power_graph_cb k cfg d pwr_dev val_id = (d', true) ∧
      d'.new_state = cfg.safe_state ∧ d'.state = d.state ∧
      d'.transition = NO_STATE ∧ d'.stage = NO_STAGE k ∧
      d'.num_faults = min (d.num_faults + 1) k.FAULT_LOG ∧
      get_fault k d' 0 = some ⟨NO_STATE, NO_STAGE k, p⟩ ∧
      (∀ j, j ≠ d'.last_fault → d'.faults[j]? = d.faults[j]?) := by
  obtain ⟨i1, i2, i3⟩ := reachable_ok k cfg hn d hr
  obtain ⟨hlen, hlast, hnum⟩ := i3 ⟨hN1, hN⟩
  have ht : d.transition = NO_STATE := i1 heq
  have hs : d.stage = NO_STAGE k := i2 ht
  have hskip : ¬ ((d.transition = NO_STATE ∨ d.stage = NO_STAGE k) ∧ p = NO_DEV k) := by
    rintro ⟨-, hx⟩
    omega
  obtain ⟨p1, p2, p3, p4, p5, p6, -, p8, p9⟩ :=
    put_fault_recorded k d p hN1 hN hskip hlen hlast hnum
  unfold power_graph_cb
  rw [if_pos heq, hp]
  refine ⟨_, rfl, rfl, p6, ?_, ?_, p1, ?_, p5⟩
  · show (put_fault k d p).transition = NO_STATE
    rw [p8]; exact ht
  · show (put_fault k d p).stage = NO_STAGE k
    rw [p9]; exact hs
  · rw [get_fault_zero k _ (by omega) (by simp only; omega)]
    show (put_fault k d p).faults[(put_fault k d p).last_fault]? = _
    rw [p4, ht, hs]

/-- Witness for C18: the idle initial instance of the rails topology is notified
by rail B, port index 1. -/
theorem power_graph_cb_idle_witness :
    ∃ d', power_graph_cb small_kconfig rails_config (initial_data small_kconfig rails_config)
        11 0 = (d', true) ∧
      d'.new_state = rails_config.safe_state ∧
      d'.state = (initial_data small_kconfig rails_config).state ∧
      d'.transition = NO_STATE ∧ d'.stage = NO_STAGE small_kconfig ∧
      d'.num_faults = min ((initial_data small_kconfig rails_config).num_faults + 1)
        small_kconfig.FAULT_LOG ∧
      get_fault small_kconfig d' 0 = some ⟨NO_STATE, NO_STAGE small_kconfig, 1⟩ ∧
      (∀ j, j ≠ d'.last_fault →
        d'.faults[j]? = (initial_data small_kconfig rails_config).faults[j]?) :=
  power_graph_cb_idle small_kconfig rails_config (initial_data small_kconfig rails_config)
    11 0 1 (by decide) (by decide) (by decide) (by decide) reachable.init rfl
    (by decide) (by decide)

/-- C19 as stated fails: the idle initial instance of the rails topology (empty
3-slot ledger) is notified by a port (device 99) that matches no configured port.
`find_spec` yields `NO_DEV`, `put_fault` skips the record, the fault count stays
0 and depth 0 does not hold a record (none, none, none). -/
theorem power_graph_cb_unresolvable_not_recorded :
    (initial_data small_kconfig rails_config).new_state
      = (initial_data small_kconfig rails_config).state ∧
    (initial_data small_kconfig rails_config).transition = NO_STATE ∧
    (∀ s ∈ rails_config.specs, ¬ (s.dev = 99 ∧ s.id = 0)) ∧
    find_spec small_kconfig rails_config 99 0 = NO_DEV small_kconfig ∧
    (initial_data small_kconfig rails_config).num_faults = 0 ∧
    (power_graph_cb small_kconfig rails_config (initial_data small_kconfig rails_config)
      99 0).1.num_faults = 0 ∧
    get_fault small_kconfig
      (power_graph_cb small_kconfig rails_config (initial_data small_kconfig rails_config)
        99 0).1 0
      ≠ some ⟨NO_STATE, NO_STAGE small_kconfig, NO_DEV small_kconfig⟩ := by
  decide

theorem find_spec_from_none (k : kconfig) (pwr_dev val_id : Nat) :
    ∀ (specs : List value_dt_spec) (i : Nat),
      (∀ s ∈ specs, ¬ (s.dev = pwr_dev ∧ s.id = val_id)) →
      find_spec_from k specs i pwr_dev val_id = NO_DEV k := by
  intro specs
  induction specs with
  | nil => intro i _; rfl
  | cons s rest ih =>
    intro i h
    unfold find_spec_from
    rw [if_neg (h s (by simp))]
    exact ih (i + 1) (fun x hx => h x (by simp [hx]))

/-- C19, amended: in an idle instance state (current state equal to the requested
one, no active transition), when the notifying port matches no configured port
`power_graph_cb` records no fault, since `put_fault` skips a record that has
neither a transition nor a port; the ledger and every other field stay as they
were, except that the requested state becomes the safe state, and the work item
is submitted. -/
theorem power_graph_cb_unresolvable (k : kconfig) (cfg : driver_config) (d : driver_data)
    (pwr_dev val_id : Nat)
    (heq : d.new_state = d.state) (hidle : d.transition = NO_STATE)
    (hun : ∀ s ∈ cfg.specs, ¬ (s.dev = pwr_dev ∧ s.id = val_id)) :
    power_graph_cb k cfg d pwr_dev val_id = ({ d with new_state := cfg.safe_state }, true) := by
  have hfs : find_spec k cfg pwr_dev val_id = NO_DEV k :=
    find_spec_from_none k pwr_dev val_id cfg.specs 0 hun
  have hput : put_fault k d (NO_DEV k) = d := by
    unfold put_fault
    by_cases h1 : k.FAULT_LOG = 0
    · rw [if_pos h1]
    · rw [if_neg h1, if_pos ⟨Or.inl hidle, rfl⟩]
  unfold power_graph_cb
  rw [if_pos heq, hfs, hput]

/-- Witness for the amended C19 on the idle initial instance of the rails
topology and the unknown device 99. -/
theorem power_graph_cb_unresolvable_witness :
    power_graph_cb small_kconfig rails_config (initial_data small_kconfig rails_config) 99 0
      = ({ initial_data small_kconfig rails_config with
            new_state := rails_config.safe_state }, true) :=
  power_graph_cb_unresolvable small_kconfig rails_config
    (initial_data small_kconfig rails_config) 99 0 rfl rfl (by decide)

/-- C20. Unsolicited change mid-transition: in every instance state reachable
from the initial state in which a transition is active, `power_graph_cb` records
no fault and leaves the whole instance (states, active transition and stage,
ledger) unchanged; it only submits the work item. -/
theorem power_graph_cb_mid_transition (k : kconfig) (cfg : driver_config) (d : driver_data)
    (pwr_dev val_id : Nat) (hn : cfg.num_transitions ≤ 255)
    (hr : reachable k cfg d) (hact : d.transition ≠ NO_STATE) :
    power_graph_cb k cfg d pwr_dev val_id = (d, true) := by
  obtain ⟨i1, -, -⟩ := reachable_ok k cfg hn d hr
  unfold power_graph_cb
  rw [if_neg (fun h => hact (i1 h))]

/-- Witness for C20: from the initial state ON is requested and the task run
suspends on rail A in transition 0; rail A then notifies. -/
theorem power_graph_cb_mid_transition_witness :
    power_graph_cb small_kconfig rails_config
        (machine.data (W := script)
          ⟨{ initial_data small_kconfig rails_config with
              new_state := 3, transition := 0, stage := 0 },
            ⟨[], []⟩, 0, [event.get ⟨10, 0⟩, event.set ⟨10, 0⟩ 1, event.get ⟨10, 0⟩]⟩)
        10 0
      = (machine.data (W := script)
          ⟨{ initial_data small_kconfig rails_config with
              new_state := 3, transition := 0, stage := 0 },
            ⟨[], []⟩, 0, [event.get ⟨10, 0⟩, event.set ⟨10, 0⟩ 1, event.get ⟨10, 0⟩]⟩,
          true) :=
  power_graph_cb_mid_transition small_kconfig rails_config _ 10 0 (by decide)
    (reachable.task
      (power_graph_set rails_config (initial_data small_kconfig rails_config)
        PWRGRAPH_STATE 3).2.1
      script scripted_ports ⟨[(0, some 0), (-11, none)], []⟩ 0 [] 5 task_exit.suspended
      ⟨{ initial_data small_kconfig rails_config with
          new_state := 3, transition := 0, stage := 0 },
        ⟨[], []⟩, 0, [event.get ⟨10, 0⟩, event.set ⟨10, 0⟩ 1, event.get ⟨10, 0⟩]⟩
      (reachable.set _ PWRGRAPH_STATE 3 reachable.init) (by decide) (by decide))
    (by decide)

/-! ## Reachable states: auxiliary lemmas -/

theorem stage_step_active {W : Type} (k : kconfig) (cfg : driver_config) (P : value_ports W)
    (m : machine W) (fl : flow) (m' : machine W)
    (h : stage_step k cfg P m = (fl, m')) (hfl : fl = flow.again ∨ fl = flow.suspended) :
    ∃ T, cfg.transitions[m'.data.transition]? = some T ∧ m'.data.stage < T.num_stages := by
  unfold stage_step at h
  split at h
  · simp only [Prod.mk.injEq] at h
    obtain ⟨rfl, rfl⟩ := h
    rcases hfl with hfl | hfl <;> cases hfl
  · rename_i T hT
    split at h
    · simp only [Prod.mk.injEq] at h
      obtain ⟨rfl, rfl⟩ := h
      rcases hfl with hfl | hfl <;> cases hfl
    · rename_i packed hS
      have hlt : m.data.stage < T.num_stages := (List.getElem?_eq_some.mp hS).1
      dsimp only at h
      split at h
      · simp only [Prod.mk.injEq] at h
        obtain ⟨rfl, rfl⟩ := h
        rcases hfl with hfl | hfl <;> cases hfl
      · split_ifs at h with h1 h2 h3 h4 h5 h6
        · simp only [Prod.mk.injEq] at h
          obtain ⟨rfl, rfl⟩ := h
          exact ⟨T, hT, hlt⟩
        · simp only [stage_fault, Prod.mk.injEq] at h
          obtain ⟨rfl, rfl⟩ := h
          rcases hfl with hfl | hfl <;> cases hfl
        · simp only [stage_fault, Prod.mk.injEq] at h
          obtain ⟨rfl, rfl⟩ := h
          rcases hfl with hfl | hfl <;> cases hfl
        · simp only [Prod.mk.injEq] at h
          obtain ⟨rfl, rfl⟩ := h
          exact ⟨T, hT, h5⟩
        · simp only [Prod.mk.injEq] at h
          obtain ⟨rfl, rfl⟩ := h
          rcases hfl with hfl | hfl <;> cases hfl
        · simp only [stage_fault, Prod.mk.injEq] at h
          obtain ⟨rfl, rfl⟩ := h
          rcases hfl with hfl | hfl <;> cases hfl
        · simp only [Prod.mk.injEq] at h
          obtain ⟨rfl, rfl⟩ := h
          exact ⟨T, hT, hlt⟩

theorem inner_iteration_active {W : Type} (k : kconfig) (cfg : driver_config)
    (P : value_ports W) (m : machine W) (fl : flow) (m' : machine W)
    (h : inner_iteration k cfg P m = (fl, m')) :
    (fl = flow.again ∨ fl = flow.suspended →
      ∃ T, cfg.transitions[m'.data.transition]? = some T ∧ m'.data.stage < T.num_stages) ∧
    (fl = flow.leave → m'.data.transition = NO_STATE) := by
  unfold inner_iteration at h
  split_ifs at h with hidle
  · split at h
    · simp only [Prod.mk.injEq] at h
      obtain ⟨rfl, rfl⟩ := h
      exact ⟨fun hfl => (by rcases hfl with hfl | hfl <;> cases hfl), fun hfl => (by cases hfl)⟩
    · split_ifs at h
      · simp only [Prod.mk.injEq] at h
        obtain ⟨rfl, rfl⟩ := h
        exact ⟨fun hfl => (by rcases hfl with hfl | hfl <;> cases hfl), fun _ => hidle⟩
      · exact ⟨stage_step_active k cfg P _ fl m' h,
          fun hfl => ((stage_step_effect k cfg P _ fl m' h).2.2.2.2 hfl).1⟩
  · exact ⟨stage_step_active k cfg P _ fl m' h,
      fun hfl => ((stage_step_effect k cfg P _ fl m' h).2.2.2.2 hfl).1⟩

theorem power_graph_task_from_active {W : Type} (k : kconfig) (cfg : driver_config)
    (P : value_ports W) :
    ∀ (fuel : Nat) (pt : task_point) (m : machine W) (exit : task_exit) (m' : machine W),
      (pt = task_point.outer → active_ok cfg m.data) →
      power_graph_task_from k cfg P fuel pt m = some (exit, m') →
      exit ≠ task_exit.stuck → active_ok cfg m'.data := by
  intro fuel
  induction fuel with
  | zero =>
    intro pt m exit m' _ h
    simp [power_graph_task_from] at h
  | succ fuel ih =>
    intro pt m exit m' ho h hex
    cases pt with
    | outer =>
      simp only [power_graph_task_from] at h
      split_ifs at h with heq
      · simp only [Option.some.injEq, Prod.mk.injEq] at h
        obtain ⟨rfl, rfl⟩ := h
        exact ho rfl
      · exact ih task_point.inner m exit m' (fun hx => by cases hx) h hex
    | inner =>
      simp only [power_graph_task_from] at h
      cases hit : inner_iteration k cfg P m with
      | mk fl m1 =>
        obtain ⟨a1, a2⟩ := inner_iteration_active k cfg P m fl m1 hit
        rw [hit] at h
        cases fl with
        | again => exact ih task_point.inner m1 exit m' (fun hx => by cases hx) h hex
        | leave =>
          exact ih task_point.outer m1 exit m' (fun _ hx => absurd (a2 rfl) hx) h hex
        | suspended =>
          simp only [Option.some.injEq, Prod.mk.injEq] at h
          obtain ⟨rfl, rfl⟩ := h
          exact fun _ => a1 (Or.inr rfl)
        | stuck =>
          simp only [Option.some.injEq, Prod.mk.injEq] at h
          exact absurd h.1.symm hex

theorem reachable_active (k : kconfig) (cfg : driver_config) (d : driver_data)
    (hr : reachable k cfg d) : active_ok cfg d := by
  induction hr with
  | init => exact fun hx => absurd rfl hx
  | set d id value _ ih =>
    unfold power_graph_set
    split_ifs <;> exact ih
  | cb d pwr_dev val_id _ ih =>
    have hfix : (put_fault k d (find_spec k cfg pwr_dev val_id)).transition = d.transition ∧
        (put_fault k d (find_spec k cfg pwr_dev val_id)).stage = d.stage := by
      unfold put_fault
      split_ifs <;> exact ⟨rfl, rfl⟩
    unfold power_graph_cb
    split_ifs
    · intro hx
      have hx' : (put_fault k d (find_spec k cfg pwr_dev val_id)).transition ≠ NO_STATE := hx
      rw [hfix.1] at hx'
      obtain ⟨T, hT, hlt⟩ := ih hx'
      refine ⟨T, ?_, ?_⟩
      · show cfg.transitions[(put_fault k d (find_spec k cfg pwr_dev val_id)).transition]? = _
        rw [hfix.1]; exact hT
      · show (put_fault k d (find_spec k cfg pwr_dev val_id)).stage < _
        rw [hfix.2]; exact hlt
    · exact ih
  | task d W P w val trace fuel exit m' _ hrun hex ih =>
    exact power_graph_task_from_active k cfg P fuel task_point.outer _ exit m'
      (fun _ => ih) hrun hex

/-! ## Reachable states: the claims -/

/-- C21. Active-stage invariant: provided every configured transition has at
least one stage, in every instance state reachable from the initial state by
`power_graph_set`, `power_graph_cb` and returning runs of `power_graph_task`, an
active transition is an index below `num_transitions` and the active stage is
below the number of stages of that transition, and without an active transition
there is no active stage. -/
theorem active_stage_invariant (k : kconfig) (cfg : driver_config) (d : driver_data)
    (hn : cfg.num_transitions ≤ 255)
    (_hstages : ∀ T ∈ cfg.transitions, 1 ≤ T.num_stages)
    (hr : reachable k cfg d) :
    (d.transition ≠ NO_STATE →
      d.transition < cfg.num_transitions ∧
      ∃ T, cfg.transitions[d.transition]? = some T ∧ d.stage < T.num_stages) ∧
    (d.transition = NO_STATE → d.stage = NO_STAGE k) := by
  refine ⟨?_, (reachable_ok k cfg hn d hr).2.1⟩
  intro hact
  obtain ⟨T, hT, hlt⟩ := reachable_active k cfg d hr hact
  exact ⟨(List.getElem?_eq_some.mp hT).1, T, hT, hlt⟩

/-- C22. Stable-device invariant: in every instance state reachable from the
initial state by `power_graph_set`, `power_graph_cb` and returning runs of
`power_graph_task`, a current state equal to the requested state implies that no
transition is active; equivalently, while a transition is active the two states
differ. -/
theorem stable_device_invariant (k : kconfig) (cfg : driver_config) (d : driver_data)
    (hn : cfg.num_transitions ≤ 255) (hr : reachable k cfg d) :
    (d.state = d.new_state → d.transition = NO_STATE) ∧
    (d.transition ≠ NO_STATE → d.state ≠ d.new_state) := by
  have h1 := (reachable_ok k cfg hn d hr).1
  exact ⟨fun h => h1 h.symm, fun hact h => hact (h1 h.symm)⟩

theorem rails_suspended_reachable :
    reachable { NUM_DEVICES := 2, NUM_STATES := 2, NUM_STAGES := 4, FAULT_LOG := 3 }
      rails_config rails_suspended.data :=
  reachable.task
    (power_graph_set rails_config
      (initial_data { NUM_DEVICES := 2, NUM_STATES := 2, NUM_STAGES := 4, FAULT_LOG := 3 }
        rails_config) PWRGRAPH_STATE 3).2.1
    script scripted_ports ⟨[(0, some 0), (-11, none)], []⟩ 0 [] 5 task_exit.suspended
    rails_suspended
    (reachable.set _ PWRGRAPH_STATE 3 reachable.init) (by decide) (by decide)

/-- Witness for C21 on the rails instance suspended in transition 0. -/
theorem active_stage_invariant_witness :
    (rails_suspended.data.transition ≠ NO_STATE →
      rails_suspended.data.transition < rails_config.num_transitions ∧
      ∃ T, rails_config.transitions[rails_suspended.data.transition]? = some T ∧
        rails_suspended.data.stage < T.num_stages) ∧
    (rails_suspended.data.transition = NO_STATE →
      rails_suspended.data.stage
        = NO_STAGE { NUM_DEVICES := 2, NUM_STATES := 2, NUM_STAGES := 4, FAULT_LOG := 3 }) :=
  active_stage_invariant _ rails_config rails_suspended.data (by decide) (by decide)
    rails_suspended_reachable

/-- Witness for C22 on the rails instance suspended in transition 0. -/
theorem stable_device_invariant_witness :
    (rails_suspended.data.state = rails_suspended.data.new_state →
      rails_suspended.data.transition = NO_STATE) ∧
    (rails_suspended.data.transition ≠ NO_STATE →
      rails_suspended.data.state ≠ rails_suspended.data.new_state) :=
  stable_device_invariant _ rails_config rails_suspended.data (by decide)
    rails_suspended_reachable

/-! ## Further properties of the executor and the ledger -/

theorem planner_no_chain (cfg : driver_config) (C D : Nat) (hn : cfg.num_transitions ≤ 255)
    (hno : ¬ ∃ chain : List Nat, chain ≠ [] ∧ is_chain cfg C D chain) :
    find_first_transition cfg C D = some (-ENOENT) := by
  obtain ⟨r, hr⟩ := find_first_transition_to_state_some cfg C hn cfg.num_transitions D 0
    (Nat.zero_le _) (by omega)
  have hf : find_first_transition cfg C D = some r := by
    unfold find_first_transition
    rw [hr]
    rfl
  rcases planner_result_sound cfg C D hn r hf with h | ⟨t, rest, -, hc, -⟩
  · rw [hf, h]
  · exact absurd ⟨t :: rest, by simp, hc⟩ hno

/-- C28. Livelock when the safe state is unreachable: with no active transition,
the safe state requested, a current state other than the safe state and no chain
of transitions from the current state to the safe state, a pass through the
inner loop reads no port, emits no event and gives back exactly the same machine
state to the outer loop; two loop-head passes later the run stands where it
started, so no amount of fuel makes `power_graph_task` return. -/
theorem unreachable_safe_state_livelock {W : Type} (k : kconfig) (cfg : driver_config)
    (P : value_ports W) (m : machine W) (hn : cfg.num_transitions ≤ 255)
    (hidle : m.data.transition = NO_STATE) (hreq : m.data.new_state = cfg.safe_state)
    (hne : m.data.state ≠ cfg.safe_state)
    (hno : ¬ ∃ chain : List Nat, chain ≠ [] ∧ is_chain cfg m.data.state cfg.safe_state chain) :
    inner_iteration k cfg P m = (flow.leave, m) ∧
    (∀ fuel, power_graph_task_from k cfg P (fuel + 2) task_point.outer m
      = power_graph_task_from k cfg P fuel task_point.outer m) ∧
    ∀ fuel, power_graph_task k cfg P fuel m = none := by
  have hneq : m.data.new_state ≠ m.data.state := by
    rw [hreq]; exact fun h => hne h.symm
  have hplan : find_first_transition cfg m.data.state m.data.new_state = some (-ENOENT) := by
    rw [hreq]; exact planner_no_chain cfg _ _ hn hno
  have hstep : inner_iteration k cfg P m = (flow.leave, m) := by
    unfold inner_iteration
    rw [if_pos hidle, hplan]
    simp only
    rw [if_pos (by decide), ← hreq]
  have hloop : ∀ fuel, power_graph_task_from k cfg P (fuel + 2) task_point.outer m
      = power_graph_task_from k cfg P fuel task_point.outer m := by
    intro fuel
    rw [power_graph_task_from, if_neg hneq, power_graph_task_from, hstep]
  refine ⟨hstep, hloop, ?_⟩
  have hboth : ∀ fuel, power_graph_task_from k cfg P fuel task_point.outer m = none ∧
      power_graph_task_from k cfg P (fuel + 1) task_point.outer m = none := by
    intro fuel
    induction fuel with
    | zero =>
      refine ⟨rfl, ?_⟩
      rw [power_graph_task_from, if_neg hneq]
      rfl
    | succ fuel ih =>
      refine ⟨ih.2, ?_⟩
      rw [hloop]
      exact ih.1
  intro fuel
  exact (hboth fuel).1

/-- Witness for C28, the state after the fault scenario of the specification: the
rails topology has no transition leaving ON, the device was forced to ON and the
safe state OFF is requested. -/
theorem unreachable_safe_state_livelock_witness :
    inner_iteration small_kconfig rails_config scripted_ports
        ⟨{ initial_data small_kconfig rails_config with state := 3 }, ⟨[], []⟩, 0, []⟩
      = (flow.leave,
          ⟨{ initial_data small_kconfig rails_config with state := 3 }, ⟨[], []⟩, 0, []⟩) ∧
    (∀ fuel, power_graph_task_from small_kconfig rails_config scripted_ports (fuel + 2)
        task_point.outer
        ⟨{ initial_data small_kconfig rails_config with state := 3 }, ⟨[], []⟩, 0, []⟩
      = power_graph_task_from small_kconfig rails_config scripted_ports fuel task_point.outer
        ⟨{ initial_data small_kconfig rails_config with state := 3 }, ⟨[], []⟩, 0, []⟩) ∧
    ∀ fuel, power_graph_task small_kconfig rails_config scripted_ports fuel
        ⟨{ initial_data small_kconfig rails_config with state := 3 }, ⟨[], []⟩, 0, []⟩ = none :=
  unreachable_safe_state_livelock small_kconfig rails_config scripted_ports
    ⟨{ initial_data small_kconfig rails_config with state := 3 }, ⟨[], []⟩, 0, []⟩
    (by decide) rfl rfl (by decide)
    (by
      rintro ⟨chain, hne, hc⟩
      cases chain with
      | nil => exact hne rfl
      | cons t rest =>
        have h3 : t < 2 := (is_chain_head rails_config 3 1 t rest hc).1
        obtain ⟨tr, htr, hini⟩ := (is_chain_head rails_config 3 1 t rest hc).2
        have ht : t = 0 ∨ t = 1 := by omega
        rcases ht with rfl | rfl
        · simp [rails_config] at htr
          rw [← htr] at hini
          simp at hini
        · simp [rails_config] at htr
          rw [← htr] at hini
          simp at hini)

/-- C29. Non-functional read errors are never tolerated: with an active
transition `T` at a valid stage, when the port read returns a non-zero code other
than `-EAGAIN`, `-EFAULT` and `-ECANCELED`, the step takes the fault outcome
whatever the flags of `T` are: the read is its only event (no set-command), the
fault (transition, stage, port) becomes the most recent ledger entry, the current
state is forced to `T.target`, transition and stage are cleared and the safe
state is requested. -/
theorem stage_step_read_error {W : Type} (k : kconfig) (cfg : driver_config)
    (P : value_ports W) (m : machine W) (T : power_transition) (packed : Nat)
    (spec : value_dt_spec)
    (hN1 : 1 ≤ k.FAULT_LOG) (hN : k.FAULT_LOG ≤ 255)
    (hlen : m.data.faults.length = k.FAULT_LOG) (hlast : m.data.last_fault < k.FAULT_LOG)
    (hnum : m.data.num_faults ≤ k.FAULT_LOG)
    (hact : m.data.transition ≠ NO_STATE)
    (hT : cfg.transitions[m.data.transition]? = some T)
    (hS : T.stages[m.data.stage]? = some packed)
    (hstages : T.num_stages ≤ NO_STAGE k)
    (hP : cfg.specs[DEV_INDEX k (packed % 2 ^ stage_idx_bits k)]? = some spec)
    (hspecs : cfg.specs.length ≤ NO_DEV k)
    (h0 : (P.value_get_dt m.world spec).1 ≠ 0)
    (h1 : (P.value_get_dt m.world spec).1 ≠ -EAGAIN)
    (h2 : (P.value_get_dt m.world spec).1 ≠ -EFAULT)
    (h3 : (P.value_get_dt m.world spec).1 ≠ -ECANCELED) :
    ∃ m', stage_step k cfg P m = (flow.leave, m') ∧
      m'.trace = m.trace ++ [event.get spec] ∧
      m'.data.state = T.target ∧ m'.data.new_state = cfg.safe_state ∧
      m'.data.transition = NO_STATE ∧ m'.data.stage = NO_STAGE k ∧
      m'.data.num_faults = min (m.data.num_faults + 1) k.FAULT_LOG ∧
      get_fault k m'.data 0
        = some ⟨m.data.transition, m.data.stage,
            DEV_INDEX k (packed % 2 ^ stage_idx_bits k)⟩ ∧
      (∀ j, j ≠ m'.data.last_fault → m'.data.faults[j]? = m.data.faults[j]?) := by
  have hst : m.data.stage ≠ NO_STAGE k := by
    have := (List.getElem?_eq_some.mp hS).1
    unfold power_transition.num_stages at hstages
    omega
  have hfit : DEV_INDEX k (packed % 2 ^ stage_idx_bits k) < 2 ^ dev_idx_bits k := by
    have := (List.getElem?_eq_some.mp hP).1
    have := NO_DEV_succ k
    omega
  have hnf : ¬ ((P.value_get_dt m.world spec).1 = -EFAULT ∨
      (P.value_get_dt m.world spec).1 = -ECANCELED) := by
    rintro (h | h)
    · exact h2 h
    · exact h3 h
  unfold stage_step
  simp only [hT, hS, hP]
  rw [if_neg h1, if_neg (fun h => hnf h.1), if_pos ⟨hnf, h0⟩]
  obtain ⟨m', hm', q1, q2, q3, q4, q5, q6, q7⟩ :=
    stage_fault_outcome k cfg
      ({ m with world := (P.value_get_dt m.world spec).2.2,
                val := (P.value_get_dt m.world spec).2.1.getD m.val,
                trace := m.trace ++ [event.get spec] } : machine W)
      T (packed % 2 ^ stage_idx_bits k) hN1 hN hlen hlast hnum hact hst hfit
  refine ⟨m', hm', ?_, q1, q2, q3, q4, q5, q6, q7⟩
  have htr := congrArg (fun r => r.2.trace) hm'
  simp only [stage_fault] at htr
  exact htr.symm

/-- Witness for C29: in the middle of STANDBY to ON, with the ignore-faults flag
set on the transition, rail B answers the read with -5. -/
theorem stage_step_read_error_witness :
    ∃ m', stage_step small_kconfig
        { rails_config with transitions := [⟨[1], 1, 2, 1⟩, ⟨[3], 2, 3, 1⟩] } scripted_ports
        (rails_mid_transition ⟨[(-5, none)], []⟩) = (flow.leave, m') ∧
      m'.trace = [] ++ [event.get ⟨11, 0⟩] ∧
      m'.data.state = 3 ∧ m'.data.new_state = 1 ∧
      m'.data.transition = NO_STATE ∧ m'.data.stage = NO_STAGE small_kconfig ∧
      m'.data.num_faults = min (0 + 1) 3 ∧
      get_fault small_kconfig m'.data 0 = some ⟨1, 0, 1⟩ ∧
      (∀ j, j ≠ m'.data.last_fault → m'.data.faults[j]? =
        (rails_mid_transition ⟨[(-5, none)], []⟩).data.faults[j]?) :=
  stage_step_read_error small_kconfig
    { rails_config with transitions := [⟨[1], 1, 2, 1⟩, ⟨[3], 2, 3, 1⟩] } scripted_ports
    (rails_mid_transition ⟨[(-5, none)], []⟩) ⟨[3], 2, 3, 1⟩ 3 ⟨11, 0⟩
    (by decide) (by decide) (by decide) (by decide) (by decide) (by decide)
    (by decide) (by decide) (by decide) (by decide) (by decide)
    (by decide) (by decide) (by decide) (by decide)

theorem record_faults_ledger (k : kconfig) (hN1 : 1 ≤ k.FAULT_LOG) (hN : k.FAULT_LOG ≤ 255) :
    ∀ (fs : List power_fault) (d : driver_data),
      d.faults.length = k.FAULT_LOG → d.last_fault < k.FAULT_LOG →
      d.num_faults ≤ k.FAULT_LOG →
      (record_faults k d fs).faults.length = k.FAULT_LOG ∧
      (record_faults k d fs).last_fault < k.FAULT_LOG ∧
      (record_faults k d fs).num_faults ≤ k.FAULT_LOG := by
  intro fs
  induction fs with
  | nil => intro d h1 h2 h3; exact ⟨h1, h2, h3⟩
  | cons f fs ih =>
    intro d h1 h2 h3
    obtain ⟨q1, q2, q3, -⟩ := put_fault_ledger k
      { d with transition := f.transition, stage := f.stage } f.spec hN1 hN h1 h2 h3
    exact ih (record_fault k d f) q1 q2 q3

/-- C30. Fault lookup stays in bounds: for a capacity between 1 and 255, every
ledger state obtained from the empty ledger by calls of `put_fault` (skipped or
not) and every 8-bit depth, `get_fault` returns no record exactly when the depth
exceeds the fault count, and for every depth up to the count the slot index it
computes, `(depth > last_fault ? num_faults : 0) + last_fault - depth`, lies
between 0 and the capacity minus one. -/
theorem get_fault_in_bounds (k : kconfig) (d0 : driver_data)
    (hN1 : 1 ≤ k.FAULT_LOG) (hN : k.FAULT_LOG ≤ 255)
    (h0 : d0.num_faults = 0) (h1 : d0.last_fault = 0) (h2 : d0.faults.length = k.FAULT_LOG)
    (fs : List power_fault) (depth : Nat) :
    (get_fault k (record_faults k d0 fs) depth = none
      ↔ depth > (record_faults k d0 fs).num_faults) ∧
    (depth ≤ (record_faults k d0 fs).num_faults →
      ∃ i : Nat, get_fault_index k (record_faults k d0 fs) depth = some i ∧
        i < k.FAULT_LOG ∧
        (i : Int) = (if depth > (record_faults k d0 fs).last_fault
            then ((record_faults k d0 fs).num_faults : Int) else 0)
          + ((record_faults k d0 fs).last_fault : Int) - (depth : Int)) := by
  obtain ⟨q1, q2, q3⟩ := record_faults_ledger k hN1 hN fs d0 h2 (by omega) (by omega)
  generalize record_faults k d0 fs = d at q1 q2 q3
  have hNz : k.FAULT_LOG ≠ 0 := by omega
  have hin : depth ≤ d.num_faults →
      ∃ i : Nat, get_fault_index k d depth = some i ∧ i < k.FAULT_LOG ∧
        (i : Int) = (if depth > d.last_fault then (d.num_faults : Int) else 0)
          + (d.last_fault : Int) - (depth : Int) := by
    intro hle
    unfold get_fault_index
    rw [if_neg hNz, if_neg (by omega)]
    refine ⟨_, rfl, ?_, ?_⟩
    · split_ifs <;> omega
    · split_ifs <;> omega
  refine ⟨⟨?_, ?_⟩, hin⟩
  · intro hnone
    by_contra hle
    obtain ⟨i, hi, hlt, -⟩ := hin (by omega)
    unfold get_fault at hnone
    rw [hi] at hnone
    simp only at hnone
    rw [List.getElem?_eq_none_iff] at hnone
    omega
  · intro hgt
    unfold get_fault get_fault_index
    rw [if_neg hNz, if_pos hgt]

/-- Witness for C30: five faults, one of them skipped, recorded into the 3-slot
ledger of a fresh instance, looked up at depth 3. -/
theorem get_fault_in_bounds_witness :
    (get_fault small_kconfig
        (record_faults small_kconfig (initial_data small_kconfig cyclic_config)
          [⟨0, 0, 1⟩, ⟨255, 255, 255⟩, ⟨1, 0, 255⟩, ⟨2, 1, 0⟩, ⟨3, 0, 1⟩]) 3 = none
      ↔ 3 > (record_faults small_kconfig (initial_data small_kconfig cyclic_config)
          [⟨0, 0, 1⟩, ⟨255, 255, 255⟩, ⟨1, 0, 255⟩, ⟨2, 1, 0⟩, ⟨3, 0, 1⟩]).num_faults) ∧
    (3 ≤ (record_faults small_kconfig (initial_data small_kconfig cyclic_config)
          [⟨0, 0, 1⟩, ⟨255, 255, 255⟩, ⟨1, 0, 255⟩, ⟨2, 1, 0⟩, ⟨3, 0, 1⟩]).num_faults →
      ∃ i : Nat, get_fault_index small_kconfig
          (record_faults small_kconfig (initial_data small_kconfig cyclic_config)
            [⟨0, 0, 1⟩, ⟨255, 255, 255⟩, ⟨1, 0, 255⟩, ⟨2, 1, 0⟩, ⟨3, 0, 1⟩]) 3 = some i ∧
        i < small_kconfig.FAULT_LOG ∧
        (i : Int) = (if 3 > (record_faults small_kconfig
              (initial_data small_kconfig cyclic_config)
              [⟨0, 0, 1⟩, ⟨255, 255, 255⟩, ⟨1, 0, 255⟩, ⟨2, 1, 0⟩, ⟨3, 0, 1⟩]).last_fault
            then ((record_faults small_kconfig (initial_data small_kconfig cyclic_config)
              [⟨0, 0, 1⟩, ⟨255, 255, 255⟩, ⟨1, 0, 255⟩, ⟨2, 1, 0⟩, ⟨3, 0, 1⟩]).num_faults : Int)
            else 0)
          + ((record_faults small_kconfig (initial_data small_kconfig cyclic_config)
              [⟨0, 0, 1⟩, ⟨255, 255, 255⟩, ⟨1, 0, 255⟩, ⟨2, 1, 0⟩, ⟨3, 0, 1⟩]).last_fault : Int)
          - ((3 : Nat) : Int)) :=
  get_fault_in_bounds small_kconfig (initial_data small_kconfig cyclic_config)
    (by decide) (by decide) rfl rfl (by decide)
    [⟨0, 0, 1⟩, ⟨255, 255, 255⟩, ⟨1, 0, 255⟩, ⟨2, 1, 0⟩, ⟨3, 0, 1⟩] 3

/-! ## Planner completeness: auxiliary lemmas -/

theorem is_chain_split (cfg : driver_config) :
    ∀ (l1 l2 : List Nat) (c d : Nat), is_chain cfg c d (l1 ++ l2) →
      ∃ mid, is_chain cfg c mid l1 ∧ is_chain cfg mid d l2 := by
  intro l1
  induction l1 with
  | nil =>
    intro l2 c d h
    exact ⟨c, by simp [is_chain], by simpa using h⟩
  | cons t rest ih =>
    intro l2 c d h
    simp only [List.cons_append, is_chain] at h
    cases hq : cfg.transitions[t]? with
    | none => rw [hq] at h; exact h.elim
    | some tr =>
      rw [hq] at h
      obtain ⟨mid, h1, h2⟩ := ih l2 tr.target d h.2
      refine ⟨mid, ?_, h2⟩
      simp only [is_chain, hq]
      exact ⟨h.1, h1⟩

theorem is_chain_start (cfg : driver_config) (c c' d t : Nat) (rest : List Nat)
    (h : is_chain cfg c d (t :: rest)) (h' : is_chain cfg c' d (t :: rest)) : c = c' := by
  simp only [is_chain] at h h'
  cases hq : cfg.transitions[t]? with
  | none => rw [hq] at h; exact h.elim
  | some tr =>
    rw [hq] at h h'
    rw [← h.1, ← h'.1]

theorem is_chain_restart (cfg : driver_config) (c d t : Nat) (rest rest' : List Nat)
    (h : is_chain cfg c d (t :: rest)) (c' : Nat) (h' : is_chain cfg c' d (t :: rest')) :
    is_chain cfg c d (t :: rest') := by
  simp only [is_chain] at h h' ⊢
  cases hq : cfg.transitions[t]? with
  | none => rw [hq] at h; exact h.elim
  | some tr =>
    rw [hq] at h h'
    exact ⟨h.1, h'.2⟩

theorem is_chain_nodup (cfg : driver_config) :
    ∀ (chain : List Nat) (c d : Nat), chain ≠ [] → is_chain cfg c d chain →
      ∃ chain', chain' ≠ [] ∧ is_chain cfg c d chain' ∧ chain'.Nodup := by
  intro chain
  induction chain with
  | nil => intro c d h; exact absurd rfl h
  | cons t rest ih =>
    intro c d _ h
    cases rest with
    | nil => exact ⟨[t], by simp, h, by simp⟩
    | cons u rest' =>
      have h0 := h
      simp only [is_chain] at h
      cases hq : cfg.transitions[t]? with
      | none => rw [hq] at h; exact h.elim
      | some tr =>
        rw [hq] at h
        obtain ⟨chain', hne, hc', hnd⟩ := ih tr.target d (by simp) (by
          simp only [is_chain]; exact h.2)
        by_cases hmem : t ∈ chain'
        · obtain ⟨l1, l3, hsplit⟩ := List.append_of_mem hmem
          rw [hsplit] at hc' hnd
          obtain ⟨mid, -, h3⟩ := is_chain_split cfg l1 (t :: l3) tr.target d hc'
          refine ⟨t :: l3, by simp, is_chain_restart cfg c d t (u :: rest') l3 h0 mid h3, ?_⟩
          exact (List.nodup_append.mp hnd).2.1
        · refine ⟨t :: chain', by simp, ?_, List.nodup_cons.mpr ⟨hmem, hnd⟩⟩
          simp only [is_chain, hq]
          exact ⟨h.1, hc'⟩

theorem is_chain_index_lt (cfg : driver_config) :
    ∀ (chain : List Nat) (c d : Nat), is_chain cfg c d chain →
      ∀ t ∈ chain, t < cfg.num_transitions := by
  intro chain
  induction chain with
  | nil => intro c d _ t ht; simp at ht
  | cons u rest ih =>
    intro c d h t ht
    have hu := (is_chain_head cfg c d u rest h).1
    simp only [is_chain] at h
    cases hq : cfg.transitions[u]? with
    | none => rw [hq] at h; exact h.elim
    | some tr =>
      rw [hq] at h
      rcases List.mem_cons.mp ht with rfl | ht'
      · exact hu
      · exact ih tr.target d h.2 t ht'

theorem nodup_length_le (n : Nat) (l : List Nat) (hnd : l.Nodup) (hlt : ∀ t ∈ l, t < n) :
    l.length ≤ n := by
  have hsub : l.toFinset ⊆ Finset.range n := by
    intro x hx
    rw [List.mem_toFinset] at hx
    exact Finset.mem_range.mpr (hlt x hx)
  have := Finset.card_le_card hsub
  rw [List.toFinset_card_of_nodup hnd, Finset.card_range] at this
  exact this

theorem is_chain_short (cfg : driver_config) (c d : Nat) (chain : List Nat)
    (hne : chain ≠ []) (h : is_chain cfg c d chain) :
    ∃ chain', chain' ≠ [] ∧ is_chain cfg c d chain' ∧ chain'.length ≤ cfg.num_transitions := by
  obtain ⟨chain', hne', hc', hnd⟩ := is_chain_nodup cfg chain c d hne h
  exact ⟨chain', hne', hc', nodup_length_le _ chain' hnd (is_chain_index_lt cfg chain' c d hc')⟩

theorem scan_transitions_keeps (cfg : driver_config) (cur state hops : Nat)
    (recurse : Nat → Nat → Option (Int × Nat))
    (hrec : hops < cfg.num_transitions → ∀ s, ∃ r, recurse s hops = some r) :
    ∀ (ts : List power_transition) (i : Nat) (b : Int) (bh : Nat), b ≠ -ENOENT →
      ∃ r, scan_transitions cfg cur state hops recurse ts i b bh = some r ∧ r ≠ -ENOENT := by
  intro ts
  induction ts with
  | nil => intro i b bh hb; exact ⟨b, rfl, hb⟩
  | cons a ts ih =>
    intro i b bh hb
    unfold scan_transitions
    by_cases h1 : a.target ≠ state
    · rw [if_pos h1]; exact ih _ _ _ hb
    · rw [if_neg h1]
      by_cases h2 : a.initial = cur
      · rw [if_pos h2]
        exact ⟨_, rfl, by unfold ENOENT; omega⟩
      · rw [if_neg h2]
        by_cases h3 : hops ≥ cfg.num_transitions
        · rw [if_pos h3]; exact ih _ _ _ hb
        · rw [if_neg h3]
          obtain ⟨⟨lr, lh⟩, hr⟩ := hrec (by omega) a.initial
          rw [hr]
          simp only
          by_cases h4 : lr = -ENOENT
          · rw [if_pos h4]; exact ih _ _ _ hb
          · rw [if_neg h4]
            by_cases h5 : lh < bh
            · rw [if_pos h5]; exact ih _ _ _ h4
            · rw [if_neg h5]; exact ih _ _ _ hb

theorem scan_transitions_finds (cfg : driver_config) (cur state hops : Nat)
    (recurse : Nat → Nat → Option (Int × Nat))
    (hrec : hops < cfg.num_transitions → ∀ s, ∃ r, recurse s hops = some (r, hops + 1))
    (hh : hops + 1 < UINT_MAX) :
    ∀ (ts : List power_transition) (i : Nat) (b : Int) (bh : Nat),
      (b ≠ -ENOENT ∨ bh = UINT_MAX) →
      (∃ e ∈ ts, e.target = state ∧ (e.initial = cur ∨
        (hops < cfg.num_transitions ∧
          ∃ r h, recurse e.initial hops = some (r, h) ∧ r ≠ -ENOENT))) →
      ∃ r, scan_transitions cfg cur state hops recurse ts i b bh = some r ∧ r ≠ -ENOENT := by
  have hrec' : hops < cfg.num_transitions → ∀ s, ∃ r, recurse s hops = some r :=
    fun hlt s => by
      obtain ⟨r, hr⟩ := hrec hlt s
      exact ⟨_, hr⟩
  intro ts
  induction ts with
  | nil =>
    intro i b bh _ hgood
    obtain ⟨e, he, -⟩ := hgood
    simp at he
  | cons a ts ih =>
    intro i b bh hinv hgood
    obtain ⟨e, he, htgt, hcase⟩ := hgood
    have htail : e ≠ a → ∃ e ∈ ts, e.target = state ∧ (e.initial = cur ∨
        (hops < cfg.num_transitions ∧
          ∃ r h, recurse e.initial hops = some (r, h) ∧ r ≠ -ENOENT)) := by
      intro hne
      rcases List.mem_cons.mp he with h | h
      · exact absurd h hne
      · exact ⟨e, h, htgt, hcase⟩
    unfold scan_transitions
    by_cases h1 : a.target ≠ state
    · rw [if_pos h1]
      exact ih _ _ _ hinv (htail (fun hea => h1 (hea ▸ htgt)))
    · rw [if_neg h1]
      by_cases h2 : a.initial = cur
      · rw [if_pos h2]
        exact ⟨_, rfl, by unfold ENOENT; omega⟩
      · rw [if_neg h2]
        by_cases h3 : hops ≥ cfg.num_transitions
        · rw [if_pos h3]
          refine ih _ _ _ hinv (htail ?_)
          intro hea
          rcases hcase with hc | ⟨hc, -⟩
          · exact h2 (hea ▸ hc)
          · omega
        · rw [if_neg h3]
          obtain ⟨lr, hr⟩ := hrec (by omega) a.initial
          rw [hr]
          simp only
          by_cases h4 : lr = -ENOENT
          · rw [if_pos h4]
            refine ih _ _ _ hinv (htail ?_)
            intro hea
            rcases hcase with hc | ⟨-, r, h, hrr, hrne⟩
            · exact h2 (hea ▸ hc)
            · rw [hea, hr] at hrr
              simp only [Option.some.injEq, Prod.mk.injEq] at hrr
              exact hrne (hrr.1 ▸ h4)
          · rw [if_neg h4]
            by_cases h5 : hops + 1 < bh
            · rw [if_pos h5]
              exact scan_transitions_keeps cfg cur state hops recurse hrec' ts _ _ _ h4
            · rw [if_neg h5]
              rcases hinv with hb | hb
              · exact scan_transitions_keeps cfg cur state hops recurse hrec' ts _ _ _ hb
              · exfalso
                rw [hb] at h5
                exact h5 hh

theorem find_first_transition_to_state_complete (cfg : driver_config) (cur : Nat)
    (hn : cfg.num_transitions ≤ 255) :
    ∀ (chain : List Nat) (depth state hops : Nat), chain ≠ [] →
      is_chain cfg cur state chain → chain.length + hops ≤ cfg.num_transitions →
      cfg.num_transitions ≤ depth + hops + 1 →
      ∃ r, find_first_transition_to_state cfg cur depth state hops = some (r, hops + 1) ∧
        r ≠ -ENOENT := by
  intro chain
  induction chain using List.reverseRecOn with
  | nil => intro depth state hops h; exact absurd rfl h
  | append_singleton l i ih =>
    intro depth state hops _ hc hlen hdepth
    simp only [List.length_append, List.length_singleton] at hlen
    obtain ⟨mid, hl, hlast⟩ := is_chain_split cfg l [i] cur state hc
    simp only [is_chain] at hlast
    cases hq : cfg.transitions[i]? with
    | none => rw [hq] at hlast; exact hlast.elim
    | some T =>
      rw [hq] at hlast
      obtain ⟨hini, htgt⟩ := hlast
      have hmem : T ∈ cfg.transitions := List.getElem?_mem hq
      have hhops : hops ≤ cfg.num_transitions := by omega
      have hmax : hops + 1 + 1 < UINT_MAX := by unfold UINT_MAX; omega
      cases depth with
      | zero =>
        have hl0 : l = [] := by
          cases l with
          | nil => rfl
          | cons x xs => simp only [List.length_cons] at hlen; omega
        subst hl0
        simp only [is_chain] at hl
        unfold find_first_transition_to_state
        rw [hops_succ_mod hn hhops]
        obtain ⟨r, hr, hne⟩ := scan_transitions_finds cfg cur state (hops + 1) (fun _ _ => none)
          (fun hlt => by omega) hmax cfg.transitions 0 (-ENOENT) UINT_MAX (Or.inr rfl)
          ⟨T, hmem, htgt, Or.inl (by rw [hini, hl])⟩
        exact ⟨r, by rw [hr]; rfl, hne⟩
      | succ depth =>
        unfold find_first_transition_to_state
        rw [hops_succ_mod hn hhops]
        have hgood : T.initial = cur ∨ (hops + 1 < cfg.num_transitions ∧
            ∃ r h, find_first_transition_to_state cfg cur depth T.initial (hops + 1)
              = some (r, h) ∧ r ≠ -ENOENT) := by
          cases l with
          | nil =>
            simp only [is_chain] at hl
            exact Or.inl (by rw [hini, hl])
          | cons x xs =>
            simp only [List.length_cons] at hlen
            obtain ⟨r, hr, hne⟩ := ih depth mid (hops + 1) (by simp) hl
              (by simp only [List.length_cons]; omega) (by omega)
            rw [← hini] at hr
            exact Or.inr ⟨by omega, r, _, hr, hne⟩
        obtain ⟨r, hr, hne⟩ := scan_transitions_finds cfg cur state (hops + 1)
          (fun s h => find_first_transition_to_state cfg cur depth s h)
          (fun hlt s => find_first_transition_to_state_some cfg cur hn depth s (hops + 1)
            (by omega) (by omega))
          hmax cfg.transitions 0 (-ENOENT) UINT_MAX (Or.inr rfl)
          ⟨T, hmem, htgt, hgood⟩
        exact ⟨r, by rw [hr]; rfl, hne⟩

/-! ## Planner completeness: the claim -/

/-- C26. Planner completeness: `find_first_transition` reports `-ENOENT` if and
only if no non-empty chain of configured transitions leads from the current state
`C` to the requested state `D`; whenever such a chain exists the search, bounded
by `num_transitions`, returns a transition. -/
theorem find_first_transition_complete (cfg : driver_config) (C D : Nat)
    (hn : cfg.num_transitions ≤ 255) :
    find_first_transition cfg C D = some (-ENOENT)
      ↔ ¬ ∃ chain : List Nat, chain ≠ [] ∧ is_chain cfg C D chain := by
  constructor
  · rintro hres ⟨chain, hne, hc⟩
    obtain ⟨chain', hne', hc', hlen⟩ := is_chain_short cfg C D chain hne hc
    obtain ⟨r, hr, hrne⟩ := find_first_transition_to_state_complete cfg C hn chain'
      cfg.num_transitions D 0 hne' hc' (by omega) (by omega)
    unfold find_first_transition at hres
    rw [hr] at hres
    simp only [Option.map_some', Option.some.injEq] at hres
    exact hrne hres
  · exact planner_no_chain cfg C D hn

/-- Witness for C26 on the cyclic topology: state 7 is the target of no
transition, so no chain leads from state 3 to it. -/
theorem find_first_transition_complete_witness :
    find_first_transition cyclic_config 3 7 = some (-ENOENT)
      ↔ ¬ ∃ chain : List Nat, chain ≠ [] ∧ is_chain cyclic_config 3 7 chain :=
  find_first_transition_complete cyclic_config 3 7 (by decide)

/-! ## Stage packing over unbounded integers -/

theorem LOG2_V_spec (n : Nat) :
    ∀ (len a : Nat), 1 ≤ len → (a = 0 ∨ 2 ^ (a - 1) < n) → n ≤ 2 ^ (a + len - 1) →
      _LOG2_V n (List.range' a len) < a + len ∧ n ≤ 2 ^ _LOG2_V n (List.range' a len) ∧
      (_LOG2_V n (List.range' a len) = 0 ∨ 2 ^ (_LOG2_V n (List.range' a len) - 1) < n) := by
  intro len
  induction len with
  | zero => intro a h; omega
  | succ len ih =>
    intro a _ hlow hup
    rw [List.range'_succ]
    unfold _LOG2_V
    rw [Nat.one_shiftLeft]
    by_cases hle : n ≤ 2 ^ a
    · rw [if_pos hle]
      exact ⟨by omega, hle, hlow⟩
    · rw [if_neg hle]
      have hlen : 1 ≤ len := by
        by_contra hc
        have : len = 0 := by omega
        subst this
        simp only [Nat.add_sub_cancel, Nat.zero_add] at hup
        exact hle hup
      obtain ⟨q1, q2, q3⟩ := ih (a + 1) hlen (Or.inr (by simpa using hle))
        (by rw [show a + 1 + len - 1 = a + (len + 1) - 1 by omega]; exact hup)
      exact ⟨by omega, q2, q3⟩

theorem LOG2_spec (n : Nat) (h2 : n ≤ 32768) :
    _LOG2 n ≤ 15 ∧ n ≤ 2 ^ _LOG2 n ∧ (_LOG2 n = 0 ∨ 2 ^ (_LOG2 n - 1) < n) := by
  have hlist : _LOG2 n = _LOG2_V n (List.range' 0 16) := rfl
  rw [hlist]
  obtain ⟨q1, q2, q3⟩ := LOG2_V_spec n 16 0 (by omega) (Or.inl rfl) (by norm_num; exact h2)
  exact ⟨by omega, q2, q3⟩

theorem BITS_MASK_eq (bits : Nat) (h : bits ≤ 15) : _BITS_MASK bits = 2 ^ bits - 1 := by
  interval_cases bits <;> rfl

theorem pack_roundtrip (b i s : Nat) (hi : i < 2 ^ b) :
    (i ||| s <<< b) &&& (2 ^ b - 1) = i ∧ (i ||| s <<< b) >>> b = s := by
  have hp : 0 < 2 ^ b := Nat.two_pow_pos b
  have hor : i ||| s <<< b = 2 ^ b * s + i := by
    rw [Nat.shiftLeft_eq, Nat.lor_comm, Nat.mul_comm, Nat.mul_add_lt_is_or hi]
  rw [hor]
  refine ⟨?_, ?_⟩
  · rw [Nat.and_pow_two_sub_one_eq_mod, Nat.mul_add_mod, Nat.mod_eq_of_lt hi]
  · rw [Nat.shiftRight_eq_div_pow, Nat.mul_add_div hp, Nat.div_eq_of_lt hi, Nat.add_zero]

/-- C27 as stated fails for a single device: with `NUM_DEVICES = 1` the index
needs 0 bits and the mask is 0, index 1 is not below the device count, and the
build-time assertion `DEV_INDEX(STAGE_PACK(1, DEV_STATE_MASK)) == 1` is not an
instance of the round trip: its left side evaluates to 0. -/
theorem stage_pack_index_one_assertion_fails :
    1 ≤ (⟨1, 2, 1, 1⟩ : kconfig).NUM_DEVICES ∧
    (⟨1, 2, 1, 1⟩ : kconfig).NUM_DEVICES ≤ 32768 ∧
    DEV_INDEX_BITS ⟨1, 2, 1, 1⟩ = 0 ∧ DEV_INDEX_MASK ⟨1, 2, 1, 1⟩ = 0 ∧
    ¬ (1 < (⟨1, 2, 1, 1⟩ : kconfig).NUM_DEVICES) ∧
    DEV_INDEX ⟨1, 2, 1, 1⟩ (STAGE_PACK ⟨1, 2, 1, 1⟩ 1 (DEV_STATE_MASK ⟨1, 2, 1, 1⟩)) = 0 ∧
    DEV_INDEX ⟨1, 2, 1, 1⟩ (STAGE_PACK ⟨1, 2, 1, 1⟩ 1 (DEV_STATE_MASK ⟨1, 2, 1, 1⟩)) ≠ 1 := by
  decide

/-- C27, amended: for every device count between 1 and 32768,
`DEV_INDEX_BITS` is the smallest `e` with `NUM_DEVICES <= 2^e`,
`DEV_INDEX_MASK` is `2^DEV_INDEX_BITS - 1`, every index below the device count
is at most the mask, and for every index up to the mask and every state value
`DEV_INDEX(STAGE_PACK(i, s)) = i` and `DEV_STATE(STAGE_PACK(i, s)) = s` over the
unbounded integers.  The build-time assertions at index 0 and MAX and at state
0, 1 and MAX hold for every such count; the assertion at index 1 holds exactly
when there are at least two devices. -/
theorem stage_pack_roundtrip (k : kconfig) (h1 : 1 ≤ k.NUM_DEVICES)
    (h2 : k.NUM_DEVICES ≤ 32768) :
    (k.NUM_DEVICES ≤ 2 ^ DEV_INDEX_BITS k ∧
      ∀ e, k.NUM_DEVICES ≤ 2 ^ e → DEV_INDEX_BITS k ≤ e) ∧
    DEV_INDEX_MASK k = 2 ^ DEV_INDEX_BITS k - 1 ∧
    (∀ i, i < k.NUM_DEVICES → i ≤ DEV_INDEX_MASK k) ∧
    (∀ i s, i ≤ DEV_INDEX_MASK k →
      DEV_INDEX k (STAGE_PACK k i s) = i ∧ DEV_STATE k (STAGE_PACK k i s) = s) ∧
    DEV_INDEX k (STAGE_PACK k 0 (DEV_STATE_MASK k)) = 0 ∧
    (DEV_INDEX k (STAGE_PACK k 1 (DEV_STATE_MASK k)) = 1 ↔ 2 ≤ k.NUM_DEVICES) ∧
    DEV_INDEX k (STAGE_PACK k (DEV_INDEX_MASK k) (DEV_STATE_MASK k)) = DEV_INDEX_MASK k ∧
    DEV_STATE k (STAGE_PACK k (DEV_INDEX_MASK k) 0) = 0 ∧
    DEV_STATE k (STAGE_PACK k (DEV_INDEX_MASK k) 1) = 1 ∧
    DEV_STATE k (STAGE_PACK k (DEV_INDEX_MASK k) (DEV_STATE_MASK k)) = DEV_STATE_MASK k := by
  obtain ⟨b15, hle, hmin⟩ := LOG2_spec k.NUM_DEVICES h2
  have hbits : DEV_INDEX_BITS k = _LOG2 k.NUM_DEVICES := rfl
  have hmask : DEV_INDEX_MASK k = 2 ^ DEV_INDEX_BITS k - 1 := by
    unfold DEV_INDEX_MASK
    rw [hbits]
    exact BITS_MASK_eq _ b15
  have hpos : 0 < 2 ^ DEV_INDEX_BITS k := Nat.two_pow_pos _
  have hsmall : ∀ e, k.NUM_DEVICES ≤ 2 ^ e → DEV_INDEX_BITS k ≤ e := by
    intro e he
    by_contra hlt
    rcases hmin with h0 | hlow
    · rw [hbits] at hlt; omega
    · have hmono : 2 ^ e ≤ 2 ^ (_LOG2 k.NUM_DEVICES - 1) :=
        Nat.pow_le_pow_right (by omega) (by rw [hbits] at hlt; omega)
      omega
  have hround : ∀ i s, i ≤ DEV_INDEX_MASK k →
      DEV_INDEX k (STAGE_PACK k i s) = i ∧ DEV_STATE k (STAGE_PACK k i s) = s := by
    intro i s hi
    have hi' : i < 2 ^ DEV_INDEX_BITS k := by rw [hmask] at hi; omega
    obtain ⟨r1, r2⟩ := pack_roundtrip (DEV_INDEX_BITS k) i s hi'
    unfold DEV_INDEX DEV_STATE STAGE_PACK
    rw [hmask]
    exact ⟨r1, r2⟩
  have hmm : DEV_INDEX_MASK k ≤ DEV_INDEX_MASK k := Nat.le_refl _
  refine ⟨⟨by rw [hbits]; exact hle, hsmall⟩, hmask, ?_, hround,
    (hround 0 _ (Nat.zero_le _)).1, ?_, (hround _ _ hmm).1,
    (hround _ 0 hmm).2, (hround _ 1 hmm).2, (hround _ _ hmm).2⟩
  · intro i hi
    have : k.NUM_DEVICES ≤ 2 ^ DEV_INDEX_BITS k := by rw [hbits]; exact hle
    rw [hmask]
    omega
  · constructor
    · intro h
      by_contra hlt
      have hb0 : DEV_INDEX_BITS k = 0 := by
        have := hsmall 0 (by simp; omega)
        omega
      unfold DEV_INDEX at h
      rw [hmask, hb0] at h
      simp at h
    · intro h
      have hb : 1 ≤ DEV_INDEX_BITS k := by
        by_contra hc
        have hb0 : DEV_INDEX_BITS k = 0 := by omega
        have : k.NUM_DEVICES ≤ 2 ^ DEV_INDEX_BITS k := by rw [hbits]; exact hle
        rw [hb0] at this
        simp at this
        omega
      have h2le : 2 ^ 1 ≤ 2 ^ DEV_INDEX_BITS k := Nat.pow_le_pow_right (by omega) hb
      exact (hround 1 _ (by rw [hmask]; omega)).1

/-- Witness for the amended C27 with 5 devices. -/
theorem stage_pack_roundtrip_witness :
    DEV_INDEX ⟨5, 33, 1, 1⟩ (STAGE_PACK ⟨5, 33, 1, 1⟩ 4 32) = 4 ∧
    DEV_STATE ⟨5, 33, 1, 1⟩ (STAGE_PACK ⟨5, 33, 1, 1⟩ 4 32) = 32 :=
  (stage_pack_roundtrip ⟨5, 33, 1, 1⟩ (by decide) (by decide)).2.2.2.1 4 32 (by decide)

/-! ## End-to-end scenario -/

theorem scenario_step1 (v : Int) :
    inner_iteration small_kconfig rails_config rail_ports
      ⟨⟨1, 3, 255, 255, [⟨0, 0, 0⟩, ⟨0, 0, 0⟩, ⟨0, 0, 0⟩], 0, 0⟩, [⟨0, none⟩, ⟨0, none⟩], v, []⟩
    = (flow.again, ⟨⟨1, 3, 0, 0, [⟨0, 0, 0⟩, ⟨0, 0, 0⟩, ⟨0, 0, 0⟩], 0, 0⟩,
        [⟨0, some 1⟩, ⟨0, none⟩], 0, [event.get ⟨10, 0⟩, event.set ⟨10, 0⟩ 1]⟩) := by
  unfold inner_iteration stage_step
  dsimp only
  rfl

theorem scenario_run1 (v : Int) :
    power_graph_task small_kconfig rails_config rail_ports 10
      ⟨⟨1, 3, 255, 255, [⟨0, 0, 0⟩, ⟨0, 0, 0⟩, ⟨0, 0, 0⟩], 0, 0⟩, [⟨0, none⟩, ⟨0, none⟩], v, []⟩
    = some (task_exit.suspended, ⟨⟨1, 3, 0, 0, [⟨0, 0, 0⟩, ⟨0, 0, 0⟩, ⟨0, 0, 0⟩], 0, 0⟩,
        [⟨0, some 1⟩, ⟨0, none⟩], 0,
        [event.get ⟨10, 0⟩, event.set ⟨10, 0⟩ 1, event.get ⟨10, 0⟩]⟩) := by
  unfold power_graph_task
  rw [power_graph_task_from]
  dsimp only
  rw [if_neg (by decide), power_graph_task_from, scenario_step1 v]
  rfl

theorem scenario_step2 (v : Int) :
    inner_iteration small_kconfig rails_config rail_ports
      ⟨⟨1, 3, 0, 0, [⟨0, 0, 0⟩, ⟨0, 0, 0⟩, ⟨0, 0, 0⟩], 0, 0⟩, [⟨1, none⟩, ⟨0, none⟩], v,
        [event.get ⟨10, 0⟩, event.set ⟨10, 0⟩ 1, event.get ⟨10, 0⟩]⟩
    = (flow.leave, ⟨⟨2, 3, 255, 255, [⟨0, 0, 0⟩, ⟨0, 0, 0⟩, ⟨0, 0, 0⟩], 0, 0⟩,
        [⟨1, none⟩, ⟨0, none⟩], 1,
        [event.get ⟨10, 0⟩, event.set ⟨10, 0⟩ 1, event.get ⟨10, 0⟩, event.get ⟨10, 0⟩]⟩) := by
  unfold inner_iteration stage_step
  dsimp only
  rfl

theorem scenario_run2 (v : Int) :
    power_graph_task small_kconfig rails_config rail_ports 10
      ⟨⟨1, 3, 0, 0, [⟨0, 0, 0⟩, ⟨0, 0, 0⟩, ⟨0, 0, 0⟩], 0, 0⟩, [⟨1, none⟩, ⟨0, none⟩], v,
        [event.get ⟨10, 0⟩, event.set ⟨10, 0⟩ 1, event.get ⟨10, 0⟩]⟩
    = some (task_exit.suspended, ⟨⟨2, 3, 1, 0, [⟨0, 0, 0⟩, ⟨0, 0, 0⟩, ⟨0, 0, 0⟩], 0, 0⟩,
        [⟨1, none⟩, ⟨0, some 1⟩], 0,
        [event.get ⟨10, 0⟩, event.set ⟨10, 0⟩ 1, event.get ⟨10, 0⟩, event.get ⟨10, 0⟩,
          event.get ⟨11, 0⟩, event.set ⟨11, 0⟩ 1, event.get ⟨11, 0⟩]⟩) := by
  unfold power_graph_task
  rw [power_graph_task_from]
  dsimp only
  rw [if_neg (by decide), power_graph_task_from, scenario_step2 v]
  rfl

theorem scenario_step3 (v : Int) :
    inner_iteration small_kconfig rails_config rail_ports
      ⟨⟨2, 3, 1, 0, [⟨0, 0, 0⟩, ⟨0, 0, 0⟩, ⟨0, 0, 0⟩], 0, 0⟩, [⟨1, none⟩, ⟨1, none⟩], v,
        [event.get ⟨10, 0⟩, event.set ⟨10, 0⟩ 1, event.get ⟨10, 0⟩, event.get ⟨10, 0⟩,
          event.get ⟨11, 0⟩, event.set ⟨11, 0⟩ 1, event.get ⟨11, 0⟩]⟩
    = (flow.leave, ⟨⟨3, 3, 255, 255, [⟨0, 0, 0⟩, ⟨0, 0, 0⟩, ⟨0, 0, 0⟩], 0, 0⟩,
        [⟨1, none⟩, ⟨1, none⟩], 1,
        [event.get ⟨10, 0⟩, event.set ⟨10, 0⟩ 1, event.get ⟨10, 0⟩, event.get ⟨10, 0⟩,
          event.get ⟨11, 0⟩, event.set ⟨11, 0⟩ 1, event.get ⟨11, 0⟩, event.get ⟨11, 0⟩]⟩) := by
  unfold inner_iteration stage_step
  dsimp only
  rfl

theorem scenario_run3 (v : Int) :
    power_graph_task small_kconfig rails_config rail_ports 10
      ⟨⟨2, 3, 1, 0, [⟨0, 0, 0⟩, ⟨0, 0, 0⟩, ⟨0, 0, 0⟩], 0, 0⟩, [⟨1, none⟩, ⟨1, none⟩], v,
        [event.get ⟨10, 0⟩, event.set ⟨10, 0⟩ 1, event.get ⟨10, 0⟩, event.get ⟨10, 0⟩,
          event.get ⟨11, 0⟩, event.set ⟨11, 0⟩ 1, event.get ⟨11, 0⟩]⟩
    = some (task_exit.notified, ⟨⟨3, 3, 255, 255, [⟨0, 0, 0⟩, ⟨0, 0, 0⟩, ⟨0, 0, 0⟩], 0, 0⟩,
        [⟨1, none⟩, ⟨1, none⟩], 1,
        [event.get ⟨10, 0⟩, event.set ⟨10, 0⟩ 1, event.get ⟨10, 0⟩, event.get ⟨10, 0⟩,
          event.get ⟨11, 0⟩, event.set ⟨11, 0⟩ 1, event.get ⟨11, 0⟩, event.get ⟨11, 0⟩,
          event.notify]⟩) := by
  unfold power_graph_task
  rw [power_graph_task_from]
  dsimp only
  rw [if_neg (by decide), power_graph_task_from, scenario_step3 v]
  rfl

/-- C23. End-to-end scenario on the rails topology (OFF = 1, STANDBY = 2, ON = 3,
safe state OFF): the request of ON is accepted and submits the work item; the
first run commands rail A to 1 and suspends in transition 0; after the completion
of rail A the second run commits STANDBY, commands rail B to 1 and suspends in
transition 1; after the completion of rail B the third run commits ON and returns
through the notification.  The set-commands are exactly (A, 1) then (B, 1), no
fault is recorded, no transition is active at the end, and subscribers are
notified exactly once, whatever the uninitialised local `val` holds at the start
of each run. -/
theorem end_to_end_scenario_outcome (v1 v2 v3 : Int) :
    ∃ m1 m2 m3 : machine (List rail),
      end_to_end_scenario v1 v2 v3
        = some ((0, true), (task_exit.suspended, m1), (task_exit.suspended, m2),
            (task_exit.notified, m3)) ∧
      m1.data.state = 1 ∧ m1.data.transition = 0 ∧ m1.data.stage = 0 ∧
      m1.trace = [event.get ⟨10, 0⟩, event.set ⟨10, 0⟩ 1, event.get ⟨10, 0⟩] ∧
      m2.data.state = 2 ∧ m2.data.transition = 1 ∧ m2.data.stage = 0 ∧
      m3.data.state = 3 ∧ m3.data.new_state = 3 ∧
      m3.data.transition = NO_STATE ∧
      m3.data.stage = NO_STAGE { NUM_DEVICES := 2, NUM_STATES := 2, NUM_STAGES := 4, FAULT_LOG := 3 } ∧
      m3.data.num_faults = 0 ∧
      m3.trace = [event.get ⟨10, 0⟩, event.set ⟨10, 0⟩ 1, event.get ⟨10, 0⟩,
        event.get ⟨10, 0⟩, event.get ⟨11, 0⟩, event.set ⟨11, 0⟩ 1, event.get ⟨11, 0⟩,
        event.get ⟨11, 0⟩, event.notify] ∧
      m3.trace.count event.notify = 1 ∧
      m3.world = [⟨1, none⟩, ⟨1, none⟩] := by
  have hrun : end_to_end_scenario v1 v2 v3
      = some ((0, true),
          (task_exit.suspended, ⟨⟨1, 3, 0, 0, [⟨0, 0, 0⟩, ⟨0, 0, 0⟩, ⟨0, 0, 0⟩], 0, 0⟩,
            [⟨0, some 1⟩, ⟨0, none⟩], 0,
            [event.get ⟨10, 0⟩, event.set ⟨10, 0⟩ 1, event.get ⟨10, 0⟩]⟩),
          (task_exit.suspended, ⟨⟨2, 3, 1, 0, [⟨0, 0, 0⟩, ⟨0, 0, 0⟩, ⟨0, 0, 0⟩], 0, 0⟩,
            [⟨1, none⟩, ⟨0, some 1⟩], 0,
            [event.get ⟨10, 0⟩, event.set ⟨10, 0⟩ 1, event.get ⟨10, 0⟩, event.get ⟨10, 0⟩,
              event.get ⟨11, 0⟩, event.set ⟨11, 0⟩ 1, event.get ⟨11, 0⟩]⟩),
          (task_exit.notified, ⟨⟨3, 3, 255, 255, [⟨0, 0, 0⟩, ⟨0, 0, 0⟩, ⟨0, 0, 0⟩], 0, 0⟩,
            [⟨1, none⟩, ⟨1, none⟩], 1,
            [event.get ⟨10, 0⟩, event.set ⟨10, 0⟩ 1, event.get ⟨10, 0⟩, event.get ⟨10, 0⟩,
              event.get ⟨11, 0⟩, event.set ⟨11, 0⟩ 1, event.get ⟨11, 0⟩, event.get ⟨11, 0⟩,
              event.notify]⟩)) := by
    unfold end_to_end_scenario
    dsimp only
    erw [scenario_run1 v1]
    dsimp only
    erw [scenario_run2 v2]
    dsimp only
    erw [scenario_run3 v3]
    rfl
  exact ⟨_, _, _, hrun, rfl, rfl, rfl, rfl, rfl, rfl, rfl, rfl, rfl, rfl, rfl, rfl, rfl,
    by decide, rfl⟩

/-! ## Subscriber registry: list representation -/

theorem linked_congr {next next' : Nat → Option Nat} :
    ∀ (l : List Nat) (p : Option Nat), (∀ a ∈ l, next' a = next a) →
      linked next p l → linked next' p l
  | [], _, _, h => h
  | a :: l, _, hag, h =>
    ⟨h.1, by
      rw [hag a (List.mem_cons_self _ _)]
      exact linked_congr l _ (fun b hb => hag b (List.mem_cons_of_mem _ hb)) h.2⟩

theorem linked_unique {next : Nat → Option Nat} :
    ∀ (l l' : List Nat) (p : Option Nat), linked next p l → linked next p l' → l = l'
  | [], [], _, _, _ => rfl
  | [], _ :: _, _, h, h' => by rw [h] at h'; exact absurd h'.1 (by simp)
  | _ :: _, [], _, h, h' => by rw [h'] at h; exact absurd h.1 (by simp)
  | a :: l, b :: l', _, h, h' => by
    have hab : a = b := by
      have := h.1.symm.trans h'.1
      simpa using this
    subst hab
    rw [linked_unique l l' _ h.2 h'.2]

theorem linked_snoc {next : Nat → Option Nat} {node t : Nat} :
    ∀ (l : List Nat) (p : Option Nat), linked next p l → l.Nodup → node ∉ l →
      l.getLast? = some t →
      linked (z_snode_next_set (z_snode_next_set next node none) t (some node)) p (l ++ [node])
  | [], _, _, _, _, ht => by simp at ht
  | [a], p, h, _, hn, ht => by
    have hat : a = t := by simpa using ht
    have hna : node ≠ a := by simpa using hn
    subst hat
    refine ⟨h.1, ?_, ?_⟩
    · simp [z_snode_next_set]
    · simp [z_snode_next_set, hna, linked]
  | a :: b :: l, p, h, hd, hn, ht => by
    have hd' := List.nodup_cons.1 hd
    have ht' : (b :: l).getLast? = some t := by simpa using ht
    have htm : t ∈ b :: l := List.mem_of_getLast?_eq_some ht'
    have hat : a ≠ t := fun e => hd'.1 (e ▸ htm)
    have han : a ≠ node := fun e => hn (e ▸ List.mem_cons_self _ _)
    have ih := linked_snoc (b :: l) (next a) h.2 hd'.2
      (fun hm => hn (List.mem_cons_of_mem _ hm)) ht'
    refine ⟨h.1, ?_⟩
    have hnext : z_snode_next_set (z_snode_next_set next node none) t (some node) a = next a := by
      simp [z_snode_next_set, hat, han]
    rw [hnext]
    exact ih

theorem sys_slist_append_repr {s : value_sub} {l : List Nat} {node : Nat}
    (h : sub_repr s l) (hn : node ∉ l) : sub_repr (sys_slist_append s node) (l ++ [node]) := by
  obtain ⟨hd, hl, ht⟩ := h
  have hd' : (l ++ [node]).Nodup := by
    rw [List.nodup_append]
    exact ⟨hd, List.nodup_singleton _, by simpa using hn⟩
  cases hlast : l.getLast? with
  | none =>
    have hnil : l = [] := List.getLast?_eq_none_iff.1 hlast
    subst hnil
    rw [hlast] at ht
    unfold sys_slist_append
    rw [ht]
    exact ⟨hd', ⟨rfl, by simp [z_snode_next_set, linked]⟩, by simp⟩
  | some t =>
    rw [hlast] at ht
    unfold sys_slist_append
    rw [ht]
    exact ⟨hd', linked_snoc l _ hl hd hn hlast, by simp⟩

theorem linked_unlink {next : Nat → Option Nat} {node prev : Nat} {r : List Nat} :
    ∀ (pre : List Nat) (p : Option Nat), pre.getLast? = some prev →
      linked next p (pre ++ node :: r) → (pre ++ node :: r).Nodup →
      linked (z_snode_next_set (z_snode_next_set next prev (next node)) node none) p (pre ++ r)
  | [], _, hp, _, _ => by simp at hp
  | [a], p, hp, h, hd => by
    have hap : a = prev := by simpa using hp
    subst hap
    have hd1 : a ∉ node :: r ∧ (node :: r).Nodup := List.nodup_cons.1 hd
    have hd2 : node ∉ r ∧ r.Nodup := List.nodup_cons.1 hd1.2
    have han : a ≠ node := fun e => hd1.1 (e ▸ List.mem_cons_self _ _)
    have har : a ∉ r := fun hm => hd1.1 (List.mem_cons_of_mem _ hm)
    obtain ⟨h1, _, h3⟩ := h
    refine ⟨h1, ?_⟩
    have hnext : z_snode_next_set (z_snode_next_set next a (next node)) node none a
        = next node := by
      simp [z_snode_next_set, han]
    rw [hnext]
    refine linked_congr r _ (fun b hb => ?_) h3
    have hba : b ≠ a := fun e => har (e ▸ hb)
    have hbn : b ≠ node := fun e => hd2.1 (e ▸ hb)
    simp [z_snode_next_set, hba, hbn]
  | a :: b :: pre, p, hp, h, hd => by
    have hp' : (b :: pre).getLast? = some prev := by simpa using hp
    have hd1 : a ∉ (b :: pre) ++ node :: r ∧ ((b :: pre) ++ node :: r).Nodup :=
      List.nodup_cons.1 hd
    have hpm : prev ∈ (b :: pre) ++ node :: r :=
      List.mem_append_left _ (List.mem_of_getLast?_eq_some hp')
    have hap : a ≠ prev := fun e => hd1.1 (e ▸ hpm)
    have han : a ≠ node := fun e => hd1.1 (e ▸ by simp)
    refine ⟨h.1, ?_⟩
    have hnext : z_snode_next_set (z_snode_next_set next prev (next node)) node none a
        = next a := by
      simp [z_snode_next_set, han, hap]
    rw [hnext]
    exact linked_unlink (b :: pre) (next a) hp' h.2 hd1.2

theorem linked_append_head {next : Nat → Option Nat} {node : Nat} {r : List Nat} :
    ∀ (pre : List Nat) (p : Option Nat), linked next p (pre ++ node :: r) →
      linked next (next node) r
  | [], _, h => h.2
  | _ :: pre, _, h => linked_append_head pre _ h.2

theorem sys_slist_remove_repr {s : value_sub} {pre r : List Nat} {node : Nat}
    (h : sub_repr s (pre ++ node :: r)) :
    sub_repr (sys_slist_remove s pre.getLast? node) (pre ++ r) := by
  obtain ⟨hd, hl, ht⟩ := h
  have hd' : (pre ++ r).Nodup := by
    rw [List.nodup_append] at hd ⊢
    exact ⟨hd.1, (List.nodup_cons.1 hd.2.1).2,
      fun a ha hb => hd.2.2 ha (List.mem_cons_of_mem _ hb)⟩
  have hnr : node ∉ r := by
    rw [List.nodup_append] at hd
    exact (List.nodup_cons.1 hd.2.1).1
  have htail : s.tail = (node :: r).getLast? := by
    rw [ht, List.getLast?_append_of_ne_nil _ (List.cons_ne_nil _ _)]
  have hrest : linked s.next (s.next node) r := linked_append_head pre _ hl
  cases hpre : pre.getLast? with
  | none =>
    have hnil : pre = [] := List.getLast?_eq_none_iff.1 hpre
    subst hnil
    have hlr : linked (z_snode_next_set s.next node none) (s.next node) r :=
      linked_congr r _ (fun b hb => by
        have hbn : b ≠ node := fun e => hnr (e ▸ hb)
        simp [z_snode_next_set, hbn]) hrest
    cases r with
    | nil =>
      have hnn : s.next node = none := hrest
      refine ⟨hd', ?_, ?_⟩
      · simpa [sys_slist_remove, htail] using hlr
      · simp [sys_slist_remove, htail, hnn]
    | cons x r =>
      have hxn : (x :: r).getLast? ≠ some node := fun e =>
        hnr (List.mem_of_getLast?_eq_some e)
      have htail' : s.tail = (x :: r).getLast? := by
        rw [htail]; simp [List.getLast?_cons_cons]
      have hne : ¬ s.tail = some node := by rw [htail']; exact hxn
      refine ⟨hd', ?_, ?_⟩
      · simpa [sys_slist_remove, hne] using hlr
      · simp only [sys_slist_remove, if_neg hne]
        simpa using htail'
  | some prev =>
    have hpne : pre ≠ [] := fun e => by simp [e] at hpre
    have hlr := linked_unlink pre s.head hpre hl hd
    cases r with
    | nil =>
      refine ⟨hd', ?_, ?_⟩
      · simpa [sys_slist_remove, htail] using hlr
      · simp [sys_slist_remove, htail, hpre]
    | cons x r =>
      have hxn : (x :: r).getLast? ≠ some node := fun e =>
        hnr (List.mem_of_getLast?_eq_some e)
      have htail' : s.tail = (x :: r).getLast? := by
        rw [htail]; simp [List.getLast?_cons_cons]
      have hne : ¬ s.tail = some node := by rw [htail']; exact hxn
      refine ⟨hd', ?_, ?_⟩
      · simpa [sys_slist_remove, hne] using hlr
      · simp only [sys_slist_remove, if_neg hne]
        rw [htail', List.getLast?_append_of_ne_nil _ (List.cons_ne_nil _ _)]

theorem sys_slist_find_and_remove_from_spec {s : value_sub} {l : List Nat} {node : Nat}
    (h : sub_repr s l) :
    ∀ (rest pre : List Nat) (fuel : Nat) (test : Option Nat), l = pre ++ rest →
      linked s.next test rest → node ∉ pre → rest.length ≤ fuel →
      ∃ s', sys_slist_find_and_remove_from s node fuel pre.getLast? test
          = some (decide (node ∈ rest), s') ∧ sub_repr s' (l.erase node)
  | [], pre, fuel, test, hl, hlk, hnp, _ => by
    have htest : test = none := hlk
    subst htest
    refine ⟨s, ?_, ?_⟩
    · cases fuel <;> simp [sys_slist_find_and_remove_from]
    · have hnl : node ∉ l := by rw [hl]; simpa using hnp
      rw [List.erase_of_not_mem hnl]
      exact h
  | _ :: _, _, 0, _, _, _, _, hf => by simp at hf
  | a :: rest, pre, fuel + 1, test, hl, hlk, hnp, hf => by
    obtain ⟨ht, hlk'⟩ := hlk
    subst ht
    by_cases han : a = node
    · subst han
      refine ⟨sys_slist_remove s pre.getLast? a, ?_, ?_⟩
      · simp [sys_slist_find_and_remove_from]
      · have he : l.erase a = pre ++ rest := by
          rw [hl, List.erase_append_right _ hnp]
          simp
        rw [he]
        exact sys_slist_remove_repr (hl ▸ h)
    · obtain ⟨s', h1, h2⟩ := sys_slist_find_and_remove_from_spec h rest (pre ++ [a]) fuel
        (s.next a) (by simp [hl]) hlk'
        (by
          intro hm
          rcases List.mem_append.1 hm with hm | hm
          · exact hnp hm
          · exact han (List.mem_singleton.1 hm).symm)
        (by simpa using hf)
      refine ⟨s', ?_, h2⟩
      rw [sys_slist_find_and_remove_from, if_neg han]
      rw [List.getLast?_append_of_ne_nil _ (List.cons_ne_nil _ _)] at h1
      rw [show ([a] : List Nat).getLast? = some a from rfl] at h1
      rw [h1]
      have hna : node ≠ a := fun e => han e.symm
      simp [hna]

theorem sys_slist_find_and_remove_spec {s : value_sub} {l : List Nat} (node fuel : Nat)
    (h : sub_repr s l) (hf : l.length ≤ fuel) :
    ∃ s', sys_slist_find_and_remove fuel s node = some (decide (node ∈ l), s') ∧
      sub_repr s' (l.erase node) :=
  sys_slist_find_and_remove_from_spec h l [] fuel s.head rfl h.2.1 (by simp) hf

theorem value_sub_notify_from_spec {func : Nat → Nat → Nat → value_sub → value_sub}
    (hfunc : ∀ cb d i s, func cb d i s = s) (dev id : Nat) (s : value_sub) :
    ∀ (l : List Nat) (fuel : Nat) (p : Option Nat) (calls : List sub_call),
      linked s.next p l → l.length ≤ fuel →
      value_sub_notify_from func dev id fuel s p calls
        = some (calls ++ l.map (fun cb => ⟨cb, dev, id⟩), s)
  | [], fuel, p, calls, hlk, _ => by
    have hp : p = none := hlk
    subst hp
    cases fuel <;> simp [value_sub_notify_from]
  | _ :: _, 0, _, _, _, hf => by simp at hf
  | a :: l, fuel + 1, p, calls, hlk, hf => by
    obtain ⟨hp, hlk'⟩ := hlk
    subst hp
    rw [value_sub_notify_from, hfunc, value_sub_notify_from_spec hfunc dev id s l fuel _ _ hlk' (by simpa using hf)]
    simp

theorem value_sub_script_append (fuel : Nat) :
    ∀ (xs ys : List (Nat × Bool)) (s s1 s2 : value_sub) (as bs : List Bool),
      value_sub_script fuel s xs = some (as, s1) →
      value_sub_script fuel s1 ys = some (bs, s2) →
      value_sub_script fuel s (xs ++ ys) = some (as ++ bs, s2)
  | [], ys, s, s1, s2, as, bs, h1, h2 => by
    simp only [value_sub_script, Option.some.injEq, Prod.mk.injEq] at h1
    obtain ⟨rfl, rfl⟩ := h1
    simpa using h2
  | (cb, b) :: xs, ys, s, s1, s2, as, bs, h1, h2 => by
    rw [value_sub_script] at h1
    rw [List.cons_append, value_sub_script]
    cases hm : value_sub_manage fuel s cb b with
    | mk a r =>
      rw [hm] at h1
      cases r with
      | none => simp at h1
      | some s' =>
        dsimp only at h1 ⊢
        cases hr : value_sub_script fuel s' xs with
        | none => rw [hr] at h1; simp at h1
        | some q =>
          obtain ⟨as', s1'⟩ := q
          rw [hr] at h1
          simp only [Option.some.injEq, Prod.mk.injEq] at h1
          obtain ⟨rfl, rfl⟩ := h1
          rw [value_sub_script_append fuel xs ys s' s1' s2 as' bs hr h2]
          simp

theorem value_sub_script_subscribe (fuel : Nat) :
    ∀ (cbs l : List Nat) (s : value_sub), sub_repr s l → (l ++ cbs).Nodup →
      ∃ as s', value_sub_script fuel s (cbs.map (fun cb => (cb, true))) = some (as, s') ∧
        sub_repr s' (l ++ cbs)
  | [], l, s, h, _ => ⟨[], s, rfl, by simpa using h⟩
  | cb :: cbs, l, s, h, hd => by
    have hcb : cb ∉ l := fun hm =>
      (List.nodup_append.1 hd).2.2 hm (List.mem_cons_self _ _)
    have h1 := sys_slist_append_repr h hcb
    obtain ⟨as, s', hs, hr⟩ := value_sub_script_subscribe fuel cbs (l ++ [cb])
      (sys_slist_append s cb) h1 (by simpa using hd)
    refine ⟨(value_sub_active s cb != true) :: as, s', ?_, by simpa using hr⟩
    simp only [List.map_cons, value_sub_script, value_sub_manage, if_true]
    rw [hs]

theorem value_sub_script_unsubscribe (fuel : Nat) :
    ∀ (rem l : List Nat) (s : value_sub), sub_repr s l → l.length ≤ fuel →
      ∃ as s', value_sub_script fuel s (rem.map (fun cb => (cb, false))) = some (as, s') ∧
        sub_repr s' (l.filter (fun cb => decide (cb ∉ rem)))
  | [], l, s, h, _ => ⟨[], s, rfl, by simpa using h⟩
  | cb :: rem, l, s, h, hf => by
    obtain ⟨s1, h1, hr1⟩ := sys_slist_find_and_remove_spec cb fuel h hf
    obtain ⟨as, s', hs, hr⟩ := value_sub_script_unsubscribe fuel rem (l.erase cb) s1 hr1
      (le_trans (List.length_erase_le _ _) hf)
    refine ⟨(value_sub_active s cb != false) :: as, s', ?_, ?_⟩
    · simp only [List.map_cons, value_sub_script, value_sub_manage, h1, Option.map_some']
      simp only [Bool.false_eq_true, if_false]
      rw [hs]
    · have he : (l.erase cb).filter (fun c => decide (c ∉ rem))
          = l.filter (fun c => decide (c ∉ cb :: rem)) := by
        rw [h.1.erase_eq_filter, List.filter_filter]
        apply List.filter_congr
        intro x _
        by_cases hx : x = cb <;> by_cases hr : x ∈ rem <;> simp [hx, hr]
      rw [← he]
      exact hr

theorem linked_last_next {next : Nat → Option Nat} {t : Nat} :
    ∀ (l : List Nat) (p : Option Nat), linked next p (l ++ [t]) →
      next t = none ∧ ∀ c ∈ l, (next c).isSome = true
  | [], _, h => ⟨h.2, fun _ hc => absurd hc (List.not_mem_nil _)⟩
  | a :: l, _, h => by
    obtain ⟨ht, hrest⟩ := linked_last_next l (next a) h.2
    refine ⟨ht, fun c hc => ?_⟩
    rcases List.mem_cons.1 hc with rfl | hc
    · cases l with
      | nil => rw [h.2.1]; rfl
      | cons b l => rw [h.2.1]; rfl
    · exact hrest c hc

theorem value_sub_init_repr (mem : value_sub) : sub_repr (value_sub_init mem) [] :=
  ⟨List.nodup_nil, rfl, rfl⟩

/-! ## Subscriber registry: contract check and notification order -/

/-- C24. After any distinct registrations `cbs` and then `cb` have been
subscribed in order with `value_sub_manage`, `cb` is in the list (it is the
last element, and the search of the removal finds it), the earlier
registrations are reported active, but `value_sub_active(cb)` is false: the
tail node's `next` is `NULL`.  So unsubscribing the most recently subscribed
registration violates the assertion of `value_sub_manage`, and subscribing it
a second time passes the assertion. -/
theorem value_sub_active_misses_tail (mem : value_sub) (cbs : List Nat) (cb fuel : Nat)
    (hd : (cbs ++ [cb]).Nodup) (hf : cbs.length + 1 ≤ fuel) :
    ∃ as s, value_sub_script fuel (value_sub_init mem)
          ((cbs ++ [cb]).map (fun c => (c, true))) = some (as, s) ∧
      sub_repr s (cbs ++ [cb]) ∧
      (∀ c ∈ cbs, value_sub_active s c = true) ∧
      value_sub_active s cb = false ∧
      (sys_slist_find_and_remove fuel s cb).map Prod.fst = some true ∧
      (value_sub_manage fuel s cb false).1 = false ∧
      (value_sub_manage fuel s cb true).1 = true := by
  obtain ⟨as, s, hs, hr⟩ := value_sub_script_subscribe fuel (cbs ++ [cb]) []
    (value_sub_init mem) (value_sub_init_repr mem) (by simpa using hd)
  rw [List.nil_append] at hr
  obtain ⟨ht, hrest⟩ := linked_last_next cbs s.head hr.2.1
  obtain ⟨s1, h1, _⟩ := sys_slist_find_and_remove_spec cb fuel hr (by simpa using hf)
  have hact : value_sub_active s cb = false := by
    unfold value_sub_active
    rw [ht]
    rfl
  refine ⟨as, s, hs, hr, hrest, hact, ?_, ?_, ?_⟩
  · rw [h1]
    simp
  · simp [value_sub_manage, hact]
  · simp [value_sub_manage, hact]

/-- Witness for C24: the only registration of a list, subscribed and then
unsubscribed. -/
theorem value_sub_active_misses_tail_witness :
    ∃ as s, value_sub_script 1 (value_sub_init value_sub_fresh)
          (([] ++ [1]).map (fun c => (c, true))) = some (as, s) ∧
      sub_repr s ([] ++ [1]) ∧
      (∀ c ∈ ([] : List Nat), value_sub_active s c = true) ∧
      value_sub_active s 1 = false ∧
      (sys_slist_find_and_remove 1 s 1).map Prod.fst = some true ∧
      (value_sub_manage 1 s 1 false).1 = false ∧
      (value_sub_manage 1 s 1 true).1 = true :=
  value_sub_active_misses_tail value_sub_fresh [] 1 1 (by decide) (by decide)

/-- C25. For distinct registrations `cbs` subscribed in that order with
`value_sub_manage`, and any registrations `rem` unsubscribed afterwards, the calls
return (with fuel for one pass over the list), and one `value_sub_notify` then
returns having invoked exactly the registrations of `cbs` not in `rem`, in
subscription order, each once, each with the device and value id of the
notification, when the callbacks leave the memory as it is. -/
theorem value_sub_notify_order (func : Nat → Nat → Nat → value_sub → value_sub)
    (hfunc : ∀ cb d i s, func cb d i s = s) (mem : value_sub) (cbs rem : List Nat)
    (hd : cbs.Nodup) (fuel : Nat) (hf : cbs.length ≤ fuel) (dev id : Nat) :
    ∃ as s calls, value_sub_script fuel (value_sub_init mem)
          (cbs.map (fun cb => (cb, true)) ++ rem.map (fun cb => (cb, false))) = some (as, s) ∧
      value_sub_notify func fuel s dev id = some (calls, s) ∧
      calls = (cbs.filter (fun cb => decide (cb ∉ rem))).map (fun cb => ⟨cb, dev, id⟩) ∧
      (∀ cb ∈ cbs, cb ∉ rem → calls.count ⟨cb, dev, id⟩ = 1) ∧
      (∀ c ∈ calls, c.cb ∈ cbs ∧ c.cb ∉ rem ∧ c.dev = dev ∧ c.id = id) := by
  obtain ⟨as, s1, hs1, hr1⟩ := value_sub_script_subscribe fuel cbs []
    (value_sub_init mem) (value_sub_init_repr mem) (by simpa using hd)
  rw [List.nil_append] at hr1
  obtain ⟨bs, s, hs, hr⟩ := value_sub_script_unsubscribe fuel rem cbs s1 hr1 hf
  have hlen : (cbs.filter (fun cb => decide (cb ∉ rem))).length ≤ fuel :=
    le_trans (List.length_filter_le _ _) hf
  have hn := value_sub_notify_from_spec hfunc dev id s _ fuel s.head [] hr.2.1 hlen
  rw [List.nil_append] at hn
  have hinj : Function.Injective (fun cb : Nat => (⟨cb, dev, id⟩ : sub_call)) := by
    intro a b hab
    exact congrArg sub_call.cb hab
  refine ⟨as ++ bs, s, _, value_sub_script_append fuel _ _ _ _ _ _ _ hs1 hs, hn, rfl, ?_, ?_⟩
  · intro cb hcb hnr
    apply List.count_eq_one_of_mem
    · exact (hd.filter _).map hinj
    · exact List.mem_map.2 ⟨cb, List.mem_filter.2 ⟨hcb, by simpa using hnr⟩, rfl⟩
  · intro c hc
    obtain ⟨cb, hcb, rfl⟩ := List.mem_map.1 hc
    obtain ⟨h1, h2⟩ := List.mem_filter.1 hcb
    exact ⟨h1, by simpa using h2, rfl, rfl⟩

/-- Witness for C25: registrations 1, 2, 3 subscribed, 2 unsubscribed, device 7
notifying value id 0. -/
theorem value_sub_notify_order_witness :
    ∃ as s calls, value_sub_script 3 (value_sub_init value_sub_fresh)
          ([1, 2, 3].map (fun cb => (cb, true)) ++ [2].map (fun cb => (cb, false)))
          = some (as, s) ∧
      value_sub_notify (fun _ _ _ s => s) 3 s 7 0 = some (calls, s) ∧
      calls = ([1, 2, 3].filter (fun cb => decide (cb ∉ [2]))).map (fun cb => ⟨cb, 7, 0⟩) ∧
      (∀ cb ∈ [1, 2, 3], cb ∉ [2] → calls.count ⟨cb, 7, 0⟩ = 1) ∧
      (∀ c ∈ calls, c.cb ∈ [1, 2, 3] ∧ c.cb ∉ [2] ∧ c.dev = 7 ∧ c.id = 0) :=
  value_sub_notify_order (fun _ _ _ s => s) (fun _ _ _ _ => rfl) value_sub_fresh [1, 2, 3] [2]
    (by decide) 3 (by decide) 7 0

end PowerGraph
